import Mathlib

/-!
# Framing and dispatch layer of `legacy/bootloader/messages.c`

A shallow embedding of the message registry, the outbound chunking ring buffer
and the inbound reassembly state machine, followed by theorems about them.

Conventions of the embedding

* `char`, `uint8_t`, `uint16_t`, `uint32_t` values are natural numbers; a
  reduction modulo `2^w` is written where the C expression can wrap.
* Pointers to descriptors and handlers are natural numbers, `0` being `NULL`.
* The static buffers are lists of bytes.  A store or a `memcpy` outside the
  bounds of the destination array has no defined result; the embedding returns
  `none` for it.
* `MSG_IN_SIZE`, `MSG_OUT_SIZE`, the rows of `messages_map.h` and the nanopb
  entry points come from headers outside this file and are parameters (`Env`).
* Calls that leave the module (`msg_process` entered, a handler called through
  `process_func`) are recorded as events.
* The slot count is `MSG_OUT_SIZE / 64`.  The cursors are reduced modulo it; C
  gives no meaning to that reduction when the count is 0, so the theorems on
  cursor arithmetic are stated for a ring of at least one slot.
-/

namespace Messages

/-! ## Data model -/

/-- A row of the registry, `struct MessagesMap_t`. -/
structure MessagesMap_t where
  /-- The category: `'n'` normal, `'d'` debug. -/
  type : Nat
  /-- The direction: `'i'` in, `'o'` out. -/
  dir : Nat
  /-- The numeric message identifier (`uint16_t`). -/
  msg_id : Nat
  /-- The address of the nanopb descriptor, `0` for `NULL`. -/
  fields : Nat
  /-- The address of the handler, `0` for `NULL`. -/
  process_func : Nat
deriving DecidableEq

/-- What the translation unit takes from its headers and from nanopb. -/
structure Env where
  /-- Capacity of `msg_in` and of `msg_in_buffer`. -/
  MSG_IN_SIZE : Nat
  /-- Capacity of `msg_out`. -/
  MSG_OUT_SIZE : Nat
  /-- The rows that `messages_map.h` contributes to `MessagesMap`. -/
  messages_map : List MessagesMap_t
  /-- Size pass `pb_get_encoded_size(&len, fields, msg_ptr)`: `none` when it
  returns `false`, else the length it stores in `len`. -/
  pb_get_encoded_size : Nat → List Nat → Option Nat
  /-- Encoder `pb_encode(&stream, fields, msg_ptr)`: the buffers it hands, one
  after the other, to the stream callback, and the status it returns. -/
  pb_encode : Nat → List Nat → List (List Nat) × Bool
  /-- Decoder `pb_decode(&stream, fields, dest)`: from the descriptor, the bytes
  of the input stream and the destination contents, the status and the new
  destination contents. -/
  pb_decode : Nat → List Nat → List Nat → Bool × List Nat

/-- A call that leaves the framing layer. -/
inductive Event where
  /-- Entry into `msg_process(type, msg_id, fields, msg_raw, msg_size)`; `msg_raw`
  stands for the `msg_size` bytes the input stream is built over. -/
  | msg_process (type msg_id fields : Nat) (msg_raw : List Nat) (msg_size : Nat)
  /-- The call `m->process_func(ptr)`, with the address called and the bytes that
  `ptr` points to.  The embedding does not follow the callee. -/
  | process_func (fn : Nat) (ptr : List Nat)
deriving DecidableEq

/-- `READSTATE_IDLE` of the anonymous enum. -/
def READSTATE_IDLE : Nat := 0

/-- `READSTATE_READING` of the anonymous enum. -/
def READSTATE_READING : Nat := 1

/-- Every variable of static storage duration of the translation unit, the
function-local statics of `msg_read_common` included. -/
structure State where
  /-- Scratch buffer the decoder writes the message object into. -/
  msg_in_buffer : List Nat
  /-- Read cursor of the ring, a slot index. -/
  msg_out_start : Nat
  /-- Write cursor of the ring, a slot index. -/
  msg_out_end : Nat
  /-- Offset of the next byte inside the slot being written. -/
  msg_out_cur : Nat
  /-- The ring of 64-byte slots. -/
  msg_out : List Nat
  /-- Global `decode_flag`. -/
  decode_flag : Bool
  /-- Static `read_state` of `msg_read_common`. -/
  read_state : Nat
  /-- Static reassembly buffer `msg_in` of `msg_read_common`. -/
  msg_in : List Nat
  /-- Static `msg_id` of `msg_read_common`. -/
  msg_id : Nat
  /-- Static `msg_size` of `msg_read_common`. -/
  msg_size : Nat
  /-- Static `msg_pos` of `msg_read_common`. -/
  msg_pos : Nat
  /-- Static `fields` of `msg_read_common`. -/
  fields : Nat
deriving DecidableEq

/-- The state at program start, from the initialisers in the source (zero where
there is none). -/
def State.init (env : Env) : State where
  msg_in_buffer := List.replicate env.MSG_IN_SIZE 0
  msg_out_start := 0
  msg_out_end := 0
  msg_out_cur := 0
  msg_out := List.replicate env.MSG_OUT_SIZE 0
  decode_flag := false
  read_state := READSTATE_IDLE
  msg_in := List.replicate env.MSG_IN_SIZE 0
  msg_id := 0xFFFF
  msg_size := 0
  msg_pos := 0
  fields := 0

/-- Reduction of a value to `uint32_t`. -/
def u32 (x : Nat) : Nat := x % 4294967296

/-- Reduction of a value to `uint16_t`. -/
def u16 (x : Nat) : Nat := x % 65536

/-- The macro `MIN` of `util.h`. -/
def MIN (a b : Nat) : Nat := if a < b then a else b

/-- Assignment `mem[i] = v` to a byte array; `none` when `i` is out of bounds. -/
def store (mem : List Nat) (i v : Nat) : Option (List Nat) :=
  if i < mem.length then some (mem.set i v) else none

/-- Library `memcpy(dst + off, src, n)`; `none` when it would write past the
end of `dst` or read past the end of `src`. -/
def memcpy (dst : List Nat) (off : Nat) (src : List Nat) (n : Nat) : Option (List Nat) :=
  if off + n ≤ dst.length ∧ n ≤ src.length then
    some (dst.take off ++ (src.take n ++ dst.drop (off + n)))
  else none

/-! ## Message registry -/

/-- The array `MessagesMap`: the rows of `messages_map.h`, then the all-zero
end row. -/
def MessagesMap (env : Env) : List MessagesMap_t :=
  env.messages_map ++ [⟨0, 0, 0, 0, 0⟩]

/-- The `while (m->type)` loop of `MessageFields` from row `m` on.  The empty
list is the position after the end row, which the loop never reaches. -/
def MessageFields_loop (type dir msg_id : Nat) : List MessagesMap_t → Nat
  | [] => 0
  | m :: rest =>
    if m.type = 0 then 0
    else if type = m.type ∧ dir = m.dir ∧ msg_id = m.msg_id then m.fields
    else MessageFields_loop type dir msg_id rest

/-- Source function `MessageFields`: the descriptor registered for the key, `0` when
the scan reaches the end row. -/
def MessageFields (env : Env) (type dir msg_id : Nat) : Nat :=
  MessageFields_loop type dir msg_id (MessagesMap env)

/-- The `while (m->type)` loop of `MessageProcessFunc` from row `m` on. -/
def MessageProcessFunc_loop (type dir msg_id : Nat) (ptr : List Nat) :
    List MessagesMap_t → List Event
  | [] => []
  | m :: rest =>
    if m.type = 0 then []
    else if type = m.type ∧ dir = m.dir ∧ msg_id = m.msg_id then
      [Event.process_func m.process_func ptr]
    else MessageProcessFunc_loop type dir msg_id ptr rest

/-- Source function `MessageProcessFunc`: the calls it makes.  On the first row that
matches the key it calls `m->process_func(ptr)`, whatever the pointer is, and
returns. -/
def MessageProcessFunc (env : Env) (type dir msg_id : Nat) (ptr : List Nat) : List Event :=
  MessageProcessFunc_loop type dir msg_id ptr (MessagesMap env)

/-! ## Outbound frame encoder -/

/-- Source function `msg_out_append`. -/
def msg_out_append (env : Env) (s : State) (c : Nat) : Option State :=
  let opened : Option State :=
    if s.msg_out_cur = 0 then
      match store s.msg_out (s.msg_out_end * 64) 63 with
      | none => none
      | some m => some { s with msg_out := m, msg_out_cur := 1 }
    else some s
  match opened with
  | none => none
  | some s1 =>
    match store s1.msg_out (s1.msg_out_end * 64 + s1.msg_out_cur) (c % 256) with
    | none => none
    | some m =>
      let s2 := { s1 with msg_out := m, msg_out_cur := s1.msg_out_cur + 1 }
      if s2.msg_out_cur = 64 then
        some { s2 with msg_out_cur := 0,
                       msg_out_end := (s2.msg_out_end + 1) % (env.MSG_OUT_SIZE / 64) }
      else some s2

/-- The `while (msg_out_cur < 64)` loop of `msg_out_pad`, with a bound on the
number of iterations; `msg_out_pad` passes `64 - msg_out_cur`, which the loop
cannot exceed. -/
def msg_out_pad_loop (s : State) : Nat → Option State
  | 0 => if s.msg_out_cur < 64 then none else some s
  | fuel + 1 =>
    if s.msg_out_cur < 64 then
      match store s.msg_out (s.msg_out_end * 64 + s.msg_out_cur) 0 with
      | none => none
      | some m =>
        msg_out_pad_loop { s with msg_out := m, msg_out_cur := s.msg_out_cur + 1 } fuel
    else some s

/-- Source function `msg_out_pad`. -/
def msg_out_pad (env : Env) (s : State) : Option State :=
  if s.msg_out_cur = 0 then some s
  else
    match msg_out_pad_loop s (64 - s.msg_out_cur) with
    | none => none
    | some s1 =>
      some { s1 with msg_out_cur := 0,
                     msg_out_end := (s1.msg_out_end + 1) % (env.MSG_OUT_SIZE / 64) }

/-- Source function `pb_callback_out` on a buffer of `count` bytes; it always returns
`true`, so only the state is kept. -/
def pb_callback_out (env : Env) (s : State) : List Nat → Option State
  | [] => some s
  | c :: rest =>
    match msg_out_append env s c with
    | none => none
    | some s1 => pb_callback_out env s1 rest

/-- The callbacks made during `pb_encode`, one per buffer handed to the stream. -/
def pb_encode_callbacks (env : Env) (s : State) : List (List Nat) → Option State
  | [] => some s
  | buf :: rest =>
    match pb_callback_out env s buf with
    | none => none
    | some s1 => pb_encode_callbacks env s1 rest

/-- The eight calls `append(...)` that emit the header in `msg_write_common`. -/
def msg_write_header (msg_id len : Nat) : List Nat :=
  [35, 35, (msg_id / 256) % 256, msg_id % 256,
   (len / 16777216) % 256, (len / 65536) % 256, (len / 256) % 256, len % 256]

/-- Source function `msg_write_common`: the new state and the returned `bool`. -/
def msg_write_common (env : Env) (s : State) (type msg_id : Nat) (msg_ptr : List Nat) :
    Option (State × Bool) :=
  let fields := MessageFields env type 111 msg_id
  if fields = 0 then some (s, false)
  else
    match env.pb_get_encoded_size fields msg_ptr with
    | none => some ({ s with decode_flag := false }, false)
    | some len =>
      let s0 := { s with decode_flag := true }
      if type = 110 then
        match pb_callback_out env s0 (msg_write_header msg_id len) with
        | none => none
        | some s1 =>
          let enc := env.pb_encode fields msg_ptr
          match pb_encode_callbacks env s1 enc.1 with
          | none => none
          | some s2 =>
            match msg_out_pad env s2 with
            | none => none
            | some s3 => some (s3, enc.2)
      else some (s0, false)

/-- Source function `msg_out_data`: the new state and, unless the result is `NULL`,
the 64 bytes at the returned pointer. -/
def msg_out_data (env : Env) (s : State) : State × Option (List Nat) :=
  if s.msg_out_start = s.msg_out_end then (s, none)
  else
    ({ s with msg_out_start := (s.msg_out_start + 1) % (env.MSG_OUT_SIZE / 64) },
     some ((s.msg_out.drop (s.msg_out_start * 64)).take 64))

/-! ## Inbound reassembly -/

/-- Source function `msg_process`: the new state and the calls made. -/
def msg_process (env : Env) (s : State) (type msg_id fields : Nat) (msg_raw : List Nat)
    (msg_size : Nat) : State × List Event :=
  let stream := msg_raw.take msg_size
  let r := env.pb_decode fields stream (List.replicate env.MSG_IN_SIZE 0)
  let s1 := { s with msg_in_buffer := r.2 }
  if r.1 then
    (s1, Event.msg_process type msg_id fields stream msg_size ::
          MessageProcessFunc env type 105 msg_id r.2)
  else (s1, [Event.msg_process type msg_id fields stream msg_size])

/-- The completion check that ends `msg_read_common`. -/
def msg_read_finish (env : Env) (s : State) (type : Nat) : State × List Event :=
  if s.msg_pos ≥ s.msg_size then
    let r := msg_process env s type s.msg_id s.fields s.msg_in s.msg_size
    ({ r.1 with msg_pos := 0, read_state := READSTATE_IDLE }, r.2)
  else (s, [])

/-- Source function `msg_read_common`: the new state and the calls made, `none` when a
`memcpy` leaves its buffers.  Bytes of `buf` are read with a default, the caller
owing `len` readable bytes. -/
def msg_read_common (env : Env) (s : State) (type : Nat) (buf : List Nat) (len : Nat) :
    Option (State × List Event) :=
  if len ≠ 64 then some (s, [])
  else if s.read_state = READSTATE_IDLE then
    if buf.getD 0 0 ≠ 63 ∨ buf.getD 1 0 ≠ 35 ∨ buf.getD 2 0 ≠ 35 then some (s, [])
    else
      let msg_id := u16 (buf.getD 3 0 * 256 + buf.getD 4 0)
      let msg_size :=
        u32 (buf.getD 5 0 * 16777216 + buf.getD 6 0 * 65536 + buf.getD 7 0 * 256 + buf.getD 8 0)
      let fields := MessageFields env type 105 msg_id
      let s1 := { s with msg_id := msg_id, msg_size := msg_size, fields := fields }
      if fields = 0 then some (s1, [])
      else if msg_size > env.MSG_IN_SIZE then some (s1, [])
      else
        match memcpy s1.msg_in 0 (buf.drop 9) (len - 9) with
        | none => none
        | some m =>
          some (msg_read_finish env
            { s1 with read_state := READSTATE_READING, msg_in := m, msg_pos := len - 9 } type)
  else if s.read_state = READSTATE_READING then
    if buf.getD 0 0 ≠ 63 then some ({ s with read_state := READSTATE_IDLE }, [])
    else
      let room :=
        if s.msg_pos ≤ env.MSG_IN_SIZE then env.MSG_IN_SIZE - s.msg_pos
        else u32 (env.MSG_IN_SIZE + 4294967296 - s.msg_pos)
      let n := MIN (len - 1) room
      match memcpy s.msg_in s.msg_pos (buf.drop 1) n with
      | none => none
      | some m =>
        some (msg_read_finish env { s with msg_in := m, msg_pos := u32 (s.msg_pos + n) } type)
  else some (msg_read_finish env s type)

/-- Feeding packets one after the other to `msg_read_common` under one
category, each with `len = 64`: the final state and the calls made per packet. -/
def msg_read_packets (env : Env) (type : Nat) :
    State → List (List Nat) → Option (State × List (List Event))
  | s, [] => some (s, [])
  | s, p :: rest =>
    match msg_read_common env s type p 64 with
    | none => none
    | some (s1, ev) =>
      match msg_read_packets env type s1 rest with
      | none => none
      | some (s2, evs) => some (s2, ev :: evs)

/-- The entries of a trace that are entries into `msg_process`. -/
def Event.is_msg_process : Event → Bool
  | Event.msg_process _ _ _ _ _ => true
  | Event.process_func _ _ => false

/-- The `msg_process` calls of a trace, in order. -/
def msg_process_calls (evs : List Event) : List Event :=
  evs.filter Event.is_msg_process

/-- Calling `msg_out_data` `n` times: the final state and the results in call
order. -/
def msg_out_data_n (env : Env) : Nat → State → State × List (Option (List Nat))
  | 0, s => (s, [])
  | n + 1, s =>
    let r := msg_out_data env s
    let r2 := msg_out_data_n env n r.1
    (r2.1, r.2 :: r2.2)

/-- Successive calls of `msg_read_common`, each with its own category, buffer
and length: the final state and the calls made per packet. -/
def msg_read_calls (env : Env) :
    State → List (Nat × List Nat × Nat) → Option (State × List (List Event))
  | s, [] => some (s, [])
  | s, c :: rest =>
    match msg_read_common env s c.1 c.2.1 c.2.2 with
    | none => none
    | some (s1, ev) =>
      match msg_read_calls env s1 rest with
      | none => none
      | some (s2, evs) => some (s2, ev :: evs)

/-- A call on the outbound side: `msg_write_common(type, msg_id, msg_ptr)` or
`msg_out_data()`. -/
inductive RingCall where
  /-- A call of `msg_write_common`. -/
  | write (type msg_id : Nat) (msg_ptr : List Nat)
  /-- A call of `msg_out_data`. -/
  | data

/-- Successive calls on the outbound side: the final state and the packets that
`msg_out_data` returned, in order. -/
def ring_calls (env : Env) : State → List RingCall → Option (State × List (List Nat))
  | s, [] => some (s, [])
  | s, RingCall.write type msg_id msg_ptr :: rest =>
    match msg_write_common env s type msg_id msg_ptr with
    | none => none
    | some (s1, _) => ring_calls env s1 rest
  | s, RingCall.data :: rest =>
    match ring_calls env (msg_out_data env s).1 rest with
    | none => none
    | some (s2, pkts) => some (s2, (msg_out_data env s).2.toList ++ pkts)

/-- Successive calls `msg_write_common('n', id, msg)` with no read in between,
the returned status being ignored: the final state. -/
def msg_write_all (env : Env) : State → List (Nat × List Nat) → Option State
  | s, [] => some s
  | s, m :: rest =>
    match msg_write_common env s 110 m.1 m.2 with
    | none => none
    | some (s1, _) => msg_write_all env s1 rest

/-! ## Concrete configuration for evaluations -/

/-- A small build: a 64-byte reassembly buffer, a ring of two slots, message 1
registered inbound (with a handler) and outbound under the normal category,
message 2 outbound only, message 3 outbound under the debug category.  The
encoder emits the bytes of the message object in one buffer. -/
def demo_env : Env where
  MSG_IN_SIZE := 64
  MSG_OUT_SIZE := 128
  messages_map :=
    [⟨110, 105, 1, 7, 9⟩, ⟨110, 111, 1, 7, 0⟩, ⟨110, 111, 2, 8, 0⟩, ⟨100, 111, 3, 8, 0⟩]
  pb_get_encoded_size := fun _ m => some m.length
  pb_encode := fun _ m => ([m], true)
  pb_decode := fun _ raw dest => (true, raw ++ dest.drop raw.length)

/-- The build `demo_env` with a reassembly buffer of 10 bytes, less than the 55
payload bytes of a start packet. -/
def small_in_env : Env :=
  { demo_env with MSG_IN_SIZE := 10 }

/-- A Reading state of `demo_env`: message 1 pinned with declared length 64,
of which 55 bytes are collected. -/
def demo_reading : State :=
  { State.init demo_env with
      read_state := READSTATE_READING, msg_id := 1, msg_size := 64, msg_pos := 55, fields := 7 }

/-- The build `demo_env` with an encoder that streams the bytes of the message
object and then reports failure. -/
def failing_env : Env :=
  { demo_env with pb_encode := fun _ m => ([m], false) }

/-- The build `failing_env` with a ring of four slots. -/
def failing_env4 : Env :=
  { failing_env with MSG_OUT_SIZE := 256 }

/-- A state of `failing_env4` with one packet written and not yet read: slot 0
holds the frame of message 1 with the bytes `1, 2, 3`, the write cursor is at
slot 1 and the read cursor at slot 0. -/
def demo_pending : State :=
  { State.init failing_env4 with
      msg_out := 63 :: [35, 35, 0, 1, 0, 0, 0, 3, 1, 2, 3] ++ List.replicate 244 0,
      msg_out_end := 1, decode_flag := true }

/-! ## Specification-side definitions -/

/-- The rows of `MessagesMap` before the end marker, the first row whose
category is zero. -/
def registered_rows (env : Env) : List MessagesMap_t :=
  (MessagesMap env).takeWhile fun m => decide (m.type ≠ 0)

/-- Whether the three key fields of a row equal the key. -/
def key_matches (type dir msg_id : Nat) (m : MessagesMap_t) : Bool :=
  decide (type = m.type ∧ dir = m.dir ∧ msg_id = m.msg_id)

/-- First-match search as the specification words it: the first registered row
whose key fields equal the key, if there is one. -/
def first_match (env : Env) (type dir msg_id : Nat) : Option MessagesMap_t :=
  (registered_rows env).find? (key_matches type dir msg_id)

/-- No two registered rows carry the same (category, direction, id). -/
def unique_keys (env : Env) : Prop :=
  (registered_rows env).Pairwise fun a b =>
    ¬ (a.type = b.type ∧ a.dir = b.dir ∧ a.msg_id = b.msg_id)

instance (env : Env) : Decidable (unique_keys env) := by
  unfold unique_keys
  infer_instance

/-- Two states agree on every variable other than the ring contents and its
write cursor. -/
def same_outside_ring (s s1 : State) : Prop :=
  s1 = { s with msg_out := s1.msg_out, msg_out_end := s1.msg_out_end,
                msg_out_cur := s1.msg_out_cur }

/-- State `s` is state `s0` after the bytes `bs` were appended, starting at the
beginning of slot `e`: byte `k` of the stream lies in slot `(e + k / 63) mod S` at
offset `k mod 63 + 1`, each slot reached starts with `'?'`, and nothing else
changed. -/
def stream_written (env : Env) (e : Nat) (bs : List Nat) (s0 s : State) : Prop :=
  s.msg_out.length = s0.msg_out.length ∧
  s.msg_out_end = (e + bs.length / 63) % (env.MSG_OUT_SIZE / 64) ∧
  s.msg_out_cur = (if bs.length % 63 = 0 then 0 else bs.length % 63 + 1) ∧
  same_outside_ring s0 s ∧
  (∀ k, k < bs.length →
    s.msg_out[(e + k / 63) % (env.MSG_OUT_SIZE / 64) * 64 + k % 63 + 1]? =
        (bs[k]?).map (fun x => x % 256) ∧
      s.msg_out[(e + k / 63) % (env.MSG_OUT_SIZE / 64) * 64]? = some 63) ∧
  (∀ a, (∀ k, k < bs.length →
      a ≠ (e + k / 63) % (env.MSG_OUT_SIZE / 64) * 64 + k % 63 + 1 ∧
      a ≠ (e + k / 63) % (env.MSG_OUT_SIZE / 64) * 64) →
    s.msg_out[a]? = s0.msg_out[a]?)

/-- Slot `k` of the ring: the 64 bytes from index `k * 64`. -/
def slot (mem : List Nat) (k : Nat) : List Nat :=
  (mem.drop (k * 64)).take 64

/-- Packet `i` of a framed stream as the specification words it: `'?'`, then
the `i`-th chunk of 63 bytes of the stream, then zeros up to 64 bytes. -/
def packet_of (stream : List Nat) (i : Nat) : List Nat :=
  63 :: ((stream.drop (63 * i)).take 63 ++
    List.replicate (63 - ((stream.drop (63 * i)).take 63).length) 0)

/-- The bounds of the reassembly context: `msg_in` has its declared size, the
collected count does not exceed it, the state is Idle or Reading, and in Reading
the count is below the declared length, which fits the buffer. -/
def read_inv (env : Env) (s : State) : Prop :=
  s.msg_in.length = env.MSG_IN_SIZE ∧ s.msg_pos ≤ env.MSG_IN_SIZE ∧
    (s.read_state = READSTATE_IDLE ∨
      (s.read_state = READSTATE_READING ∧ s.msg_pos < s.msg_size ∧
        s.msg_size ≤ env.MSG_IN_SIZE))

/-- State `s` is state `s0` after the bytes `bs`, however many, were appended
starting at the beginning of slot `e`: the bytes of the last `63 * S` positions
are where they were put, each slot reached starts with `'?'`, and the addresses
not reached are as before. -/
def stream_recent (env : Env) (e : Nat) (bs : List Nat) (s0 s : State) : Prop :=
  s.msg_out.length = s0.msg_out.length ∧
  s.msg_out_end = (e + bs.length / 63) % (env.MSG_OUT_SIZE / 64) ∧
  s.msg_out_cur = (if bs.length % 63 = 0 then 0 else bs.length % 63 + 1) ∧
  same_outside_ring s0 s ∧
  (∀ k, k < bs.length → bs.length ≤ k + 63 * (env.MSG_OUT_SIZE / 64) →
    s.msg_out[(e + k / 63) % (env.MSG_OUT_SIZE / 64) * 64 + k % 63 + 1]? =
      (bs[k]?).map (fun x => x % 256)) ∧
  (∀ k, k < bs.length →
    s.msg_out[(e + k / 63) % (env.MSG_OUT_SIZE / 64) * 64]? = some 63) ∧
  (∀ a, (∀ k, k < bs.length →
      a ≠ (e + k / 63) % (env.MSG_OUT_SIZE / 64) * 64 + k % 63 + 1 ∧
      a ≠ (e + k / 63) % (env.MSG_OUT_SIZE / 64) * 64) →
    s.msg_out[a]? = s0.msg_out[a]?)

/-- The ring-cursor invariant: `msg_out` has its declared size, the write slot
index and the read cursor are below the slot count, and the in-slot offset is 0. -/
def ring_inv (env : Env) (s : State) : Prop :=
  s.msg_out.length = env.MSG_OUT_SIZE ∧ s.msg_out_end < env.MSG_OUT_SIZE / 64 ∧
    s.msg_out_start < env.MSG_OUT_SIZE / 64 ∧ s.msg_out_cur = 0

/-- The packets one call `msg_write_common('n', id, msg)` puts into the ring, in
write order, as the specification words the frame format: none when the lookup or
the size pass fails, else the packets of the header followed by the bytes the
encoder emits. -/
def message_packets (env : Env) (id : Nat) (msg : List Nat) : List (List Nat) :=
  if MessageFields env 110 111 id = 0 then []
  else
    match env.pb_get_encoded_size (MessageFields env 110 111 id) msg with
    | none => []
    | some len =>
      (List.range
          ((8 + (env.pb_encode (MessageFields env 110 111 id) msg).1.flatten.length + 62) / 63)).map
        (packet_of (msg_write_header id len ++
          ((env.pb_encode (MessageFields env 110 111 id) msg).1.flatten.map fun x => x % 256)))

/-- The slots written by a sequence of messages, in write order. -/
def written_slots (env : Env) : List (Nat × List Nat) → List (List Nat)
  | [] => []
  | m :: rest => message_packets env m.1 m.2 ++ written_slots env rest

/-- The packets that the `msg_write_common` calls of a sequence put into the
ring, in call order; a call under a category other than `'n'` puts none. -/
def calls_packets (env : Env) : List RingCall → List (List Nat)
  | [] => []
  | RingCall.write type msg_id msg_ptr :: rest =>
    (if type = 110 then message_packets env msg_id msg_ptr else []) ++ calls_packets env rest
  | RingCall.data :: rest => calls_packets env rest

/-- The cursor invariant together with the record of the slots written so far:
the slots below `m` hold packets that satisfy `good`, and as long as the write
cursor has not wrapped (`m < S`) it stands at `m` with the read cursor not beyond
it. -/
def slots_inv (env : Env) (good : List Nat → Prop) (s : State) : Prop :=
  ring_inv env s ∧
    ∃ m, m ≤ env.MSG_OUT_SIZE / 64 ∧ (∀ j, j < m → good (slot s.msg_out j)) ∧
      (m < env.MSG_OUT_SIZE / 64 → s.msg_out_end = m ∧ s.msg_out_start ≤ m)

theorem MessageFields_loop_eq (type dir msg_id : Nat) (rows : List MessagesMap_t) :
    MessageFields_loop type dir msg_id rows =
      match (rows.takeWhile fun m => decide (m.type ≠ 0)).find? (key_matches type dir msg_id) with
      | some m => m.fields
      | none => 0 := by
  induction rows with
  | nil => simp [MessageFields_loop]
  | cons m rest ih =>
    by_cases h0 : m.type = 0
    · simp [MessageFields_loop, h0, List.takeWhile_cons]
    · by_cases hk : type = m.type ∧ dir = m.dir ∧ msg_id = m.msg_id
      · simp [MessageFields_loop, h0, List.takeWhile_cons, List.find?_cons, key_matches, hk]
      · simp only [MessageFields_loop, h0, if_false, hk, List.takeWhile_cons, ne_eq,
          not_false_eq_true, decide_True, if_true, List.find?_cons, key_matches, decide_False]
        exact ih

theorem MessageProcessFunc_loop_eq (type dir msg_id : Nat) (ptr : List Nat)
    (rows : List MessagesMap_t) :
    MessageProcessFunc_loop type dir msg_id ptr rows =
      match (rows.takeWhile fun m => decide (m.type ≠ 0)).find? (key_matches type dir msg_id) with
      | some m => [Event.process_func m.process_func ptr]
      | none => [] := by
  induction rows with
  | nil => simp [MessageProcessFunc_loop]
  | cons m rest ih =>
    by_cases h0 : m.type = 0
    · simp [MessageProcessFunc_loop, h0, List.takeWhile_cons]
    · by_cases hk : type = m.type ∧ dir = m.dir ∧ msg_id = m.msg_id
      · simp [MessageProcessFunc_loop, h0, List.takeWhile_cons, List.find?_cons, key_matches, hk]
      · simp only [MessageProcessFunc_loop, h0, if_false, hk, List.takeWhile_cons, ne_eq,
          not_false_eq_true, decide_True, if_true, List.find?_cons, key_matches, decide_False]
        exact ih

theorem find_of_pairwise (rows : List MessagesMap_t)
    (hu : rows.Pairwise fun a b => ¬ (a.type = b.type ∧ a.dir = b.dir ∧ a.msg_id = b.msg_id))
    (m : MessagesMap_t) (hm : m ∈ rows) :
    rows.find? (key_matches m.type m.dir m.msg_id) = some m := by
  induction rows with
  | nil => simp at hm
  | cons r rest ih =>
    rw [List.pairwise_cons] at hu
    by_cases hr : m = r
    · subst hr
      simp [List.find?_cons, key_matches]
    · have hin : m ∈ rest := by
        rcases List.mem_cons.mp hm with h | h
        · exact absurd h hr
        · exact h
      have hne : ¬ (m.type = r.type ∧ m.dir = r.dir ∧ m.msg_id = r.msg_id) := by
        intro h
        exact hu.1 m hin ⟨h.1.symm, h.2.1.symm, h.2.2.symm⟩
      simp only [List.find?_cons, key_matches, hne, decide_False]
      exact ih hu.2 hin

/-! ## Inbound reassembly: single steps -/

theorem MessageProcessFunc_no_msg_process (env : Env) (type dir msg_id : Nat) (ptr : List Nat) :
    msg_process_calls (MessageProcessFunc env type dir msg_id ptr) = [] := by
  unfold MessageProcessFunc
  rw [MessageProcessFunc_loop_eq]
  split <;> simp [msg_process_calls, Event.is_msg_process]

theorem msg_process_calls_msg_process (env : Env) (s : State) (type msg_id fields : Nat)
    (msg_raw : List Nat) (msg_size : Nat) :
    msg_process_calls (msg_process env s type msg_id fields msg_raw msg_size).2 =
      [Event.msg_process type msg_id fields (msg_raw.take msg_size) msg_size] := by
  have h := MessageProcessFunc_no_msg_process env type 105 msg_id
  unfold msg_process_calls at h
  unfold msg_process msg_process_calls
  by_cases hd : (env.pb_decode fields (List.take msg_size msg_raw)
      (List.replicate env.MSG_IN_SIZE 0)).1 = true
  · simp [hd, List.filter_cons, Event.is_msg_process, h]
  · simp [hd, List.filter_cons, Event.is_msg_process]

theorem msg_read_finish_pending (env : Env) (s : State) (type : Nat)
    (h : s.msg_pos < s.msg_size) : msg_read_finish env s type = (s, []) := by
  simp [msg_read_finish, Nat.not_le.mpr h]

theorem msg_process_state (env : Env) (s : State) (type msg_id fields : Nat)
    (msg_raw : List Nat) (msg_size : Nat) :
    (msg_process env s type msg_id fields msg_raw msg_size).1 =
      { s with msg_in_buffer :=
          (env.pb_decode fields (msg_raw.take msg_size)
            (List.replicate env.MSG_IN_SIZE 0)).2 } := by
  unfold msg_process
  dsimp only
  split <;> rfl

theorem msg_read_finish_complete (env : Env) (s : State) (type : Nat)
    (h : s.msg_size ≤ s.msg_pos) :
    msg_process_calls (msg_read_finish env s type).2 =
        [Event.msg_process type s.msg_id s.fields (s.msg_in.take s.msg_size) s.msg_size] ∧
      (msg_read_finish env s type).1.read_state = READSTATE_IDLE ∧
      (msg_read_finish env s type).1.msg_pos = 0 ∧
      (msg_read_finish env s type).1.msg_in = s.msg_in := by
  have hc := msg_process_calls_msg_process env s type s.msg_id s.fields s.msg_in s.msg_size
  have hs := msg_process_state env s type s.msg_id s.fields s.msg_in s.msg_size
  have hf : msg_read_finish env s type =
      ({ (msg_process env s type s.msg_id s.fields s.msg_in s.msg_size).1 with
            msg_pos := 0, read_state := READSTATE_IDLE },
        (msg_process env s type s.msg_id s.fields s.msg_in s.msg_size).2) := by
    simp [msg_read_finish, h]
  rw [hf]
  refine ⟨hc, rfl, rfl, ?_⟩
  show (msg_process env s type s.msg_id s.fields s.msg_in s.msg_size).1.msg_in = s.msg_in
  rw [hs]

theorem header_id (id : Nat) (hid : id < 65536) : u16 (id / 256 % 256 * 256 + id % 256) = id := by
  unfold u16; omega

theorem header_len (L : Nat) (hL : L < 4294967296) :
    u32 (L / 16777216 % 256 * 16777216 + L / 65536 % 256 * 65536 + L / 256 % 256 * 256 + L % 256)
      = L := by
  unfold u32; omega

theorem msg_read_common_start (env : Env) (s : State) (type id L : Nat) (rest : List Nat)
    (hidle : s.read_state = READSTATE_IDLE) (hin : s.msg_in.length = env.MSG_IN_SIZE)
    (h55 : 55 ≤ env.MSG_IN_SIZE) (hid : id < 65536) (hL : L < 4294967296)
    (hreg : MessageFields env type 105 id ≠ 0) (hcap : L ≤ env.MSG_IN_SIZE)
    (hrest : rest.length = 55) :
    msg_read_common env s type (63 :: (msg_write_header id L ++ rest)) 64 =
      some (msg_read_finish env
        { s with msg_id := id, msg_size := L, fields := MessageFields env type 105 id,
                 read_state := READSTATE_READING, msg_in := rest ++ s.msg_in.drop 55,
                 msg_pos := 55 } type) := by
  have hcap2 : ¬ (env.MSG_IN_SIZE < L) := by omega
  have hm : memcpy s.msg_in 0 rest 55 = some (rest ++ s.msg_in.drop 55) := by
    unfold memcpy
    rw [if_pos ⟨by omega, by omega⟩]
    simp [List.take_of_length_le (le_of_eq hrest)]
  simp only [msg_read_common, msg_write_header, hidle, List.cons_append, List.nil_append,
    List.getD_cons_zero, List.getD_cons_succ, header_id id hid, header_len L hL]
  simp [hreg, hcap2, hm]

/-! ## Inbound reassembly: a whole message -/


theorem MIN_eq_min (a b : Nat) : MIN a b = min a b := by
  unfold MIN
  split <;> omega

theorem msg_read_common_cont (env : Env) (s : State) (type : Nat) (p : List Nat)
    (hrd : s.read_state = READSTATE_READING) (hin : s.msg_in.length = env.MSG_IN_SIZE)
    (hpos : s.msg_pos ≤ env.MSG_IN_SIZE) (h32 : env.MSG_IN_SIZE < 4294967296)
    (hp : p.length = 64) (hmark : p.head? = some 63) :
    msg_read_common env s type p 64 =
      some (msg_read_finish env
        { s with
            msg_in := s.msg_in.take s.msg_pos ++
              ((p.drop 1).take (min 63 (env.MSG_IN_SIZE - s.msg_pos)) ++
                s.msg_in.drop (s.msg_pos + min 63 (env.MSG_IN_SIZE - s.msg_pos))),
            msg_pos := s.msg_pos + min 63 (env.MSG_IN_SIZE - s.msg_pos) } type) := by
  match p, hp, hmark with
  | a :: t, hp, hmark =>
    have ha : a = 63 := by simpa using hmark
    subst ha
    have ht : t.length = 63 := by simpa using hp
    have hne : ¬ (READSTATE_READING = READSTATE_IDLE) := by decide
    have hm : memcpy s.msg_in s.msg_pos t (min 63 (env.MSG_IN_SIZE - s.msg_pos)) =
        some (s.msg_in.take s.msg_pos ++
          (t.take (min 63 (env.MSG_IN_SIZE - s.msg_pos)) ++
            s.msg_in.drop (s.msg_pos + min 63 (env.MSG_IN_SIZE - s.msg_pos)))) := by
      unfold memcpy
      rw [if_pos ⟨by omega, by omega⟩]
    have hu : u32 (s.msg_pos + min 63 (env.MSG_IN_SIZE - s.msg_pos)) =
        s.msg_pos + min 63 (env.MSG_IN_SIZE - s.msg_pos) := by
      unfold u32; omega
    simp only [msg_read_common, hne, hrd, if_true, if_false, List.getD_cons_zero, ne_eq,
      not_true_eq_false, hpos, MIN_eq_min, List.drop_succ_cons, List.drop_zero, hm, hu,
      Nat.add_one_sub_one]

theorem take_append_take (a t r : List Nat) (n k : Nat) (hk : k ≤ a.length + n)
    (hn : n ≤ t.length) : (a ++ (t.take n ++ r)).take k = (a ++ t).take k := by
  rw [List.take_append_eq_append_take, List.take_append_eq_append_take,
    List.take_append_eq_append_take, List.take_take]
  have h1 : min (k - a.length) n = k - a.length := by omega
  have h2 : k - a.length - (List.take n t).length = 0 := by
    rw [List.length_take]; omega
  rw [h1, h2]
  simp

theorem msg_read_packets_reassemble (env : Env) (type : Nat)
    (h32 : env.MSG_IN_SIZE < 4294967296) :
    ∀ (conts : List (List Nat)) (s : State) (acc : List Nat),
      s.read_state = READSTATE_READING → s.msg_in.length = env.MSG_IN_SIZE →
      s.msg_size ≤ env.MSG_IN_SIZE → s.msg_pos = acc.length →
      s.msg_in.take s.msg_pos = acc →
      (∀ p ∈ conts, p.length = 64 ∧ p.head? = some 63) →
      acc.length < s.msg_size → conts.length = (s.msg_size - acc.length + 62) / 63 →
      ∃ s1 evs, msg_read_packets env type s conts = some (s1, evs) ∧
        evs.map msg_process_calls = List.replicate (conts.length - 1) [] ++
          [[Event.msg_process type s.msg_id s.fields
              ((acc ++ (conts.map (List.drop 1)).flatten).take s.msg_size) s.msg_size]] ∧
        s1.read_state = READSTATE_IDLE ∧ s1.msg_pos = 0 := by
  intro conts
  induction conts with
  | nil =>
    intro s acc _ _ _ _ _ _ hlt hlen
    simp only [List.length_nil] at hlen
    omega
  | cons p rest ih =>
    intro s acc hrd hin hsz hpos htake hall hlt hlen
    have hp := hall p (List.mem_cons_self p rest)
    have hdl : (p.drop 1).length = 63 := by rw [List.length_drop]; omega
    obtain ⟨s2, ⟨h2rd, h2in, h2pos, h2sz, h2id, h2f⟩, hstep⟩ :
        ∃ s2 : State,
          (s2.read_state = s.read_state ∧
            s2.msg_in = s.msg_in.take s.msg_pos ++
              ((p.drop 1).take (min 63 (env.MSG_IN_SIZE - s.msg_pos)) ++
                s.msg_in.drop (s.msg_pos + min 63 (env.MSG_IN_SIZE - s.msg_pos))) ∧
            s2.msg_pos = s.msg_pos + min 63 (env.MSG_IN_SIZE - s.msg_pos) ∧
            s2.msg_size = s.msg_size ∧ s2.msg_id = s.msg_id ∧ s2.fields = s.fields) ∧
          msg_read_common env s type p 64 = some (msg_read_finish env s2 type) :=
      ⟨{ s with
            msg_in := s.msg_in.take s.msg_pos ++
              ((p.drop 1).take (min 63 (env.MSG_IN_SIZE - s.msg_pos)) ++
                s.msg_in.drop (s.msg_pos + min 63 (env.MSG_IN_SIZE - s.msg_pos))),
            msg_pos := s.msg_pos + min 63 (env.MSG_IN_SIZE - s.msg_pos) },
        ⟨rfl, rfl, rfl, rfl, rfl, rfl⟩,
        msg_read_common_cont env s type p hrd hin (by omega) h32 hp.1 hp.2⟩
    simp only [List.length_cons] at hlen
    by_cases hfin : s.msg_size ≤ s.msg_pos + 63
    · have hrest : rest = [] := by
        apply List.eq_nil_of_length_eq_zero
        omega
      subst hrest
      have hge : s2.msg_size ≤ s2.msg_pos := by omega
      obtain ⟨hc, hi, hz, _⟩ := msg_read_finish_complete env s2 type hge
      refine ⟨(msg_read_finish env s2 type).1, [(msg_read_finish env s2 type).2], ?_, ?_, hi, hz⟩
      · simp only [msg_read_packets, hstep]
      · simp only [List.map_cons, List.map_nil, hc, List.length_singleton, Nat.sub_self,
          List.replicate_zero, List.nil_append, List.flatten_cons, List.flatten_nil,
          List.append_nil]
        rw [h2in, h2sz, h2id, h2f, htake,
          take_append_take acc (p.drop 1) _ _ _ (by omega) (by omega)]
    · have hn : min 63 (env.MSG_IN_SIZE - s.msg_pos) = 63 := by omega
      rw [hn] at h2in h2pos
      rw [msg_read_finish_pending env s2 type (by omega)] at hstep
      have hacc : (acc ++ p.drop 1).length = s2.msg_pos := by
        rw [List.length_append, hdl, h2pos, hpos]
      obtain ⟨s1, evs, hrun, hev, hi, hz⟩ := ih s2 (acc ++ p.drop 1) (h2rd.trans hrd)
        (by rw [h2in]
            simp only [List.length_append, List.length_take, List.length_drop]; omega)
        (by omega) hacc.symm
        (by
          rw [h2in, htake, ← List.append_assoc, ← hacc,
            List.take_of_length_le (le_of_eq hdl), List.take_left])
        (fun q hq => hall q (List.mem_cons_of_mem p hq))
        (by omega) (by omega)
      refine ⟨s1, [] :: evs, ?_, ?_, hi, hz⟩
      · simp only [msg_read_packets, hstep, hrun]
      · have hl : rest.length = (rest.length - 1) + 1 := by omega
        simp only [List.map_cons, hev, List.length_cons, Nat.add_sub_cancel,
          List.flatten_cons, List.append_assoc, h2sz, h2id, h2f]
        conv_rhs => rw [hl, List.replicate_succ]
        simp [msg_process_calls]

theorem msg_read_packets_message (env : Env) (type : Nat) (s : State) (id L : Nat)
    (rest : List Nat) (conts : List (List Nat))
    (hidle : s.read_state = READSTATE_IDLE) (hin : s.msg_in.length = env.MSG_IN_SIZE)
    (h55 : 55 ≤ env.MSG_IN_SIZE) (h32 : env.MSG_IN_SIZE < 4294967296) (hid : id < 65536)
    (hreg : MessageFields env type 105 id ≠ 0) (hcap : L ≤ env.MSG_IN_SIZE)
    (hrest : rest.length = 55) (hall : ∀ p ∈ conts, p.length = 64 ∧ p.head? = some 63)
    (hlen : conts.length = (L - 55 + 62) / 63) :
    ∃ s1 evs,
      msg_read_packets env type s ((63 :: (msg_write_header id L ++ rest)) :: conts) =
          some (s1, evs) ∧
        evs.map msg_process_calls = List.replicate conts.length [] ++
          [[Event.msg_process type id (MessageFields env type 105 id)
              ((rest ++ (conts.map (List.drop 1)).flatten).take L) L]] ∧
        s1.read_state = READSTATE_IDLE ∧ s1.msg_pos = 0 := by
  obtain ⟨s2, ⟨h2rd, h2in, h2pos, h2sz, h2id, h2f⟩, hstep⟩ :
      ∃ s2 : State,
        (s2.read_state = READSTATE_READING ∧ s2.msg_in = rest ++ s.msg_in.drop 55 ∧
          s2.msg_pos = 55 ∧ s2.msg_size = L ∧ s2.msg_id = id ∧
          s2.fields = MessageFields env type 105 id) ∧
        msg_read_common env s type (63 :: (msg_write_header id L ++ rest)) 64 =
          some (msg_read_finish env s2 type) :=
    ⟨{ s with msg_id := id, msg_size := L, fields := MessageFields env type 105 id,
              read_state := READSTATE_READING, msg_in := rest ++ s.msg_in.drop 55,
              msg_pos := 55 },
      ⟨rfl, rfl, rfl, rfl, rfl, rfl⟩,
      msg_read_common_start env s type id L rest hidle hin h55 hid (by omega) hreg hcap hrest⟩
  by_cases hL : L ≤ 55
  · have hc0 : conts = [] := by
      apply List.eq_nil_of_length_eq_zero
      omega
    subst hc0
    obtain ⟨hc, hi, hz, _⟩ := msg_read_finish_complete env s2 type (by omega)
    refine ⟨(msg_read_finish env s2 type).1, [(msg_read_finish env s2 type).2], ?_, ?_, hi, hz⟩
    · simp only [msg_read_packets, hstep]
    · simp only [List.map_cons, List.map_nil, hc, List.length_nil, List.replicate_zero,
        List.nil_append, List.flatten_nil, List.append_nil, h2in, h2sz, h2id, h2f]
      rw [List.take_append_of_le_length (by omega)]
  · rw [msg_read_finish_pending env s2 type (by omega)] at hstep
    obtain ⟨s1, evs, hrun, hev, hi, hz⟩ :=
      msg_read_packets_reassemble env type h32 conts s2 rest h2rd
        (by rw [h2in]; simp only [List.length_append, List.length_drop]; omega)
        (by omega) (by omega)
        (by rw [h2in, h2pos, ← hrest, List.take_left])
        hall (by omega) (by omega)
    refine ⟨s1, [] :: evs, ?_, ?_, hi, hz⟩
    · simp only [msg_read_packets, hstep, hrun]
    · have hl : conts.length = (conts.length - 1) + 1 := by omega
      simp only [List.map_cons, hev, h2sz, h2id, h2f]
      conv_rhs => rw [hl, List.replicate_succ]
      simp [msg_process_calls]

/-! ## Outbound ring: single stores -/

theorem store_some (mem : List Nat) (i v : Nat) (h : i < mem.length) :
    store mem i v = some (mem.set i v) := by
  simp [store, h]

theorem getElem?_set_ne (mem : List Nat) (i a v : Nat) (h : a ≠ i) :
    (mem.set i v)[a]? = mem[a]? := by
  rw [List.getElem?_set]
  simp [Ne.symm h]

theorem getElem?_set_self (mem : List Nat) (i v : Nat) (h : i < mem.length) :
    (mem.set i v)[i]? = some v := by
  rw [List.getElem?_set]
  simp [h]

theorem slot_index_inj (e S i j : Nat) (hi : i < S) (hj : j < S)
    (h : (e + i) % S = (e + j) % S) : i = j := by
  have h1 : (e + i) ≡ (e + j) [MOD S] := h
  have h2 : i ≡ j [MOD S] := Nat.ModEq.add_left_cancel' e h1
  have h3 : i % S = j % S := h2
  rwa [Nat.mod_eq_of_lt hi, Nat.mod_eq_of_lt hj] at h3

/-- The effect of `msg_out_append` on a well-formed ring, by the position of the
cursor inside the slot. -/
theorem msg_out_append_eq (env : Env) (s : State) (c : Nat)
    (hlen : s.msg_out.length = env.MSG_OUT_SIZE)
    (hend : s.msg_out_end < env.MSG_OUT_SIZE / 64) (hcur : s.msg_out_cur < 64) :
    msg_out_append env s c =
      some (if s.msg_out_cur = 0 then
              { s with msg_out := (s.msg_out.set (s.msg_out_end * 64) 63).set
                                    (s.msg_out_end * 64 + 1) (c % 256),
                       msg_out_cur := 2 }
            else if s.msg_out_cur = 63 then
              { s with msg_out := s.msg_out.set (s.msg_out_end * 64 + 63) (c % 256),
                       msg_out_cur := 0,
                       msg_out_end := (s.msg_out_end + 1) % (env.MSG_OUT_SIZE / 64) }
            else
              { s with msg_out := s.msg_out.set (s.msg_out_end * 64 + s.msg_out_cur) (c % 256),
                       msg_out_cur := s.msg_out_cur + 1 }) := by
  have hb : s.msg_out_end * 64 + 64 ≤ s.msg_out.length := by
    have := Nat.div_mul_le_self env.MSG_OUT_SIZE 64
    have : (s.msg_out_end + 1) * 64 ≤ env.MSG_OUT_SIZE / 64 * 64 :=
      Nat.mul_le_mul_right 64 hend
    omega
  unfold msg_out_append
  by_cases h0 : s.msg_out_cur = 0
  · simp [h0, store_some _ _ _ (show s.msg_out_end * 64 < s.msg_out.length by omega),
      store_some _ _ _ (show s.msg_out_end * 64 + 1 <
        (s.msg_out.set (s.msg_out_end * 64) 63).length by rw [List.length_set]; omega)]
  · by_cases h63 : s.msg_out_cur = 63
    · simp [h0, h63, store_some _ _ _ (show s.msg_out_end * 64 + 63 < s.msg_out.length by omega)]
    · have h64 : ¬ (s.msg_out_cur + 1 = 64) := by omega
      simp [h0, h63, h64,
        store_some _ _ _ (show s.msg_out_end * 64 + s.msg_out_cur < s.msg_out.length by omega)]

/-! ## Outbound ring: a stream of bytes -/

theorem same_outside_ring_refl (s : State) : same_outside_ring s s := rfl

theorem same_outside_ring_trans (s s1 s2 : State) (h1 : same_outside_ring s s1)
    (h2 : same_outside_ring s1 s2) : same_outside_ring s s2 := by
  unfold same_outside_ring at *
  rw [h2, h1]

theorem msg_out_append_spec (env : Env) (s : State) (c : Nat)
    (hlen : s.msg_out.length = env.MSG_OUT_SIZE)
    (hend : s.msg_out_end < env.MSG_OUT_SIZE / 64) (hcur : s.msg_out_cur < 64) :
    ∃ s1, msg_out_append env s c = some s1 ∧
      s1.msg_out.length = s.msg_out.length ∧
      s1.msg_out_end = (if s.msg_out_cur = 63 then
          (s.msg_out_end + 1) % (env.MSG_OUT_SIZE / 64) else s.msg_out_end) ∧
      s1.msg_out_cur = (if s.msg_out_cur = 0 then 2 else if s.msg_out_cur = 63 then 0
          else s.msg_out_cur + 1) ∧
      same_outside_ring s s1 ∧
      ∀ a, s1.msg_out[a]? =
        if a = s.msg_out_end * 64 + max s.msg_out_cur 1 then some (c % 256)
        else if s.msg_out_cur = 0 ∧ a = s.msg_out_end * 64 then some 63
        else s.msg_out[a]? := by
  have hb : s.msg_out_end * 64 + 64 ≤ s.msg_out.length := by
    have := Nat.div_mul_le_self env.MSG_OUT_SIZE 64
    have : (s.msg_out_end + 1) * 64 ≤ env.MSG_OUT_SIZE / 64 * 64 :=
      Nat.mul_le_mul_right 64 hend
    omega
  rw [msg_out_append_eq env s c hlen hend hcur]
  by_cases h0 : s.msg_out_cur = 0
  · refine ⟨_, rfl, ?_, ?_, ?_, ?_, ?_⟩
    · simp [h0]
    · simp [h0]
    · simp [h0]
    · simp [h0, same_outside_ring]
    · intro a
      simp only [h0, if_true, Nat.zero_max, true_and]
      by_cases ha : a = s.msg_out_end * 64 + 1
      · subst ha
        rw [getElem?_set_self _ _ _ (by rw [List.length_set]; omega)]
        simp
      · rw [getElem?_set_ne _ _ _ _ ha, if_neg ha]
        by_cases hb0 : a = s.msg_out_end * 64
        · subst hb0
          rw [getElem?_set_self _ _ _ (by omega)]
          simp
        · rw [getElem?_set_ne _ _ _ _ hb0, if_neg hb0]
  · by_cases h63 : s.msg_out_cur = 63
    · refine ⟨_, rfl, ?_, ?_, ?_, ?_, ?_⟩
      · simp [h63]
      · simp [h63]
      · simp [h63]
      · simp [h63, same_outside_ring]
      · intro a
        simp only [h63, if_true, if_false, false_and, show ¬ ((63 : Nat) = 0) by decide,
          show max 63 1 = 63 by decide]
        by_cases ha : a = s.msg_out_end * 64 + 63
        · subst ha
          rw [getElem?_set_self _ _ _ (by omega)]
          simp
        · rw [getElem?_set_ne _ _ _ _ ha, if_neg ha]
    · refine ⟨_, rfl, ?_, ?_, ?_, ?_, ?_⟩
      · simp [h0, h63]
      · simp [h0, h63]
      · simp [h0, h63]
      · simp [h0, h63, same_outside_ring]
      · intro a
        have hmax : max s.msg_out_cur 1 = s.msg_out_cur := by omega
        simp only [h0, h63, if_false, false_and, hmax]
        by_cases ha : a = s.msg_out_end * 64 + s.msg_out_cur
        · subst ha
          rw [getElem?_set_self _ _ _ (by omega)]
          simp
        · rw [getElem?_set_ne _ _ _ _ ha, if_neg ha]

theorem pb_callback_out_append (env : Env) (xs ys : List Nat) :
    ∀ s, pb_callback_out env s (xs ++ ys) =
      (pb_callback_out env s xs).bind fun s1 => pb_callback_out env s1 ys := by
  induction xs with
  | nil => intro s; simp [pb_callback_out]
  | cons x xs ih =>
    intro s
    simp only [List.cons_append, pb_callback_out]
    cases msg_out_append env s x with
    | none => simp
    | some s1 => simp [ih s1]

theorem pb_encode_callbacks_eq (env : Env) (chunks : List (List Nat)) :
    ∀ s, pb_encode_callbacks env s chunks = pb_callback_out env s chunks.flatten := by
  induction chunks with
  | nil => intro s; simp [pb_encode_callbacks, pb_callback_out]
  | cons c cs ih =>
    intro s
    simp only [pb_encode_callbacks, List.flatten_cons, pb_callback_out_append]
    cases pb_callback_out env s c with
    | none => simp
    | some s1 => simp [ih s1]

theorem pb_callback_out_written (env : Env) (s0 : State)
    (hlen : s0.msg_out.length = env.MSG_OUT_SIZE)
    (hend : s0.msg_out_end < env.MSG_OUT_SIZE / 64) (hcur : s0.msg_out_cur = 0)
    (bs : List Nat) :
    bs.length ≤ 63 * (env.MSG_OUT_SIZE / 64) →
      ∃ s, pb_callback_out env s0 bs = some s ∧
        stream_written env s0.msg_out_end bs s0 s := by
  induction bs using List.reverseRecOn with
  | nil =>
    intro _
    refine ⟨s0, by simp [pb_callback_out], rfl, ?_, ?_, same_outside_ring_refl s0, ?_, ?_⟩
    · simp [Nat.mod_eq_of_lt hend]
    · simp [hcur]
    · intro k hk; simp at hk
    · intro a _; rfl
  | append_singleton bs c ih =>
    intro hn
    rw [List.length_append, List.length_singleton] at hn
    obtain ⟨s, hrun, hl, he, hc, hsame, hbytes, hframe⟩ := ih (by omega)
    have hS : bs.length / 63 < env.MSG_OUT_SIZE / 64 := by omega
    have hSpos : 0 < env.MSG_OUT_SIZE / 64 := by omega
    have hendS : s.msg_out_end < env.MSG_OUT_SIZE / 64 := by
      rw [he]; exact Nat.mod_lt _ hSpos
    have hcur64 : s.msg_out_cur < 64 := by
      rw [hc]; split <;> omega
    obtain ⟨s1, hstep, hl1, he1, hc1, hsame1, hmem1⟩ :=
      msg_out_append_spec env s c (hl.trans hlen) hendS hcur64
    have hmax : max s.msg_out_cur 1 = bs.length % 63 + 1 := by
      rw [hc]; split <;> omega
    have hc0 : s.msg_out_cur = 0 ↔ bs.length % 63 = 0 := by
      rw [hc]; split <;> omega
    have hc63 : s.msg_out_cur = 63 ↔ bs.length % 63 = 62 := by
      rw [hc]; split <;> omega
    rw [hmax, he] at hmem1
    have hinj : ∀ k, k < bs.length →
        (s0.msg_out_end + k / 63) % (env.MSG_OUT_SIZE / 64) =
          (s0.msg_out_end + bs.length / 63) % (env.MSG_OUT_SIZE / 64) →
        k / 63 = bs.length / 63 := fun k hk h =>
      slot_index_inj _ _ _ _ (by omega) hS h
    refine ⟨s1, ?_, hl1.trans hl, ?_, ?_, same_outside_ring_trans _ _ _ hsame hsame1, ?_, ?_⟩
    · rw [pb_callback_out_append, hrun]
      simp [pb_callback_out, hstep]
    · rw [he1, he, List.length_append, List.length_singleton]
      by_cases h62 : bs.length % 63 = 62
      · rw [if_pos (hc63.mpr h62), Nat.mod_add_mod]
        congr 1
        omega
      · rw [if_neg (fun h => h62 (hc63.mp h))]
        congr 2
        omega
    · rw [hc1, List.length_append, List.length_singleton]
      by_cases h0 : bs.length % 63 = 0
      · rw [if_pos (hc0.mpr h0)]
        split <;> omega
      · rw [if_neg (fun h => h0 (hc0.mp h))]
        by_cases h62 : bs.length % 63 = 62
        · rw [if_pos (hc63.mpr h62)]
          split <;> omega
        · rw [if_neg (fun h => h62 (hc63.mp h)), hc]
          split <;> split <;> omega
    · intro k hk
      rw [List.length_append, List.length_singleton] at hk
      rw [hmem1, hmem1]
      by_cases hkn : k = bs.length
      · subst hkn
        refine ⟨?_, ?_⟩
        · rw [if_pos (by omega)]
          simp
        · rw [if_neg (by omega)]
          by_cases h0 : bs.length % 63 = 0
          · rw [if_pos ⟨hc0.mpr h0, rfl⟩]
          · rw [if_neg (fun h => h0 (hc0.mp h.1))]
            have hk1 := (hbytes (bs.length - 1) (by omega)).2
            have hd : (bs.length - 1) / 63 = bs.length / 63 := by omega
            rw [hd] at hk1
            exact hk1
      · have hk2 : k < bs.length := by omega
        have hi := hinj k hk2
        obtain ⟨hb1, hb2⟩ := hbytes k hk2
        refine ⟨?_, ?_⟩
        · rw [if_neg (by
            intro h
            have : (s0.msg_out_end + k / 63) % (env.MSG_OUT_SIZE / 64) =
                (s0.msg_out_end + bs.length / 63) % (env.MSG_OUT_SIZE / 64) := by omega
            have := hi this
            omega)]
          rw [if_neg (by
            intro h
            omega)]
          rw [hb1, List.getElem?_append_left hk2]
        · rw [if_neg (by omega)]
          by_cases h0 : bs.length % 63 = 0
          · rw [if_neg (by
              intro h
              have : (s0.msg_out_end + k / 63) % (env.MSG_OUT_SIZE / 64) =
                  (s0.msg_out_end + bs.length / 63) % (env.MSG_OUT_SIZE / 64) := by omega
              have := hi this
              omega)]
            exact hb2
          · rw [if_neg (fun h => h0 (hc0.mp h.1))]
            exact hb2
    · intro a ha
      have han := ha bs.length (by rw [List.length_append, List.length_singleton]; omega)
      obtain ⟨han1, han2⟩ := han
      rw [hmem1, if_neg (by omega), if_neg (fun h => han2 h.2)]
      apply hframe
      intro k hk
      exact ha k (by rw [List.length_append, List.length_singleton]; omega)

/-! ## Outbound ring: padding -/

theorem msg_out_pad_loop_spec :
    ∀ (fuel : Nat) (s : State), s.msg_out_cur + fuel = 64 →
      s.msg_out_end * 64 + 64 ≤ s.msg_out.length →
      ∃ s1, msg_out_pad_loop s fuel = some s1 ∧
        s1.msg_out.length = s.msg_out.length ∧ s1.msg_out_end = s.msg_out_end ∧
        s1.msg_out_cur = 64 ∧ same_outside_ring s s1 ∧
        ∀ a, s1.msg_out[a]? =
          if s.msg_out_end * 64 + s.msg_out_cur ≤ a ∧ a < s.msg_out_end * 64 + 64 then some 0
          else s.msg_out[a]? := by
  intro fuel
  induction fuel with
  | zero =>
    intro s hc _
    refine ⟨s, ?_, rfl, rfl, by omega, same_outside_ring_refl s, ?_⟩
    · simp [msg_out_pad_loop, show ¬ (s.msg_out_cur < 64) by omega]
    · intro a
      rw [if_neg (by omega)]
  | succ fuel ih =>
    intro s hc hb
    have hlt : s.msg_out_cur < 64 := by omega
    obtain ⟨s1, hrun, hl, he, hc1, hsame, hmem⟩ :=
      ih { s with msg_out := s.msg_out.set (s.msg_out_end * 64 + s.msg_out_cur) 0,
                  msg_out_cur := s.msg_out_cur + 1 }
        (by simp only; omega) (by simp only [List.length_set]; exact hb)
    refine ⟨s1, ?_, ?_, he, hc1, ?_, ?_⟩
    · simp only [msg_out_pad_loop, hlt, if_true,
        store_some _ _ _ (show s.msg_out_end * 64 + s.msg_out_cur < s.msg_out.length by omega)]
      exact hrun
    · rw [hl]; simp only [List.length_set]
    · exact same_outside_ring_trans s _ s1 (by simp [same_outside_ring]) hsame
    · intro a
      rw [hmem a]
      simp only
      by_cases ha : a = s.msg_out_end * 64 + s.msg_out_cur
      · subst ha
        rw [if_neg (by omega), if_pos (by omega), getElem?_set_self _ _ _ (by omega)]
      · rw [getElem?_set_ne _ _ _ _ ha]
        by_cases hin : s.msg_out_end * 64 + (s.msg_out_cur + 1) ≤ a ∧
            a < s.msg_out_end * 64 + 64
        · rw [if_pos hin, if_pos (by omega)]
        · rw [if_neg hin, if_neg (by omega)]

theorem msg_out_pad_spec (env : Env) (s : State)
    (hlen : s.msg_out.length = env.MSG_OUT_SIZE)
    (hend : s.msg_out_end < env.MSG_OUT_SIZE / 64) (hcur : s.msg_out_cur < 64) :
    ∃ s1, msg_out_pad env s = some s1 ∧
      s1.msg_out.length = s.msg_out.length ∧
      s1.msg_out_end = (if s.msg_out_cur = 0 then s.msg_out_end
          else (s.msg_out_end + 1) % (env.MSG_OUT_SIZE / 64)) ∧
      s1.msg_out_cur = 0 ∧ same_outside_ring s s1 ∧
      ∀ a, s1.msg_out[a]? =
        if s.msg_out_cur ≠ 0 ∧ s.msg_out_end * 64 + s.msg_out_cur ≤ a ∧
            a < s.msg_out_end * 64 + 64 then some 0
        else s.msg_out[a]? := by
  have hb : s.msg_out_end * 64 + 64 ≤ s.msg_out.length := by
    have := Nat.div_mul_le_self env.MSG_OUT_SIZE 64
    have : (s.msg_out_end + 1) * 64 ≤ env.MSG_OUT_SIZE / 64 * 64 :=
      Nat.mul_le_mul_right 64 hend
    omega
  by_cases h0 : s.msg_out_cur = 0
  · refine ⟨s, by simp [msg_out_pad, h0], rfl, by simp [h0], h0, same_outside_ring_refl s, ?_⟩
    intro a
    simp [h0]
  · obtain ⟨s1, hrun, hl, he, hc1, hsame, hmem⟩ :=
      msg_out_pad_loop_spec (64 - s.msg_out_cur) s (by omega) hb
    refine ⟨{ s1 with msg_out_cur := 0,
                      msg_out_end := (s1.msg_out_end + 1) % (env.MSG_OUT_SIZE / 64) },
      by simp [msg_out_pad, h0, hrun], hl, by simp [h0, he], rfl, ?_, ?_⟩
    · exact same_outside_ring_trans s s1 _ hsame (by simp [same_outside_ring])
    · intro a
      simp only [hmem a, ne_eq, h0, not_false_eq_true, true_and]

/-! ## Outbound ring: slots and packets -/

theorem slot_getElem? (mem : List Nat) (k j : Nat) :
    (slot mem k)[j]? = if j < 64 then mem[k * 64 + j]? else none := by
  unfold slot
  by_cases hj : j < 64
  · rw [if_pos hj, List.getElem?_take_of_lt hj, List.getElem?_drop]
  · rw [if_neg hj]
    apply List.getElem?_eq_none
    rw [List.length_take]
    omega

theorem packet_of_length (stream : List Nat) (i : Nat) : (packet_of stream i).length = 64 := by
  simp only [packet_of, List.length_cons, List.length_append, List.length_replicate,
    List.length_take, List.length_drop]
  omega

theorem packet_of_getElem? (stream : List Nat) (i j : Nat) :
    (packet_of stream i)[j]? =
      if j = 0 then some 63
      else if j < 64 then
        (if 63 * i + (j - 1) < stream.length then stream[63 * i + (j - 1)]? else some 0)
      else none := by
  by_cases h0 : j = 0
  · subst h0
    simp [packet_of]
  · rw [if_neg h0]
    obtain ⟨m, rfl⟩ : ∃ m, j = m + 1 := ⟨j - 1, by omega⟩
    simp only [packet_of, List.getElem?_cons_succ, Nat.add_sub_cancel]
    by_cases hj : m + 1 < 64
    · rw [if_pos hj]
      by_cases hin : 63 * i + m < stream.length
      · rw [if_pos hin, List.getElem?_append_left (by
          rw [List.length_take, List.length_drop]; omega),
          List.getElem?_take_of_lt (by omega), List.getElem?_drop]
      · rw [if_neg hin, List.getElem?_append_right (by
          rw [List.length_take, List.length_drop]; omega), List.getElem?_replicate]
        rw [if_pos (by
          rw [List.length_take, List.length_drop]; omega)]
    · rw [if_neg hj]
      apply List.getElem?_eq_none
      simp only [List.length_append, List.length_replicate, List.length_take, List.length_drop]
      omega

/-- A stream appended from the start of a slot and then padded: the slots it
occupies hold the packets of the stream, the write cursor stands at the start of
the slot after them, and everything else is as before. -/
theorem frame_written (env : Env) (s0 : State) (bs : List Nat)
    (hlen : s0.msg_out.length = env.MSG_OUT_SIZE)
    (hend : s0.msg_out_end < env.MSG_OUT_SIZE / 64) (hcur : s0.msg_out_cur = 0)
    (hcap : bs.length ≤ 63 * (env.MSG_OUT_SIZE / 64)) :
    ∃ s1 s2, pb_callback_out env s0 bs = some s1 ∧ msg_out_pad env s1 = some s2 ∧
      s2.msg_out.length = s0.msg_out.length ∧
      s2.msg_out_end =
        (s0.msg_out_end + (bs.length + 62) / 63) % (env.MSG_OUT_SIZE / 64) ∧
      s2.msg_out_cur = 0 ∧ same_outside_ring s0 s2 ∧
      (∀ i, i < (bs.length + 62) / 63 →
        slot s2.msg_out ((s0.msg_out_end + i) % (env.MSG_OUT_SIZE / 64)) =
          packet_of (bs.map fun x => x % 256) i) ∧
      (∀ a, (∀ i, i < (bs.length + 62) / 63 →
          ¬ ((s0.msg_out_end + i) % (env.MSG_OUT_SIZE / 64) * 64 ≤ a ∧
             a < (s0.msg_out_end + i) % (env.MSG_OUT_SIZE / 64) * 64 + 64)) →
        s2.msg_out[a]? = s0.msg_out[a]?) := by
  obtain ⟨s1, hrun, hl, he, hc, hsame, hbytes, hframe⟩ :=
    pb_callback_out_written env s0 hlen hend hcur bs hcap
  have hSpos : 0 < env.MSG_OUT_SIZE / 64 := by omega
  have hendS : s1.msg_out_end < env.MSG_OUT_SIZE / 64 := by
    rw [he]; exact Nat.mod_lt _ hSpos
  have hcur64 : s1.msg_out_cur < 64 := by
    rw [hc]; split <;> omega
  obtain ⟨s2, hpad, hl2, he2, hc2, hsame2, hmem2⟩ :=
    msg_out_pad_spec env s1 (hl.trans hlen) hendS hcur64
  have hc0 : s1.msg_out_cur = 0 ↔ bs.length % 63 = 0 := by
    rw [hc]; split <;> omega
  have hcv : s1.msg_out_cur ≠ 0 → s1.msg_out_cur = bs.length % 63 + 1 := by
    rw [hc]; split <;> omega
  have hinj : ∀ i, i < env.MSG_OUT_SIZE / 64 → bs.length % 63 ≠ 0 →
      (s0.msg_out_end + i) % (env.MSG_OUT_SIZE / 64) = s1.msg_out_end →
      i = bs.length / 63 := by
    intro i hi hne h
    rw [he] at h
    exact slot_index_inj _ _ _ _ hi (by omega) h
  refine ⟨s1, s2, hrun, hpad, hl2.trans hl, ?_, hc2, same_outside_ring_trans _ _ _ hsame hsame2,
    ?_, ?_⟩
  · rw [he2, he]
    by_cases h0 : bs.length % 63 = 0
    · rw [if_pos (hc0.mpr h0)]
      congr 2
      omega
    · rw [if_neg (fun h => h0 (hc0.mp h)), Nat.mod_add_mod]
      congr 1
      omega
  · intro i hi
    have hiS : i < env.MSG_OUT_SIZE / 64 := by omega
    apply List.ext_getElem?
    intro j
    rw [slot_getElem?, packet_of_getElem?, List.length_map]
    by_cases hj64 : j < 64
    swap
    · rw [if_neg hj64, if_neg (by omega), if_neg hj64]
    rw [if_pos hj64, hmem2]
    by_cases hj0 : j = 0
    · subst hj0
      rw [if_pos rfl, if_neg (by omega)]
      have h := (hbytes (63 * i) (by omega)).2
      have hd : 63 * i / 63 = i := by omega
      rw [hd] at h
      exact h
    · rw [if_neg hj0, if_pos hj64]
      by_cases hk : 63 * i + (j - 1) < bs.length
      · rw [if_pos hk]
        rw [if_neg (by
          rintro ⟨hne, h1, h2⟩
          have hcv1 := hcv hne
          have hσ : (s0.msg_out_end + i) % (env.MSG_OUT_SIZE / 64) = s1.msg_out_end := by
            omega
          have hii := hinj i hiS (fun h => hne (hc0.mpr h)) hσ
          omega)]
        have h := (hbytes (63 * i + (j - 1)) hk).1
        have hd : (63 * i + (j - 1)) / 63 = i := by omega
        have hm : (63 * i + (j - 1)) % 63 = j - 1 := by omega
        rw [hd, hm] at h
        have haddr : (s0.msg_out_end + i) % (env.MSG_OUT_SIZE / 64) * 64 + (j - 1) + 1 =
            (s0.msg_out_end + i) % (env.MSG_OUT_SIZE / 64) * 64 + j := by omega
        rw [haddr] at h
        rw [h, List.getElem?_map]
      · rw [if_neg hk]
        have hne : bs.length % 63 ≠ 0 := by omega
        have hii : i = bs.length / 63 := by omega
        have hcv1 := hcv (fun h => hne (hc0.mp h))
        have hσ : (s0.msg_out_end + i) % (env.MSG_OUT_SIZE / 64) = s1.msg_out_end := by
          rw [he, hii]
        rw [hσ, if_pos ⟨fun h => hne (hc0.mp h), by omega, by omega⟩]
  · intro a ha
    rw [hmem2, if_neg (by
      rintro ⟨hne, h1, h2⟩
      have hn0 : bs.length % 63 ≠ 0 := fun h => hne (hc0.mpr h)
      have := ha (bs.length / 63) (by omega)
      rw [← he] at this
      omega)]
    apply hframe
    intro k hk
    have := ha (k / 63) (by omega)
    omega

/-! ## Outbound: a whole message -/

theorem map_mod_256_eq (l : List Nat) (h : ∀ x ∈ l, x < 256) :
    l.map (fun x => x % 256) = l := by
  induction l with
  | nil => rfl
  | cons a t ih =>
    have ha : a % 256 = a := Nat.mod_eq_of_lt (h a (List.mem_cons_self a t))
    rw [List.map_cons, ha, ih (fun x hx => h x (List.mem_cons_of_mem a hx))]

theorem msg_write_header_bytes (msg_id len : Nat) : ∀ x ∈ msg_write_header msg_id len, x < 256 := by
  intro x hx
  simp only [msg_write_header, List.mem_cons, List.mem_singleton, List.not_mem_nil,
    or_false] at hx
  omega

theorem msg_write_header_length (msg_id len : Nat) : (msg_write_header msg_id len).length = 8 :=
  rfl

/-- A write under the normal category that passes the lookup and the size pass:
whatever status the encoder returns, the header and the bytes the encoder emitted
are in the ring as whole packets. -/
theorem msg_write_common_frame (env : Env) (s : State) (id len : Nat) (msg : List Nat)
    (hlen : s.msg_out.length = env.MSG_OUT_SIZE)
    (hend : s.msg_out_end < env.MSG_OUT_SIZE / 64) (hcur : s.msg_out_cur = 0)
    (hreg : MessageFields env 110 111 id ≠ 0)
    (hsz : env.pb_get_encoded_size (MessageFields env 110 111 id) msg = some len)
    (hcap : 8 + (env.pb_encode (MessageFields env 110 111 id) msg).1.flatten.length ≤
      63 * (env.MSG_OUT_SIZE / 64)) :
    ∃ s2, msg_write_common env s 110 id msg =
        some (s2, (env.pb_encode (MessageFields env 110 111 id) msg).2) ∧
      s2.msg_out.length = s.msg_out.length ∧
      s2.msg_out_end =
        (s.msg_out_end +
          (8 + (env.pb_encode (MessageFields env 110 111 id) msg).1.flatten.length + 62) / 63) %
            (env.MSG_OUT_SIZE / 64) ∧
      s2.msg_out_cur = 0 ∧ same_outside_ring { s with decode_flag := true } s2 ∧
      (∀ i, i < (8 + (env.pb_encode (MessageFields env 110 111 id) msg).1.flatten.length + 62)
            / 63 →
        slot s2.msg_out ((s.msg_out_end + i) % (env.MSG_OUT_SIZE / 64)) =
          packet_of (msg_write_header id len ++
            ((env.pb_encode (MessageFields env 110 111 id) msg).1.flatten.map
              fun x => x % 256)) i) ∧
      (∀ a, (∀ i, i < (8 + (env.pb_encode (MessageFields env 110 111 id) msg).1.flatten.length
            + 62) / 63 →
          ¬ ((s.msg_out_end + i) % (env.MSG_OUT_SIZE / 64) * 64 ≤ a ∧
             a < (s.msg_out_end + i) % (env.MSG_OUT_SIZE / 64) * 64 + 64)) →
        s2.msg_out[a]? = s.msg_out[a]?) := by
  obtain ⟨s1, s2, hrun, hpad, hl2, he2, hc2, hsame2, hslots, hframe⟩ :=
    frame_written env { s with decode_flag := true }
      (msg_write_header id len ++ (env.pb_encode (MessageFields env 110 111 id) msg).1.flatten)
      hlen hend hcur
      (by rw [List.length_append, msg_write_header_length]; exact hcap)
  rw [List.length_append, msg_write_header_length] at he2 hslots hframe
  rw [pb_callback_out_append] at hrun
  refine ⟨s2, ?_, hl2, he2, hc2, hsame2, ?_, hframe⟩
  · unfold msg_write_common
    simp only [hreg, if_false, hsz, if_true]
    cases hh : pb_callback_out env { s with decode_flag := true } (msg_write_header id len) with
    | none => rw [hh] at hrun; simp at hrun
    | some sh =>
      rw [hh] at hrun
      have hrun2 : pb_callback_out env sh
          (env.pb_encode (MessageFields env 110 111 id) msg).1.flatten = some s1 := hrun
      simp only [pb_encode_callbacks_eq, hrun2, hpad]
  · intro i hi
    rw [hslots i hi, List.map_append, map_mod_256_eq _ (msg_write_header_bytes id len)]

/-! ## Outbound: reading the ring out -/

theorem msg_out_data_n_run (env : Env) (e n : Nat) (hn : n < env.MSG_OUT_SIZE / 64) :
    ∀ (d i : Nat) (s : State), i + d = n →
      s.msg_out_start = (e + i) % (env.MSG_OUT_SIZE / 64) →
      s.msg_out_end = (e + n) % (env.MSG_OUT_SIZE / 64) →
      msg_out_data_n env d s =
        ({ s with msg_out_start := (e + n) % (env.MSG_OUT_SIZE / 64) },
          (List.range d).map fun t =>
            some (slot s.msg_out ((e + (i + t)) % (env.MSG_OUT_SIZE / 64)))) := by
  intro d
  induction d with
  | zero =>
    intro i s hi hs _
    have : i = n := by omega
    subst this
    simp only [msg_out_data_n, List.range_zero, List.map_nil, ← hs]
  | succ d ih =>
    intro i s hi hs he
    have hne : s.msg_out_start ≠ s.msg_out_end := by
      rw [hs, he]
      intro h
      have := slot_index_inj _ _ _ _ (by omega) hn h
      omega
    have hstep : msg_out_data env s =
        ({ s with msg_out_start := (e + (i + 1)) % (env.MSG_OUT_SIZE / 64) },
          some (slot s.msg_out ((e + i) % (env.MSG_OUT_SIZE / 64)))) := by
      unfold msg_out_data
      rw [if_neg hne]
      simp only [slot, hs, Nat.mod_add_mod, Nat.add_assoc]
    have hrec := ih (i + 1)
      { s with msg_out_start := (e + (i + 1)) % (env.MSG_OUT_SIZE / 64) } (by omega) rfl he
    simp only [msg_out_data_n, hstep, hrec, List.range_succ_eq_map, List.map_cons,
      List.map_map, Nat.add_zero]
    congr 2
    apply List.map_congr_left
    intro t _
    simp only [Function.comp_def, Nat.add_assoc, Nat.add_comm 1]

theorem msg_out_data_empty (env : Env) (s : State) (h : s.msg_out_start = s.msg_out_end) :
    msg_out_data env s = (s, none) := by
  simp [msg_out_data, h]

/-! ## Outbound and inbound together -/


theorem msg_out_data_n_add (env : Env) : ∀ (a b : Nat) (s : State),
    msg_out_data_n env (a + b) s =
      ((msg_out_data_n env b (msg_out_data_n env a s).1).1,
        (msg_out_data_n env a s).2 ++ (msg_out_data_n env b (msg_out_data_n env a s).1).2) := by
  intro a
  induction a with
  | zero => intro b s; simp [msg_out_data_n]
  | succ a ih =>
    intro b s
    rw [show a + 1 + b = (a + b) + 1 by omega]
    simp only [msg_out_data_n, ih, List.cons_append]

theorem packet_of_drop_one (st : List Nat) (i : Nat) :
    (packet_of st i).drop 1 = (st.drop (63 * i)).take 63 ++
      List.replicate (63 - ((st.drop (63 * i)).take 63).length) 0 := by
  simp [packet_of]

theorem flatten_packets (st : List Nat) : ∀ M : Nat,
    ((List.range M).map fun i => (packet_of st i).drop 1).flatten =
      st.take (63 * M) ++ List.replicate (63 * M - st.length) 0 := by
  intro M
  induction M with
  | zero => simp
  | succ M ih =>
    rw [List.range_succ, List.map_append, List.flatten_append, ih, List.map_singleton,
      List.flatten_singleton, packet_of_drop_one, List.length_take, List.length_drop]
    by_cases h : st.length ≤ 63 * M
    · rw [List.take_of_length_le h, List.take_of_length_le (by omega : st.length ≤ 63 * (M + 1)),
        List.drop_of_length_le h]
      simp only [List.take_nil, List.nil_append, List.append_assoc, List.append_replicate_replicate]
      congr 2
      omega
    · have h0 : 63 * M - st.length = 0 := by omega
      rw [h0, List.replicate_zero, List.append_nil, ← List.append_assoc, ← List.take_add]
      congr 2
      omega

theorem same_outside_ring_fields (s s1 : State) (h : same_outside_ring s s1) :
    s1.msg_out_start = s.msg_out_start ∧ s1.read_state = s.read_state ∧
      s1.msg_in = s.msg_in ∧ s1.decode_flag = s.decode_flag ∧ s1.msg_pos = s.msg_pos ∧
      s1.msg_size = s.msg_size ∧ s1.msg_id = s.msg_id ∧ s1.fields = s.fields ∧
      s1.msg_in_buffer = s.msg_in_buffer := by
  unfold same_outside_ring at h
  refine ⟨?_, ?_, ?_, ?_, ?_, ?_, ?_, ?_, ?_⟩ <;> (rw [h])

/-- A message written into an empty ring with fewer packets than slots, then
read out: `msg_out_data` hands out its packets in write order and then `NULL`. -/
theorem msg_write_then_out (env : Env) (s : State) (id L : Nat) (msg b : List Nat)
    (hlen : s.msg_out.length = env.MSG_OUT_SIZE)
    (hend : s.msg_out_end < env.MSG_OUT_SIZE / 64) (hcur : s.msg_out_cur = 0)
    (hempty : s.msg_out_start = s.msg_out_end)
    (hreg : MessageFields env 110 111 id ≠ 0)
    (hsz : env.pb_get_encoded_size (MessageFields env 110 111 id) msg = some L)
    (henc : (env.pb_encode (MessageFields env 110 111 id) msg).1.flatten = b)
    (hbL : b.length = L) (hbyte : ∀ x ∈ b, x < 256)
    (hN : (8 + L + 62) / 63 < env.MSG_OUT_SIZE / 64) :
    ∃ s1 s2, msg_write_common env s 110 id msg =
        some (s1, (env.pb_encode (MessageFields env 110 111 id) msg).2) ∧
      msg_out_data_n env ((8 + L + 62) / 63) s1 =
        (s2, (List.range ((8 + L + 62) / 63)).map fun i =>
          some (packet_of (msg_write_header id L ++ b) i)) ∧
      msg_out_data env s2 = (s2, none) ∧
      s2.read_state = s.read_state ∧ s2.msg_in = s.msg_in := by
  obtain ⟨s1, hw, _, he, _, hsame, hslots, _⟩ :=
    msg_write_common_frame env s id L msg hlen hend hcur hreg hsz
      (by rw [henc, hbL]; omega)
  rw [henc, hbL] at he hslots
  rw [map_mod_256_eq b hbyte] at hslots
  obtain ⟨hstart, hrs, hin, _⟩ := same_outside_ring_fields _ _ hsame
  have hrun := msg_out_data_n_run env s.msg_out_end ((8 + L + 62) / 63) hN
    ((8 + L + 62) / 63) 0 s1 (by omega)
    (by rw [hstart, Nat.add_zero, Nat.mod_eq_of_lt hend]; exact hempty) he
  refine ⟨s1, { s1 with msg_out_start :=
      (s.msg_out_end + (8 + L + 62) / 63) % (env.MSG_OUT_SIZE / 64) }, hw, ?_, ?_, hrs, hin⟩
  · rw [hrun]
    congr 1
    apply List.map_congr_left
    intro t ht
    rw [Nat.zero_add, hslots t (List.mem_range.mp ht)]
  · exact msg_out_data_empty env _ he.symm

theorem packet_of_head (st : List Nat) (i : Nat) : (packet_of st i).head? = some 63 := rfl

theorem packet_zero_shape (id L : Nat) (b : List Nat) :
    packet_of (msg_write_header id L ++ b) 0 =
      63 :: (msg_write_header id L ++ (packet_of (msg_write_header id L ++ b) 0).drop 9) := by
  have h8 : ((packet_of (msg_write_header id L ++ b) 0).drop 1).take 8 =
      msg_write_header id L := by
    rw [packet_of_drop_one, Nat.mul_zero, List.drop_zero,
      List.take_append_of_le_length (by
        rw [List.length_take, List.length_append, msg_write_header_length]; omega),
      List.take_take, List.take_append_of_le_length (by
        rw [msg_write_header_length]; decide),
      List.take_of_length_le (by rw [msg_write_header_length]; decide)]
  have hsplit := List.take_append_drop 8 ((packet_of (msg_write_header id L ++ b) 0).drop 1)
  rw [h8, List.drop_drop] at hsplit
  have hc : packet_of (msg_write_header id L ++ b) 0 =
      63 :: (packet_of (msg_write_header id L ++ b) 0).drop 1 := by
    simp [packet_of]
  rw [← hsplit] at hc
  exact hc

theorem payload_recovered (id L : Nat) (b : List Nat) (hbL : b.length = L) (n : Nat)
    (hn : n + 1 = (8 + L + 62) / 63) :
    ((packet_of (msg_write_header id L ++ b) 0).drop 9 ++
        (((List.range n).map fun t => packet_of (msg_write_header id L ++ b) (t + 1)).map
          (List.drop 1)).flatten).take L = b := by
  have hfl := flatten_packets (msg_write_header id L ++ b) (n + 1)
  rw [List.range_succ_eq_map, List.map_cons, List.flatten_cons, List.map_map] at hfl
  have hlen : (msg_write_header id L ++ b).length = 8 + L := by
    rw [List.length_append, msg_write_header_length, hbL]
  rw [List.take_of_length_le (by omega)] at hfl
  have h9 : (packet_of (msg_write_header id L ++ b) 0).drop 9 =
      ((packet_of (msg_write_header id L ++ b) 0).drop 1).drop 8 := by
    rw [List.drop_drop]
  have hd1 : 8 ≤ ((packet_of (msg_write_header id L ++ b) 0).drop 1).length := by
    rw [List.length_drop, packet_of_length]; decide
  rw [h9, List.map_map, ← List.drop_append_of_le_length hd1]
  have hfl2 : List.drop 1 (packet_of (msg_write_header id L ++ b) 0) ++
      (List.map (List.drop 1 ∘ fun t => packet_of (msg_write_header id L ++ b) (t + 1))
        (List.range n)).flatten =
      msg_write_header id L ++ b ++
        List.replicate (63 * (n + 1) - (msg_write_header id L ++ b).length) 0 := hfl
  rw [hfl2, List.append_assoc, List.drop_left' (msg_write_header_length id L),
    List.take_left' hbL]

/-! ## Inbound reassembly: drops and aborts -/

theorem msg_read_common_idle_no_start (env : Env) (s : State) (type : Nat) (buf : List Nat)
    (hidle : s.read_state = READSTATE_IDLE) (hlen : buf.length = 64)
    (hshape : buf.take 3 ≠ [63, 35, 35]) :
    msg_read_common env s type buf 64 = some (s, []) := by
  match buf, hlen, hshape with
  | a :: b :: c :: rest, _, hshape =>
    have hne : a ≠ 63 ∨ b ≠ 35 ∨ c ≠ 35 := by
      by_contra hcon
      push_neg at hcon
      apply hshape
      simp [hcon.1, hcon.2.1, hcon.2.2]
    simp [msg_read_common, hidle, hne]

/-- In Idle the outcome of a packet that carries the start markers does not
depend on the `msg_id`, `msg_size` and `fields` left by earlier packets. -/
theorem msg_read_common_idle_start_indep (env : Env) (s : State) (type : Nat) (p : List Nat)
    (a b c : Nat) (hidle : s.read_state = READSTATE_IDLE) (hp : p.take 3 = [63, 35, 35]) :
    msg_read_common env { s with msg_id := a, msg_size := b, fields := c } type p 64 =
      msg_read_common env s type p 64 := by
  match p, hp with
  | x :: y :: z :: rest, hp =>
    simp only [List.take_succ_cons, List.take_zero, List.cons.injEq, and_true] at hp
    obtain ⟨hx, hy, hz⟩ := hp
    subst hx hy hz
    simp only [msg_read_common, hidle, List.getD_cons_zero, List.getD_cons_succ]
    rfl

theorem msg_read_common_oversize (env : Env) (s : State) (type id L : Nat) (rest : List Nat)
    (hidle : s.read_state = READSTATE_IDLE) (hid : id < 65536) (hL : L < 4294967296)
    (hbig : env.MSG_IN_SIZE < L) :
    msg_read_common env s type (63 :: (msg_write_header id L ++ rest)) 64 =
      some ({ s with msg_id := id, msg_size := L,
                     fields := MessageFields env type 105 id }, []) := by
  simp only [msg_read_common, msg_write_header, hidle, List.cons_append, List.nil_append,
    List.getD_cons_zero, List.getD_cons_succ, header_id id hid, header_len L hL]
  simp [hbig]

/-! ## Inbound reassembly: packets under several categories -/

theorem msg_process_events (env : Env) (s : State) (type msg_id fields : Nat)
    (msg_raw : List Nat) (msg_size : Nat) :
    (msg_process env s type msg_id fields msg_raw msg_size).2 =
      Event.msg_process type msg_id fields (msg_raw.take msg_size) msg_size ::
        (if (env.pb_decode fields (msg_raw.take msg_size)
              (List.replicate env.MSG_IN_SIZE 0)).1 = true then
           MessageProcessFunc env type 105 msg_id
             (env.pb_decode fields (msg_raw.take msg_size)
               (List.replicate env.MSG_IN_SIZE 0)).2
         else []) := by
  unfold msg_process
  dsimp only
  split <;> rfl

theorem msg_read_finish_events (env : Env) (s : State) (type : Nat)
    (h : s.msg_size ≤ s.msg_pos) :
    (msg_read_finish env s type).2 =
      (msg_process env s type s.msg_id s.fields s.msg_in s.msg_size).2 := by
  simp [msg_read_finish, h]

theorem msg_read_calls_reassemble (env : Env) (B : Nat) (pk : List Nat)
    (h32 : env.MSG_IN_SIZE < 4294967296) (hpk : pk.length = 64) (hpm : pk.head? = some 63) :
    ∀ (mids : List (Nat × List Nat)) (s : State) (acc : List Nat),
      s.read_state = READSTATE_READING → s.msg_in.length = env.MSG_IN_SIZE →
      s.msg_size ≤ env.MSG_IN_SIZE → s.msg_pos = acc.length →
      s.msg_in.take s.msg_pos = acc →
      (∀ c ∈ mids, c.2.length = 64 ∧ c.2.head? = some 63) →
      acc.length + 63 * mids.length < s.msg_size →
      s.msg_size ≤ acc.length + 63 * (mids.length + 1) →
      ∃ s1, msg_read_calls env s (mids.map (fun c => (c.1, c.2, 64)) ++ [(B, pk, 64)]) =
          some (s1, List.replicate mids.length [] ++
            [Event.msg_process B s.msg_id s.fields
                ((acc ++ ((mids.map fun c => c.2.drop 1).flatten ++ pk.drop 1)).take s.msg_size)
                s.msg_size ::
              (if (env.pb_decode s.fields
                    ((acc ++ ((mids.map fun c => c.2.drop 1).flatten ++ pk.drop 1)).take
                      s.msg_size) (List.replicate env.MSG_IN_SIZE 0)).1 = true then
                 MessageProcessFunc env B 105 s.msg_id
                   (env.pb_decode s.fields
                     ((acc ++ ((mids.map fun c => c.2.drop 1).flatten ++ pk.drop 1)).take
                       s.msg_size) (List.replicate env.MSG_IN_SIZE 0)).2
               else [])]) ∧
        s1.read_state = READSTATE_IDLE ∧ s1.msg_pos = 0 := by
  intro mids
  induction mids with
  | nil =>
    intro s acc hrd hin hsz hpos htake _ hlt hge
    obtain ⟨s2, ⟨h2in, h2pos, h2sz, h2id, h2f⟩, hstep⟩ :
        ∃ s2 : State,
          (s2.msg_in = s.msg_in.take s.msg_pos ++
              ((pk.drop 1).take (min 63 (env.MSG_IN_SIZE - s.msg_pos)) ++
                s.msg_in.drop (s.msg_pos + min 63 (env.MSG_IN_SIZE - s.msg_pos))) ∧
            s2.msg_pos = s.msg_pos + min 63 (env.MSG_IN_SIZE - s.msg_pos) ∧
            s2.msg_size = s.msg_size ∧ s2.msg_id = s.msg_id ∧ s2.fields = s.fields) ∧
          msg_read_common env s B pk 64 = some (msg_read_finish env s2 B) :=
      ⟨{ s with
            msg_in := s.msg_in.take s.msg_pos ++
              ((pk.drop 1).take (min 63 (env.MSG_IN_SIZE - s.msg_pos)) ++
                s.msg_in.drop (s.msg_pos + min 63 (env.MSG_IN_SIZE - s.msg_pos))),
            msg_pos := s.msg_pos + min 63 (env.MSG_IN_SIZE - s.msg_pos) },
        ⟨rfl, rfl, rfl, rfl, rfl⟩,
        msg_read_common_cont env s B pk hrd hin (by omega) h32 hpk hpm⟩
    simp only [List.length_nil, Nat.mul_zero, Nat.add_zero, Nat.zero_add, Nat.mul_one] at hlt hge
    have hdl : (pk.drop 1).length = 63 := by rw [List.length_drop]; omega
    have hfin : s2.msg_size ≤ s2.msg_pos := by omega
    obtain ⟨_, hi, hz, _⟩ := msg_read_finish_complete env s2 B hfin
    have hev := msg_read_finish_events env s2 B hfin
    rw [msg_process_events] at hev
    have hpay : s2.msg_in.take s2.msg_size = (acc ++ pk.drop 1).take s.msg_size := by
      rw [h2in, h2sz, htake, take_append_take acc (pk.drop 1) _ _ _ (by omega) (by omega)]
    rw [hpay, h2id, h2f, h2sz] at hev
    refine ⟨(msg_read_finish env s2 B).1, ?_, hi, hz⟩
    simp only [List.map_nil, List.nil_append, msg_read_calls, hstep, List.length_nil,
      List.replicate_zero, List.flatten_nil, ← hev]
  | cons c rest ih =>
    intro s acc hrd hin hsz hpos htake hall hlt hge
    have hc := hall c (List.mem_cons_self c rest)
    have hdl : (c.2.drop 1).length = 63 := by rw [List.length_drop]; omega
    simp only [List.length_cons] at hlt hge
    obtain ⟨s2, ⟨h2rd, h2in, h2pos, h2sz, h2id, h2f⟩, hstep⟩ :
        ∃ s2 : State,
          (s2.read_state = s.read_state ∧
            s2.msg_in = s.msg_in.take s.msg_pos ++
              ((c.2.drop 1).take (min 63 (env.MSG_IN_SIZE - s.msg_pos)) ++
                s.msg_in.drop (s.msg_pos + min 63 (env.MSG_IN_SIZE - s.msg_pos))) ∧
            s2.msg_pos = s.msg_pos + min 63 (env.MSG_IN_SIZE - s.msg_pos) ∧
            s2.msg_size = s.msg_size ∧ s2.msg_id = s.msg_id ∧ s2.fields = s.fields) ∧
          msg_read_common env s c.1 c.2 64 = some (msg_read_finish env s2 c.1) :=
      ⟨{ s with
            msg_in := s.msg_in.take s.msg_pos ++
              ((c.2.drop 1).take (min 63 (env.MSG_IN_SIZE - s.msg_pos)) ++
                s.msg_in.drop (s.msg_pos + min 63 (env.MSG_IN_SIZE - s.msg_pos))),
            msg_pos := s.msg_pos + min 63 (env.MSG_IN_SIZE - s.msg_pos) },
        ⟨rfl, rfl, rfl, rfl, rfl, rfl⟩,
        msg_read_common_cont env s c.1 c.2 hrd hin (by omega) h32 hc.1 hc.2⟩
    have hn : min 63 (env.MSG_IN_SIZE - s.msg_pos) = 63 := by omega
    rw [hn] at h2in h2pos
    rw [msg_read_finish_pending env s2 c.1 (by omega)] at hstep
    have hacc : (acc ++ c.2.drop 1).length = s2.msg_pos := by
      rw [List.length_append, hdl, h2pos, hpos]
    obtain ⟨s1, hrun, hi, hz⟩ := ih s2 (acc ++ c.2.drop 1) (h2rd.trans hrd)
      (by rw [h2in]
          simp only [List.length_append, List.length_take, List.length_drop]; omega)
      (by omega) hacc.symm
      (by
        rw [h2in, htake, ← List.append_assoc, ← hacc,
          List.take_of_length_le (le_of_eq hdl), List.take_left])
      (fun q hq => hall q (List.mem_cons_of_mem c hq))
      (by rw [hacc, h2sz]; omega) (by rw [hacc, h2sz]; omega)
    rw [h2sz, h2id, h2f] at hrun
    simp only [List.append_assoc] at hrun
    refine ⟨s1, ?_, hi, hz⟩
    rw [List.map_cons, List.cons_append, msg_read_calls]
    simp only [hstep, hrun, List.length_cons, List.replicate_succ, List.map_cons,
      List.flatten_cons, List.append_assoc, List.cons_append]

/-! ## Inbound reassembly: bounds -/

theorem memcpy_some (dst : List Nat) (off : Nat) (src : List Nat) (n : Nat)
    (hd : off + n ≤ dst.length) (hs : n ≤ src.length) :
    ∃ m, memcpy dst off src n = some m ∧ m.length = dst.length := by
  refine ⟨dst.take off ++ (src.take n ++ dst.drop (off + n)), ?_, ?_⟩
  · unfold memcpy
    rw [if_pos ⟨hd, hs⟩]
  · simp only [List.length_append, List.length_take, List.length_drop]
    omega

theorem read_inv_init (env : Env) : read_inv env (State.init env) :=
  ⟨List.length_replicate _ _, Nat.zero_le _, Or.inl rfl⟩

theorem msg_read_finish_cases (env : Env) (s : State) (type : Nat)
    (hl : s.msg_in.length = env.MSG_IN_SIZE) (hp : s.msg_pos ≤ env.MSG_IN_SIZE)
    (hs : s.msg_size ≤ env.MSG_IN_SIZE) (hr : s.read_state = READSTATE_READING) :
    read_inv env (msg_read_finish env s type).1 ∧
      ((msg_read_finish env s type).2 = [] ∨
        ((msg_read_finish env s type).1.read_state = READSTATE_IDLE ∧
          (msg_read_finish env s type).1.msg_pos = 0 ∧
          msg_process_calls (msg_read_finish env s type).2 =
            [Event.msg_process type (msg_read_finish env s type).1.msg_id
              (msg_read_finish env s type).1.fields
              ((msg_read_finish env s type).1.msg_in.take
                (msg_read_finish env s type).1.msg_size)
              (msg_read_finish env s type).1.msg_size])) := by
  by_cases hfin : s.msg_size ≤ s.msg_pos
  · obtain ⟨hc, hi, hz, hm⟩ := msg_read_finish_complete env s type hfin
    have hst := msg_process_state env s type s.msg_id s.fields s.msg_in s.msg_size
    have hfs : (msg_read_finish env s type).1 =
        { (msg_process env s type s.msg_id s.fields s.msg_in s.msg_size).1 with
            msg_pos := 0, read_state := READSTATE_IDLE } := by
      simp [msg_read_finish, hfin]
    have hid : (msg_read_finish env s type).1.msg_id = s.msg_id := by rw [hfs, hst]
    have hf : (msg_read_finish env s type).1.fields = s.fields := by rw [hfs, hst]
    have hsz : (msg_read_finish env s type).1.msg_size = s.msg_size := by rw [hfs, hst]
    refine ⟨⟨by rw [hm]; exact hl, by rw [hz]; exact Nat.zero_le _, Or.inl hi⟩, Or.inr ⟨hi, hz, ?_⟩⟩
    rw [hc, hid, hf, hsz, hm]
  · rw [msg_read_finish_pending env s type (by omega)]
    have hlt : s.msg_pos < s.msg_size := by omega
    exact ⟨⟨hl, hp, Or.inr ⟨hr, hlt, hs⟩⟩, Or.inl rfl⟩

/-- One call of `msg_read_common` from a state within the bounds, on a buffer
that has the `len` bytes announced: no copy leaves `msg_in`, the bounds hold
afterwards, and calls are made only by a completion, which leaves the state Idle
with the count at 0 and the id, descriptor and length of the message in place. -/
theorem msg_read_common_step (env : Env) (s : State) (type : Nat) (buf : List Nat) (len : Nat)
    (h55 : 55 ≤ env.MSG_IN_SIZE) (hinv : read_inv env s) (hbuf : len ≤ buf.length) :
    ∃ s1 evs, msg_read_common env s type buf len = some (s1, evs) ∧ read_inv env s1 ∧
      (evs = [] ∨
        (s1.read_state = READSTATE_IDLE ∧ s1.msg_pos = 0 ∧
          msg_process_calls evs =
            [Event.msg_process type s1.msg_id s1.fields (s1.msg_in.take s1.msg_size)
              s1.msg_size])) := by
  obtain ⟨hl, hp, hrs⟩ := hinv
  unfold msg_read_common
  by_cases hlen : len = 64
  swap
  · rw [if_pos hlen]
    exact ⟨s, [], rfl, ⟨hl, hp, hrs⟩, Or.inl rfl⟩
  subst hlen
  rw [if_neg (by decide)]
  by_cases hidle : s.read_state = READSTATE_IDLE
  · rw [if_pos hidle]
    by_cases hmk : buf.getD 0 0 ≠ 63 ∨ buf.getD 1 0 ≠ 35 ∨ buf.getD 2 0 ≠ 35
    · rw [if_pos hmk]
      exact ⟨s, [], rfl, ⟨hl, hp, hrs⟩, Or.inl rfl⟩
    · rw [if_neg hmk]
      dsimp only
      by_cases hf : MessageFields env type 105 (u16 (buf.getD 3 0 * 256 + buf.getD 4 0)) = 0
      · rw [if_pos hf]
        exact ⟨_, [], rfl, ⟨hl, hp, Or.inl hidle⟩, Or.inl rfl⟩
      · rw [if_neg hf]
        by_cases hbig : u32 (buf.getD 5 0 * 16777216 + buf.getD 6 0 * 65536 +
            buf.getD 7 0 * 256 + buf.getD 8 0) > env.MSG_IN_SIZE
        · rw [if_pos hbig]
          exact ⟨_, [], rfl, ⟨hl, hp, Or.inl hidle⟩, Or.inl rfl⟩
        · rw [if_neg hbig]
          obtain ⟨m, hm, hml⟩ := memcpy_some s.msg_in 0 (buf.drop 9) (64 - 9)
            (by omega) (by rw [List.length_drop]; omega)
          rw [hm]
          obtain ⟨hi2, hc2⟩ := msg_read_finish_cases env
            { s with msg_id := u16 (buf.getD 3 0 * 256 + buf.getD 4 0),
                     msg_size := u32 (buf.getD 5 0 * 16777216 + buf.getD 6 0 * 65536 +
                       buf.getD 7 0 * 256 + buf.getD 8 0),
                     fields := MessageFields env type 105
                       (u16 (buf.getD 3 0 * 256 + buf.getD 4 0)),
                     read_state := READSTATE_READING, msg_in := m, msg_pos := 64 - 9 } type
            (hml.trans hl) (by simp only; omega) (by simp only; omega) rfl
          exact ⟨_, _, rfl, hi2, hc2⟩
  · rw [if_neg hidle]
    have hrd : s.read_state = READSTATE_READING ∧ s.msg_pos < s.msg_size ∧
        s.msg_size ≤ env.MSG_IN_SIZE := by
      rcases hrs with h | h
      · exact absurd h hidle
      · exact h
    rw [if_pos hrd.1]
    by_cases hmk : buf.getD 0 0 ≠ 63
    · rw [if_pos hmk]
      exact ⟨_, [], rfl, ⟨hl, hp, Or.inl rfl⟩, Or.inl rfl⟩
    · rw [if_neg hmk]
      dsimp only
      rw [if_pos hp, MIN_eq_min]
      obtain ⟨m, hm, hml⟩ := memcpy_some s.msg_in s.msg_pos (buf.drop 1)
        (min (64 - 1) (env.MSG_IN_SIZE - s.msg_pos))
        (by omega) (by rw [List.length_drop]; omega)
      rw [hm]
      have hu : u32 (s.msg_pos + min (64 - 1) (env.MSG_IN_SIZE - s.msg_pos)) ≤
          env.MSG_IN_SIZE := by
        unfold u32
        exact (Nat.mod_le _ _).trans (by omega)
      obtain ⟨hi2, hc2⟩ := msg_read_finish_cases env
        { s with msg_in := m,
                 msg_pos := u32 (s.msg_pos + min (64 - 1) (env.MSG_IN_SIZE - s.msg_pos)) } type
        (hml.trans hl) hu hrd.2.2 hrd.1
      exact ⟨_, _, rfl, hi2, hc2⟩

theorem msg_read_calls_inv (env : Env) (h55 : 55 ≤ env.MSG_IN_SIZE) :
    ∀ (calls : List (Nat × List Nat × Nat)) (s : State), read_inv env s →
      (∀ c ∈ calls, c.2.2 ≤ c.2.1.length) →
      ∃ s1 evs, msg_read_calls env s calls = some (s1, evs) ∧ read_inv env s1 := by
  intro calls
  induction calls with
  | nil => intro s hinv _; exact ⟨s, [], rfl, hinv⟩
  | cons c rest ih =>
    intro s hinv hwf
    obtain ⟨s1, ev, hstep, hinv1, _⟩ :=
      msg_read_common_step env s c.1 c.2.1 c.2.2 h55 hinv (hwf c (List.mem_cons_self c rest))
    obtain ⟨s2, evs, hrun, hinv2⟩ := ih s1 hinv1 (fun q hq => hwf q (List.mem_cons_of_mem c hq))
    exact ⟨s2, ev :: evs, by simp only [msg_read_calls, hstep, hrun], hinv2⟩

theorem msg_read_common_abort (env : Env) (s : State) (type : Nat) (p : List Nat)
    (hrd : s.read_state = READSTATE_READING) (hp : 64 ≤ p.length)
    (hbad : p.head? ≠ some 63) :
    msg_read_common env s type p 64 = some ({ s with read_state := READSTATE_IDLE }, []) := by
  match p, hp, hbad with
  | a :: t, _, hbad =>
    have ha : a ≠ 63 := by simpa using hbad
    have hne : ¬ (READSTATE_READING = READSTATE_IDLE) := by decide
    simp [msg_read_common, hrd, hne, ha]

/-! ## Outbound ring: streams longer than the ring -/

theorem slot_index_inj_near (e S a b : Nat) (hab : a ≤ b) (hlt : b - a < S)
    (h : (e + a) % S = (e + b) % S) : a = b := by
  have h1 : (e + a) ≡ (e + b) [MOD S] := h
  have h2 : a ≡ b [MOD S] := Nat.ModEq.add_left_cancel' e h1
  have h3 : S ∣ b - a := (Nat.modEq_iff_dvd' hab).mp h2
  have h4 : b - a = 0 := Nat.eq_zero_of_dvd_of_lt h3 hlt
  omega

theorem pb_callback_out_recent (env : Env) (s0 : State)
    (hlen : s0.msg_out.length = env.MSG_OUT_SIZE)
    (hend : s0.msg_out_end < env.MSG_OUT_SIZE / 64) (hcur : s0.msg_out_cur = 0)
    (bs : List Nat) :
    ∃ s, pb_callback_out env s0 bs = some s ∧
      stream_recent env s0.msg_out_end bs s0 s := by
  induction bs using List.reverseRecOn with
  | nil =>
    refine ⟨s0, by simp [pb_callback_out], rfl, ?_, ?_, same_outside_ring_refl s0, ?_, ?_, ?_⟩
    · simp [Nat.mod_eq_of_lt hend]
    · simp [hcur]
    · intro k hk; simp at hk
    · intro k hk; simp at hk
    · intro a _; rfl
  | append_singleton bs c ih =>
    obtain ⟨s, hrun, hl, he, hc, hsame, hbytes, hmark, hframe⟩ := ih
    have hSpos : 0 < env.MSG_OUT_SIZE / 64 := by omega
    have hendS : s.msg_out_end < env.MSG_OUT_SIZE / 64 := by
      rw [he]; exact Nat.mod_lt _ hSpos
    have hcur64 : s.msg_out_cur < 64 := by
      rw [hc]; split <;> omega
    obtain ⟨s1, hstep, hl1, he1, hc1, hsame1, hmem1⟩ :=
      msg_out_append_spec env s c (hl.trans hlen) hendS hcur64
    have hmax : max s.msg_out_cur 1 = bs.length % 63 + 1 := by
      rw [hc]; split <;> omega
    have hc0 : s.msg_out_cur = 0 ↔ bs.length % 63 = 0 := by
      rw [hc]; split <;> omega
    have hc63 : s.msg_out_cur = 63 ↔ bs.length % 63 = 62 := by
      rw [hc]; split <;> omega
    rw [hmax, he] at hmem1
    have hinj : ∀ k, k < bs.length → bs.length + 1 ≤ k + 63 * (env.MSG_OUT_SIZE / 64) →
        k % 63 = bs.length % 63 →
        (s0.msg_out_end + k / 63) % (env.MSG_OUT_SIZE / 64) =
          (s0.msg_out_end + bs.length / 63) % (env.MSG_OUT_SIZE / 64) →
        k / 63 = bs.length / 63 := fun k hk hw hm h =>
      slot_index_inj_near _ _ _ _ (by omega) (by omega) h
    refine ⟨s1, ?_, hl1.trans hl, ?_, ?_, same_outside_ring_trans _ _ _ hsame hsame1, ?_, ?_,
      ?_⟩
    · rw [pb_callback_out_append, hrun]
      simp [pb_callback_out, hstep]
    · rw [he1, he, List.length_append, List.length_singleton]
      by_cases h62 : bs.length % 63 = 62
      · rw [if_pos (hc63.mpr h62), Nat.mod_add_mod]
        congr 1
        omega
      · rw [if_neg (fun h => h62 (hc63.mp h))]
        congr 2
        omega
    · rw [hc1, List.length_append, List.length_singleton]
      by_cases h0 : bs.length % 63 = 0
      · rw [if_pos (hc0.mpr h0)]
        split <;> omega
      · rw [if_neg (fun h => h0 (hc0.mp h))]
        by_cases h62 : bs.length % 63 = 62
        · rw [if_pos (hc63.mpr h62)]
          split <;> omega
        · rw [if_neg (fun h => h62 (hc63.mp h)), hc]
          split <;> split <;> omega
    · intro k hk hw
      rw [List.length_append, List.length_singleton] at hk hw
      rw [hmem1]
      by_cases hkn : k = bs.length
      · subst hkn
        rw [if_pos (by omega)]
        simp
      · have hk2 : k < bs.length := by omega
        rw [if_neg (by
          intro h
          have hσ : (s0.msg_out_end + k / 63) % (env.MSG_OUT_SIZE / 64) =
              (s0.msg_out_end + bs.length / 63) % (env.MSG_OUT_SIZE / 64) := by omega
          have hm : k % 63 = bs.length % 63 := by omega
          have := hinj k hk2 hw hm hσ
          omega)]
        rw [if_neg (by
          intro h
          omega)]
        rw [hbytes k hk2 (by omega), List.getElem?_append_left hk2]
    · intro k hk
      rw [List.length_append, List.length_singleton] at hk
      rw [hmem1, if_neg (by omega)]
      by_cases hkn : k = bs.length
      · subst hkn
        by_cases h0 : bs.length % 63 = 0
        · rw [if_pos ⟨hc0.mpr h0, rfl⟩]
        · rw [if_neg (fun h => h0 (hc0.mp h.1))]
          have hk1 := hmark (bs.length - 1) (by omega)
          have hd : (bs.length - 1) / 63 = bs.length / 63 := by omega
          rw [hd] at hk1
          exact hk1
      · have hk2 : k < bs.length := by omega
        split
        · rfl
        · exact hmark k hk2
    · intro a ha
      have han := ha bs.length (by rw [List.length_append, List.length_singleton]; omega)
      obtain ⟨han1, han2⟩ := han
      rw [hmem1, if_neg (by omega), if_neg (fun h => han2 h.2)]
      apply hframe
      intro k hk
      exact ha k (by rw [List.length_append, List.length_singleton]; omega)

/-- A stream of any length appended from the start of a slot and then padded:
the slots of its last `S` packets hold these packets, every slot it reached
starts with `'?'`, the write cursor stands at the start of the slot after the
last one, and the slots it did not reach are as before. -/
theorem frame_written_any (env : Env) (s0 : State) (bs : List Nat)
    (hlen : s0.msg_out.length = env.MSG_OUT_SIZE)
    (hend : s0.msg_out_end < env.MSG_OUT_SIZE / 64) (hcur : s0.msg_out_cur = 0) :
    ∃ s1 s2, pb_callback_out env s0 bs = some s1 ∧ msg_out_pad env s1 = some s2 ∧
      s2.msg_out.length = s0.msg_out.length ∧
      s2.msg_out_end =
        (s0.msg_out_end + (bs.length + 62) / 63) % (env.MSG_OUT_SIZE / 64) ∧
      s2.msg_out_cur = 0 ∧ same_outside_ring s0 s2 ∧
      (∀ i, i < (bs.length + 62) / 63 →
        (bs.length + 62) / 63 ≤ i + env.MSG_OUT_SIZE / 64 →
        slot s2.msg_out ((s0.msg_out_end + i) % (env.MSG_OUT_SIZE / 64)) =
          packet_of (bs.map fun x => x % 256) i) ∧
      (∀ i, i < (bs.length + 62) / 63 →
        s2.msg_out[(s0.msg_out_end + i) % (env.MSG_OUT_SIZE / 64) * 64]? = some 63) ∧
      (∀ a, (∀ i, i < (bs.length + 62) / 63 →
          ¬ ((s0.msg_out_end + i) % (env.MSG_OUT_SIZE / 64) * 64 ≤ a ∧
             a < (s0.msg_out_end + i) % (env.MSG_OUT_SIZE / 64) * 64 + 64)) →
        s2.msg_out[a]? = s0.msg_out[a]?) := by
  obtain ⟨s1, hrun, hl, he, hc, hsame, hbytes, hmark, hframe⟩ :=
    pb_callback_out_recent env s0 hlen hend hcur bs
  have hSpos : 0 < env.MSG_OUT_SIZE / 64 := by omega
  have hendS : s1.msg_out_end < env.MSG_OUT_SIZE / 64 := by
    rw [he]; exact Nat.mod_lt _ hSpos
  have hcur64 : s1.msg_out_cur < 64 := by
    rw [hc]; split <;> omega
  obtain ⟨s2, hpad, hl2, he2, hc2, hsame2, hmem2⟩ :=
    msg_out_pad_spec env s1 (hl.trans hlen) hendS hcur64
  have hc0 : s1.msg_out_cur = 0 ↔ bs.length % 63 = 0 := by
    rw [hc]; split <;> omega
  have hcv : s1.msg_out_cur ≠ 0 → s1.msg_out_cur = bs.length % 63 + 1 := by
    rw [hc]; split <;> omega
  have hinj : ∀ i, i ≤ bs.length / 63 → bs.length / 63 - i < env.MSG_OUT_SIZE / 64 →
      (s0.msg_out_end + i) % (env.MSG_OUT_SIZE / 64) = s1.msg_out_end →
      i = bs.length / 63 := by
    intro i hi hlt h
    rw [he] at h
    exact slot_index_inj_near _ _ _ _ hi hlt h
  refine ⟨s1, s2, hrun, hpad, hl2.trans hl, ?_, hc2, same_outside_ring_trans _ _ _ hsame hsame2,
    ?_, ?_, ?_⟩
  · rw [he2, he]
    by_cases h0 : bs.length % 63 = 0
    · rw [if_pos (hc0.mpr h0)]
      congr 2
      omega
    · rw [if_neg (fun h => h0 (hc0.mp h)), Nat.mod_add_mod]
      congr 1
      omega
  · intro i hi hrec
    apply List.ext_getElem?
    intro j
    rw [slot_getElem?, packet_of_getElem?, List.length_map]
    by_cases hj64 : j < 64
    swap
    · rw [if_neg hj64, if_neg (by omega), if_neg hj64]
    rw [if_pos hj64, hmem2]
    by_cases hj0 : j = 0
    · subst hj0
      rw [if_pos rfl, if_neg (by omega)]
      have h := hmark (63 * i) (by omega)
      have hd : 63 * i / 63 = i := by omega
      rw [hd] at h
      exact h
    · rw [if_neg hj0, if_pos hj64]
      by_cases hk : 63 * i + (j - 1) < bs.length
      · rw [if_pos hk]
        rw [if_neg (by
          rintro ⟨hne, h1, h2⟩
          have hcv1 := hcv hne
          have hσ : (s0.msg_out_end + i) % (env.MSG_OUT_SIZE / 64) = s1.msg_out_end := by
            omega
          have hn0 : bs.length % 63 ≠ 0 := fun h => hne (hc0.mpr h)
          have hii := hinj i (by omega) (by omega) hσ
          omega)]
        have h := hbytes (63 * i + (j - 1)) hk (by omega)
        have hd : (63 * i + (j - 1)) / 63 = i := by omega
        have hm : (63 * i + (j - 1)) % 63 = j - 1 := by omega
        rw [hd, hm] at h
        have haddr : (s0.msg_out_end + i) % (env.MSG_OUT_SIZE / 64) * 64 + (j - 1) + 1 =
            (s0.msg_out_end + i) % (env.MSG_OUT_SIZE / 64) * 64 + j := by omega
        rw [haddr] at h
        rw [h, List.getElem?_map]
      · rw [if_neg hk]
        have hne : bs.length % 63 ≠ 0 := by omega
        have hii : i = bs.length / 63 := by omega
        have hcv1 := hcv (fun h => hne (hc0.mp h))
        have hσ : (s0.msg_out_end + i) % (env.MSG_OUT_SIZE / 64) = s1.msg_out_end := by
          rw [he, hii]
        rw [hσ, if_pos ⟨fun h => hne (hc0.mp h), by omega, by omega⟩]
  · intro i hi
    rw [hmem2, if_neg (by omega)]
    have h := hmark (63 * i) (by omega)
    have hd : 63 * i / 63 = i := by omega
    rw [hd] at h
    exact h
  · intro a ha
    rw [hmem2, if_neg (by
      rintro ⟨hne, h1, h2⟩
      have hn0 : bs.length % 63 ≠ 0 := fun h => hne (hc0.mpr h)
      have := ha (bs.length / 63) (by omega)
      rw [← he] at this
      omega)]
    apply hframe
    intro k hk
    have := ha (k / 63) (by omega)
    omega

/-! ## Outbound: any call of `msg_write_common` -/

theorem msg_write_common_frame_any (env : Env) (s : State) (id len : Nat) (msg : List Nat)
    (hlen : s.msg_out.length = env.MSG_OUT_SIZE)
    (hend : s.msg_out_end < env.MSG_OUT_SIZE / 64) (hcur : s.msg_out_cur = 0)
    (hreg : MessageFields env 110 111 id ≠ 0)
    (hsz : env.pb_get_encoded_size (MessageFields env 110 111 id) msg = some len) :
    ∃ s2, msg_write_common env s 110 id msg =
        some (s2, (env.pb_encode (MessageFields env 110 111 id) msg).2) ∧
      s2.msg_out.length = s.msg_out.length ∧
      s2.msg_out_end =
        (s.msg_out_end +
          (8 + (env.pb_encode (MessageFields env 110 111 id) msg).1.flatten.length + 62) / 63) %
            (env.MSG_OUT_SIZE / 64) ∧
      s2.msg_out_cur = 0 ∧ same_outside_ring { s with decode_flag := true } s2 ∧
      (∀ i, i < (8 + (env.pb_encode (MessageFields env 110 111 id) msg).1.flatten.length + 62)
            / 63 →
        (8 + (env.pb_encode (MessageFields env 110 111 id) msg).1.flatten.length + 62) / 63 ≤
          i + env.MSG_OUT_SIZE / 64 →
        slot s2.msg_out ((s.msg_out_end + i) % (env.MSG_OUT_SIZE / 64)) =
          packet_of (msg_write_header id len ++
            ((env.pb_encode (MessageFields env 110 111 id) msg).1.flatten.map
              fun x => x % 256)) i) ∧
      (∀ i, i < (8 + (env.pb_encode (MessageFields env 110 111 id) msg).1.flatten.length + 62)
            / 63 →
        s2.msg_out[(s.msg_out_end + i) % (env.MSG_OUT_SIZE / 64) * 64]? = some 63) ∧
      (∀ a, (∀ i, i < (8 + (env.pb_encode (MessageFields env 110 111 id) msg).1.flatten.length
            + 62) / 63 →
          ¬ ((s.msg_out_end + i) % (env.MSG_OUT_SIZE / 64) * 64 ≤ a ∧
             a < (s.msg_out_end + i) % (env.MSG_OUT_SIZE / 64) * 64 + 64)) →
        s2.msg_out[a]? = s.msg_out[a]?) := by
  obtain ⟨s1, s2, hrun, hpad, hl2, he2, hc2, hsame2, hslots, hmark, hframe⟩ :=
    frame_written_any env { s with decode_flag := true }
      (msg_write_header id len ++ (env.pb_encode (MessageFields env 110 111 id) msg).1.flatten)
      hlen hend hcur
  rw [List.length_append, msg_write_header_length] at he2 hslots hmark hframe
  rw [pb_callback_out_append] at hrun
  refine ⟨s2, ?_, hl2, he2, hc2, hsame2, ?_, hmark, hframe⟩
  · unfold msg_write_common
    simp only [hreg, if_false, hsz, if_true]
    cases hh : pb_callback_out env { s with decode_flag := true } (msg_write_header id len) with
    | none => rw [hh] at hrun; simp at hrun
    | some sh =>
      rw [hh] at hrun
      have hrun2 : pb_callback_out env sh
          (env.pb_encode (MessageFields env 110 111 id) msg).1.flatten = some s1 := hrun
      simp only [pb_encode_callbacks_eq, hrun2, hpad]
  · intro i hi hrec
    rw [hslots i hi hrec, List.map_append, map_mod_256_eq _ (msg_write_header_bytes id len)]

/-- Any call of `msg_write_common` on a ring with the cursor invariant returns,
keeps the invariant and the read cursor, and for some `N` moves the write cursor
`N` slots on, leaves `'?'` at the start of each of these slots and changes no
byte outside them. -/
theorem msg_write_common_any (env : Env) (s : State) (type id : Nat) (msg : List Nat)
    (hinv : ring_inv env s) :
    ∃ s1 r N, msg_write_common env s type id msg = some (s1, r) ∧ ring_inv env s1 ∧
      s1.msg_out_start = s.msg_out_start ∧
      s1.msg_out_end = (s.msg_out_end + N) % (env.MSG_OUT_SIZE / 64) ∧
      (∀ i, i < N →
        s1.msg_out[(s.msg_out_end + i) % (env.MSG_OUT_SIZE / 64) * 64]? = some 63) ∧
      (∀ a, (∀ i, i < N →
          ¬ ((s.msg_out_end + i) % (env.MSG_OUT_SIZE / 64) * 64 ≤ a ∧
             a < (s.msg_out_end + i) % (env.MSG_OUT_SIZE / 64) * 64 + 64)) →
        s1.msg_out[a]? = s.msg_out[a]?) := by
  obtain ⟨hlen, hend, hstart, hcur⟩ := hinv
  have hquiet : ∀ (flag : Bool) (r : Bool),
      msg_write_common env s type id msg = some ({ s with decode_flag := flag }, r) →
      ∃ s1 r N, msg_write_common env s type id msg = some (s1, r) ∧ ring_inv env s1 ∧
        s1.msg_out_start = s.msg_out_start ∧
        s1.msg_out_end = (s.msg_out_end + N) % (env.MSG_OUT_SIZE / 64) ∧
        (∀ i, i < N →
          s1.msg_out[(s.msg_out_end + i) % (env.MSG_OUT_SIZE / 64) * 64]? = some 63) ∧
        (∀ a, (∀ i, i < N →
            ¬ ((s.msg_out_end + i) % (env.MSG_OUT_SIZE / 64) * 64 ≤ a ∧
               a < (s.msg_out_end + i) % (env.MSG_OUT_SIZE / 64) * 64 + 64)) →
          s1.msg_out[a]? = s.msg_out[a]?) := by
    intro flag r h
    refine ⟨_, r, 0, h, ⟨hlen, hend, hstart, hcur⟩, rfl, ?_, ?_, ?_⟩
    · exact (Nat.mod_eq_of_lt hend).symm
    · intro i hi; omega
    · intro a _; rfl
  by_cases hf : MessageFields env type 111 id = 0
  · apply hquiet s.decode_flag false
    simp [msg_write_common, hf]
  · cases hsz : env.pb_get_encoded_size (MessageFields env type 111 id) msg with
    | none =>
      apply hquiet false false
      simp [msg_write_common, hf, hsz]
    | some len =>
      by_cases ht : type = 110
      · subst ht
        obtain ⟨s2, hw, hl2, he2, hc2, hsame, _, hmark, hframe⟩ :=
          msg_write_common_frame_any env s id len msg hlen hend hcur hf hsz
        obtain ⟨hst, _⟩ := same_outside_ring_fields _ _ hsame
        have hSpos : 0 < env.MSG_OUT_SIZE / 64 := by omega
        refine ⟨s2, _, _, hw, ⟨hl2.trans hlen, ?_, ?_, hc2⟩, hst, he2, hmark, hframe⟩
        · rw [he2]; exact Nat.mod_lt _ hSpos
        · rw [hst]; exact hstart
      · apply hquiet true false
        simp [msg_write_common, hf, hsz, ht]

theorem msg_out_data_inv (env : Env) (s : State) (hinv : ring_inv env s) :
    ring_inv env (msg_out_data env s).1 := by
  obtain ⟨hlen, hend, hstart, hcur⟩ := hinv
  have hSpos : 0 < env.MSG_OUT_SIZE / 64 := by omega
  unfold msg_out_data
  split
  · exact ⟨hlen, hend, hstart, hcur⟩
  · exact ⟨hlen, hend, Nat.mod_lt _ hSpos, hcur⟩

theorem ring_inv_init (env : Env) (hS : 1 ≤ env.MSG_OUT_SIZE / 64) :
    ring_inv env (State.init env) :=
  ⟨List.length_replicate _ _, hS, hS, rfl⟩

/-! ## Outbound: several messages without a read -/

theorem slot_eq_of_frame (m1 m2 : List Nat) (j : Nat)
    (h : ∀ a, j * 64 ≤ a → a < j * 64 + 64 → m1[a]? = m2[a]?) : slot m1 j = slot m2 j := by
  apply List.ext_getElem?
  intro t
  rw [slot_getElem?, slot_getElem?]
  split
  · exact h _ (by omega) (by omega)
  · rfl

/-- One call `msg_write_common('n', id, msg)` on a ring with the cursor
invariant, in terms of `message_packets`. -/
theorem msg_write_common_packets (env : Env) (s : State) (id : Nat) (msg : List Nat)
    (hinv : ring_inv env s) :
    ∃ s1 r, msg_write_common env s 110 id msg = some (s1, r) ∧ ring_inv env s1 ∧
      s1.msg_out_start = s.msg_out_start ∧
      s1.msg_out_end =
        (s.msg_out_end + (message_packets env id msg).length) % (env.MSG_OUT_SIZE / 64) ∧
      (∀ i, i < (message_packets env id msg).length →
        (message_packets env id msg).length ≤ i + env.MSG_OUT_SIZE / 64 →
        (message_packets env id msg)[i]? =
          some (slot s1.msg_out ((s.msg_out_end + i) % (env.MSG_OUT_SIZE / 64)))) ∧
      (∀ a, (∀ i, i < (message_packets env id msg).length →
          ¬ ((s.msg_out_end + i) % (env.MSG_OUT_SIZE / 64) * 64 ≤ a ∧
             a < (s.msg_out_end + i) % (env.MSG_OUT_SIZE / 64) * 64 + 64)) →
        s1.msg_out[a]? = s.msg_out[a]?) := by
  obtain ⟨hlen, hend, hstart, hcur⟩ := hinv
  have hquiet : ∀ (flag : Bool), message_packets env id msg = [] →
      msg_write_common env s 110 id msg = some ({ s with decode_flag := flag }, false) →
      ∃ s1 r, msg_write_common env s 110 id msg = some (s1, r) ∧ ring_inv env s1 ∧
        s1.msg_out_start = s.msg_out_start ∧
        s1.msg_out_end =
          (s.msg_out_end + (message_packets env id msg).length) % (env.MSG_OUT_SIZE / 64) ∧
        (∀ i, i < (message_packets env id msg).length →
          (message_packets env id msg).length ≤ i + env.MSG_OUT_SIZE / 64 →
          (message_packets env id msg)[i]? =
            some (slot s1.msg_out ((s.msg_out_end + i) % (env.MSG_OUT_SIZE / 64)))) ∧
        (∀ a, (∀ i, i < (message_packets env id msg).length →
            ¬ ((s.msg_out_end + i) % (env.MSG_OUT_SIZE / 64) * 64 ≤ a ∧
               a < (s.msg_out_end + i) % (env.MSG_OUT_SIZE / 64) * 64 + 64)) →
          s1.msg_out[a]? = s.msg_out[a]?) := by
    intro flag hP h
    rw [hP]
    refine ⟨_, false, h, ⟨hlen, hend, hstart, hcur⟩, rfl, ?_, ?_, ?_⟩
    · simp only [List.length_nil, Nat.add_zero]
      exact (Nat.mod_eq_of_lt hend).symm
    · intro i hi; simp at hi
    · intro a _; rfl
  by_cases hf : MessageFields env 110 111 id = 0
  · apply hquiet s.decode_flag
    · simp [message_packets, hf]
    · simp [msg_write_common, hf]
  · cases hsz : env.pb_get_encoded_size (MessageFields env 110 111 id) msg with
    | none =>
      apply hquiet false
      · simp [message_packets, hf, hsz]
      · simp [msg_write_common, hf, hsz]
    | some len =>
      obtain ⟨s2, hw, hl2, he2, hc2, hsame, hslots, _, hframe⟩ :=
        msg_write_common_frame_any env s id len msg hlen hend hcur hf hsz
      obtain ⟨hst, _⟩ := same_outside_ring_fields _ _ hsame
      have hSpos : 0 < env.MSG_OUT_SIZE / 64 := by omega
      have hP : message_packets env id msg =
          (List.range
            ((8 + (env.pb_encode (MessageFields env 110 111 id) msg).1.flatten.length + 62) /
              63)).map
          (packet_of (msg_write_header id len ++
            ((env.pb_encode (MessageFields env 110 111 id) msg).1.flatten.map
              fun x => x % 256))) := by
        simp [message_packets, hf, hsz]
      have hPl : (message_packets env id msg).length =
          (8 + (env.pb_encode (MessageFields env 110 111 id) msg).1.flatten.length + 62) / 63 := by
        rw [hP, List.length_map, List.length_range]
      rw [hPl]
      refine ⟨s2, _, hw, ⟨hl2.trans hlen, ?_, ?_, hc2⟩, hst, he2, ?_, hframe⟩
      · rw [he2]; exact Nat.mod_lt _ hSpos
      · rw [hst]; exact hstart
      · intro i hi hrec
        rw [hslots i hi hrec, hP, List.getElem?_map,
          List.getElem?_range (by exact hi)]
        rfl

theorem msg_write_all_slots (env : Env) :
    ∀ (msgs : List (Nat × List Nat)) (s : State), ring_inv env s →
      ∃ s1, msg_write_all env s msgs = some s1 ∧ ring_inv env s1 ∧
        s1.msg_out_start = s.msg_out_start ∧
        s1.msg_out_end =
          (s.msg_out_end + (written_slots env msgs).length) % (env.MSG_OUT_SIZE / 64) ∧
        (∀ q, q < (written_slots env msgs).length →
          (written_slots env msgs).length ≤ q + env.MSG_OUT_SIZE / 64 →
          (written_slots env msgs)[q]? =
            some (slot s1.msg_out ((s.msg_out_end + q) % (env.MSG_OUT_SIZE / 64)))) ∧
        (∀ a, (∀ q, q < (written_slots env msgs).length →
            ¬ ((s.msg_out_end + q) % (env.MSG_OUT_SIZE / 64) * 64 ≤ a ∧
               a < (s.msg_out_end + q) % (env.MSG_OUT_SIZE / 64) * 64 + 64)) →
          s1.msg_out[a]? = s.msg_out[a]?) := by
  intro msgs
  induction msgs with
  | nil =>
    intro s hinv
    refine ⟨s, rfl, hinv, rfl, ?_, ?_, ?_⟩
    · simp only [written_slots, List.length_nil, Nat.add_zero]
      exact (Nat.mod_eq_of_lt hinv.2.1).symm
    · intro q hq; simp [written_slots] at hq
    · intro a _; rfl
  | cons m rest ih =>
    intro s hinv
    obtain ⟨s2, r, hw, hinv2, hst2, he2, hslots2, hframe2⟩ :=
      msg_write_common_packets env s m.1 m.2 hinv
    obtain ⟨s1, hrun, hinv1, hst1, he1, hslots1, hframe1⟩ := ih s2 hinv2
    have hmod : ∀ q, (s2.msg_out_end + q) % (env.MSG_OUT_SIZE / 64) =
        (s.msg_out_end + ((message_packets env m.1 m.2).length + q)) %
          (env.MSG_OUT_SIZE / 64) := by
      intro q
      rw [he2, Nat.mod_add_mod, Nat.add_assoc]
    have hWl : (written_slots env (m :: rest)).length =
        (message_packets env m.1 m.2).length + (written_slots env rest).length := by
      simp only [written_slots, List.length_append]
    refine ⟨s1, by simp only [msg_write_all, hw, hrun], hinv1, hst1.trans hst2, ?_, ?_, ?_⟩
    · rw [he1, hmod, hWl]
    · intro q hq hrec
      rw [hWl] at hq hrec
      by_cases hqN : q < (message_packets env m.1 m.2).length
      · have hP := hslots2 q hqN (by omega)
        have hW : (written_slots env (m :: rest))[q]? = (message_packets env m.1 m.2)[q]? := by
          simp only [written_slots]
          exact List.getElem?_append_left hqN
        rw [hW, hP]
        congr 1
        apply slot_eq_of_frame
        intro a ha1 ha2
        symm
        apply hframe1
        intro q2 hq2 hcon
        rw [hmod] at hcon
        have hσ : (s.msg_out_end + q) % (env.MSG_OUT_SIZE / 64) =
            (s.msg_out_end + ((message_packets env m.1 m.2).length + q2)) %
              (env.MSG_OUT_SIZE / 64) := by omega
        have := slot_index_inj_near _ _ _ _ (by omega) (by omega) hσ
        omega
      · have hW : (written_slots env (m :: rest))[q]? =
            (written_slots env rest)[q - (message_packets env m.1 m.2).length]? := by
          simp only [written_slots]
          exact List.getElem?_append_right (by omega)
        rw [hW, hslots1 _ (by omega) (by omega), hmod]
        congr 3
        omega
    · intro a ha
      rw [hframe1 a (by
        intro q2 hq2
        rw [hmod]
        exact ha _ (by rw [hWl]; omega))]
      exact hframe2 a (fun i hi => ha i (by rw [hWl]; omega))

/-! ## Outbound: sequences of calls -/

theorem message_packets_shape (env : Env) (id : Nat) (msg : List Nat) :
    ∀ p ∈ message_packets env id msg, p.length = 64 ∧ p.head? = some 63 := by
  intro p hp
  unfold message_packets at hp
  split at hp
  · simp at hp
  · split at hp
    · simp at hp
    · obtain ⟨i, _, rfl⟩ := List.mem_map.mp hp
      exact ⟨packet_of_length _ _, packet_of_head _ _⟩

theorem calls_packets_shape (env : Env) :
    ∀ (calls : List RingCall), ∀ p ∈ calls_packets env calls,
      p.length = 64 ∧ p.head? = some 63 := by
  intro calls
  induction calls with
  | nil => intro p hp; simp [calls_packets] at hp
  | cons c rest ih =>
    intro p hp
    cases c with
    | write type id msg =>
      simp only [calls_packets] at hp
      rcases List.mem_append.mp hp with h | h
      · split at h
        · exact message_packets_shape env id msg p h
        · simp at h
      · exact ih p h
    | data => exact ih p hp

/-- Any call of `msg_write_common` on a ring with the cursor invariant: every
slot afterwards either is as before or holds one of the packets of the call. -/
theorem msg_write_common_slots (env : Env) (s : State) (type id : Nat) (msg : List Nat)
    (hinv : ring_inv env s) :
    ∃ s1 r N, msg_write_common env s type id msg = some (s1, r) ∧ ring_inv env s1 ∧
      s1.msg_out_start = s.msg_out_start ∧
      s1.msg_out_end = (s.msg_out_end + N) % (env.MSG_OUT_SIZE / 64) ∧
      (∀ i, i < N →
        slot s1.msg_out ((s.msg_out_end + i) % (env.MSG_OUT_SIZE / 64)) ∈
          (if type = 110 then message_packets env id msg else [])) ∧
      (∀ j, (∀ i, i < N → (s.msg_out_end + i) % (env.MSG_OUT_SIZE / 64) ≠ j) →
        slot s1.msg_out j = slot s.msg_out j) := by
  by_cases ht : type = 110
  · subst ht
    obtain ⟨s1, r, hw, hinv1, hst, he, hslots, hframe⟩ :=
      msg_write_common_packets env s id msg hinv
    refine ⟨s1, r, (message_packets env id msg).length, hw, hinv1, hst, he, ?_, ?_⟩
    · intro i0 hi0
      rw [if_pos rfl]
      have hdm := Nat.div_add_mod ((message_packets env id msg).length - 1 - i0)
        (env.MSG_OUT_SIZE / 64)
      have hSpos : 0 < env.MSG_OUT_SIZE / 64 := by
        have := hinv.2.1
        omega
      have hml := Nat.mod_lt ((message_packets env id msg).length - 1 - i0) hSpos
      have hrec := hslots
        (i0 + env.MSG_OUT_SIZE / 64 *
          (((message_packets env id msg).length - 1 - i0) / (env.MSG_OUT_SIZE / 64)))
        (by omega) (by omega)
      rw [← Nat.add_assoc, Nat.add_mul_mod_self_left] at hrec
      exact List.getElem?_mem hrec
    · intro j hj
      apply slot_eq_of_frame
      intro a ha1 ha2
      apply hframe
      intro i hi hcon
      exact hj i hi (by omega)
  · have hquiet : ∀ (flag : Bool),
        msg_write_common env s type id msg = some ({ s with decode_flag := flag }, false) →
        ∃ s1 r N, msg_write_common env s type id msg = some (s1, r) ∧ ring_inv env s1 ∧
          s1.msg_out_start = s.msg_out_start ∧
          s1.msg_out_end = (s.msg_out_end + N) % (env.MSG_OUT_SIZE / 64) ∧
          (∀ i, i < N →
            slot s1.msg_out ((s.msg_out_end + i) % (env.MSG_OUT_SIZE / 64)) ∈
              (if type = 110 then message_packets env id msg else [])) ∧
          (∀ j, (∀ i, i < N → (s.msg_out_end + i) % (env.MSG_OUT_SIZE / 64) ≠ j) →
            slot s1.msg_out j = slot s.msg_out j) := by
      intro flag h
      refine ⟨_, false, 0, h, hinv, rfl, ?_, ?_, ?_⟩
      · exact (Nat.mod_eq_of_lt hinv.2.1).symm
      · intro i hi; omega
      · intro j _; rfl
    by_cases hf : MessageFields env type 111 id = 0
    · apply hquiet s.decode_flag
      simp [msg_write_common, hf]
    · cases hsz : env.pb_get_encoded_size (MessageFields env type 111 id) msg with
      | none =>
        apply hquiet false
        simp [msg_write_common, hf, hsz]
      | some len =>
        apply hquiet true
        simp [msg_write_common, hf, hsz, ht]

theorem slots_inv_init (env : Env) (good : List Nat → Prop)
    (hS : 1 ≤ env.MSG_OUT_SIZE / 64) : slots_inv env good (State.init env) :=
  ⟨ring_inv_init env hS, 0, Nat.zero_le _, fun j hj => absurd hj (Nat.not_lt_zero j),
    fun _ => ⟨rfl, Nat.le_refl _⟩⟩

theorem msg_write_common_slots_inv (env : Env) (good : List Nat → Prop) (s : State)
    (type id : Nat) (msg : List Nat) (hinv : slots_inv env good s)
    (hgood : ∀ p ∈ (if type = 110 then message_packets env id msg else []), good p) :
    ∃ s1 r, msg_write_common env s type id msg = some (s1, r) ∧ slots_inv env good s1 := by
  obtain ⟨hring, m, hm, hslots, hcur⟩ := hinv
  obtain ⟨s1, r, N, hw, hring1, hst, he, hnew, hframe⟩ :=
    msg_write_common_slots env s type id msg hring
  have hstable : ∀ j, good (slot s.msg_out j) → good (slot s1.msg_out j) := by
    intro j hj
    by_cases hex : ∃ i, i < N ∧ (s.msg_out_end + i) % (env.MSG_OUT_SIZE / 64) = j
    · obtain ⟨i, hi, hij⟩ := hex
      rw [← hij]
      exact hgood _ (hnew i hi)
    · rw [hframe j (fun i hi hcon => hex ⟨i, hi, hcon⟩)]
      exact hj
  refine ⟨s1, r, hw, hring1, ?_⟩
  by_cases hfull : m < env.MSG_OUT_SIZE / 64
  swap
  · exact ⟨m, hm, fun j hj => hstable j (hslots j hj), fun h => absurd h hfull⟩
  obtain ⟨hem, hsm⟩ := hcur hfull
  by_cases hfit : m + N < env.MSG_OUT_SIZE / 64
  · refine ⟨m + N, by omega, ?_, ?_⟩
    · intro j hj
      by_cases hjm : j < m
      · exact hstable j (hslots j hjm)
      · have h := hnew (j - m) (by omega)
        rw [hem, Nat.mod_eq_of_lt (by omega)] at h
        have hjj : m + (j - m) = j := by omega
        rw [hjj] at h
        exact hgood _ h
    · intro _
      rw [he, hst, hem, Nat.mod_eq_of_lt hfit]
      exact ⟨rfl, by omega⟩
  · refine ⟨env.MSG_OUT_SIZE / 64, Nat.le_refl _, ?_, fun h => absurd h (Nat.lt_irrefl _)⟩
    intro j hj
    by_cases hjm : j < m
    · exact hstable j (hslots j hjm)
    · have h := hnew (j - m) (by omega)
      rw [hem, Nat.mod_eq_of_lt (by omega)] at h
      have hjj : m + (j - m) = j := by omega
      rw [hjj] at h
      exact hgood _ h

theorem msg_out_data_slots_inv (env : Env) (good : List Nat → Prop) (s : State)
    (hinv : slots_inv env good s) :
    slots_inv env good (msg_out_data env s).1 ∧
      ∀ p ∈ (msg_out_data env s).2.toList, good p := by
  obtain ⟨hring, m, hm, hslots, hcur⟩ := hinv
  have hring1 := msg_out_data_inv env s hring
  obtain ⟨hlen, hend, hstart, hcur0⟩ := hring
  by_cases he : s.msg_out_start = s.msg_out_end
  · rw [msg_out_data_empty env s he]
    exact ⟨⟨⟨hlen, hend, hstart, hcur0⟩, m, hm, hslots, hcur⟩, fun p hp => by simp at hp⟩
  · have hd : msg_out_data env s =
        ({ s with msg_out_start := (s.msg_out_start + 1) % (env.MSG_OUT_SIZE / 64) },
          some (slot s.msg_out s.msg_out_start)) := by
      simp [msg_out_data, he, slot]
    have hlt : s.msg_out_start < m := by
      by_cases hfull : m < env.MSG_OUT_SIZE / 64
      · obtain ⟨hem, hsm⟩ := hcur hfull
        omega
      · omega
    refine ⟨⟨hring1, m, hm, ?_, ?_⟩, ?_⟩
    · rw [hd]; exact hslots
    · intro hfull
      obtain ⟨hem, hsm⟩ := hcur hfull
      rw [hd]
      refine ⟨hem, ?_⟩
      show (s.msg_out_start + 1) % (env.MSG_OUT_SIZE / 64) ≤ m
      rw [Nat.mod_eq_of_lt (by omega)]
      omega
    · intro p hp
      rw [hd] at hp
      simp only [Option.toList_some, List.mem_singleton] at hp
      subst hp
      exact hslots _ hlt

theorem ring_calls_slots_inv (env : Env) (good : List Nat → Prop) :
    ∀ (calls : List RingCall) (s : State), slots_inv env good s →
      (∀ p ∈ calls_packets env calls, good p) →
      ∃ s1 pkts, ring_calls env s calls = some (s1, pkts) ∧ slots_inv env good s1 ∧
        ∀ p ∈ pkts, good p := by
  intro calls
  induction calls with
  | nil => intro s hinv _; exact ⟨s, [], rfl, hinv, fun p hp => by simp at hp⟩
  | cons c rest ih =>
    intro s hinv hgood
    cases c with
    | write type id msg =>
      simp only [calls_packets] at hgood
      obtain ⟨s1, r, hw, hinv1⟩ := msg_write_common_slots_inv env good s type id msg hinv
        (fun p hp => hgood p (List.mem_append.mpr (Or.inl hp)))
      obtain ⟨s2, pkts, hrun, hinv2, hp⟩ := ih s1 hinv1
        (fun p hp => hgood p (List.mem_append.mpr (Or.inr hp)))
      exact ⟨s2, pkts, by simp only [ring_calls, hw, hrun], hinv2, hp⟩
    | data =>
      obtain ⟨hinv1, hp1⟩ := msg_out_data_slots_inv env good s hinv
      obtain ⟨s2, pkts, hrun, hinv2, hp⟩ := ih _ hinv1 hgood
      refine ⟨s2, (msg_out_data env s).2.toList ++ pkts, by simp only [ring_calls, hrun],
        hinv2, ?_⟩
      intro p hpm
      rcases List.mem_append.mp hpm with h | h
      · exact hp1 p h
      · exact hp p h

/-! ## Inbound reassembly: the context in any state -/

/-- C7: `MessageFields` returns the descriptor of the first row before the end
marker whose category, direction and id all equal the key, and `0` (not found)
when there is no such row; hence, when keys are unique, looking up the key of any
registered row returns the descriptor of that very row. -/
theorem MessageFields_first_match (env : Env) (type dir msg_id : Nat) :
    MessageFields env type dir msg_id =
        (match first_match env type dir msg_id with
         | some m => m.fields
         | none => 0) ∧
      (unique_keys env → ∀ m ∈ registered_rows env,
        first_match env m.type m.dir m.msg_id = some m ∧
        MessageFields env m.type m.dir m.msg_id = m.fields) := by
  refine ⟨MessageFields_loop_eq type dir msg_id (MessagesMap env), ?_⟩
  intro hu m hm
  have hf : first_match env m.type m.dir m.msg_id = some m :=
    find_of_pairwise (registered_rows env) hu m hm
  refine ⟨hf, ?_⟩
  have h := MessageFields_loop_eq m.type m.dir m.msg_id (MessagesMap env)
  unfold first_match registered_rows at hf
  rw [hf] at h
  exact h

/-- C7, evaluated: in `demo_env` the keys are unique, and the row registered for
the debug category is found under its own key. -/
theorem MessageFields_first_match_witness :
    unique_keys demo_env ∧ MessageFields demo_env 100 111 3 = 8 :=
  ⟨by decide,
   ((MessageFields_first_match demo_env 0 0 0).2 (by decide) ⟨100, 111, 3, 8, 0⟩
      (by decide)).2⟩

/-- C8 as amended: `MessageProcessFunc` makes no call when no registered row
matches the key, and otherwise makes exactly one call, through the
`process_func` pointer of the first matching row and with the given payload,
without testing the pointer. -/
theorem MessageProcessFunc_first_match (env : Env) (type dir msg_id : Nat)
    (ptr : List Nat) :
    MessageProcessFunc env type dir msg_id ptr =
      match first_match env type dir msg_id with
      | some m => [Event.process_func m.process_func ptr]
      | none => [] :=
  MessageProcessFunc_loop_eq type dir msg_id ptr (MessagesMap env)

/-- C8 refuted as stated: message 2 of `demo_env` is registered outbound only,
with a null handler, and dispatching on its key is not a no-op but a call
through the null pointer. -/
theorem MessageProcessFunc_null_handler_called :
    first_match demo_env 110 111 2 = some ⟨110, 111, 2, 8, 0⟩ ∧
      MessageProcessFunc demo_env 110 111 2 [5] = [Event.process_func 0 [5]] := by
  decide

/-! ## Claims on single calls -/

/-- C5: `msg_out_data` returns `NULL` exactly when the read cursor equals the
write slot index, and then changes nothing; otherwise it returns the 64 bytes of
the slot at the read cursor (byte `j` of the result is byte
`msg_out_start * 64 + j` of the ring) and its only effect is to advance the read
cursor by one modulo the slot count. -/
theorem msg_out_data_pure_pop (env : Env) (s : State) :
    ((msg_out_data env s).2 = none ↔ s.msg_out_start = s.msg_out_end) ∧
      (s.msg_out_start = s.msg_out_end → (msg_out_data env s).1 = s) ∧
      (s.msg_out_start ≠ s.msg_out_end →
        (msg_out_data env s).1 =
            { s with msg_out_start := (s.msg_out_start + 1) % (env.MSG_OUT_SIZE / 64) } ∧
          ∃ pkt, (msg_out_data env s).2 = some pkt ∧
            (s.msg_out_start * 64 + 64 ≤ s.msg_out.length → pkt.length = 64) ∧
            ∀ j, j < 64 → pkt[j]? = s.msg_out[s.msg_out_start * 64 + j]?) := by
  by_cases h : s.msg_out_start = s.msg_out_end
  · simp [msg_out_data, h]
  · simp only [msg_out_data, h, if_false, reduceCtorEq, false_iff, not_false_eq_true,
      false_imp_iff, true_and, ne_eq, true_imp_iff]
    refine ⟨_, rfl, ?_, ?_⟩
    · intro hb
      simp only [List.length_take, List.length_drop]
      omega
    · intro j hj
      rw [List.getElem?_take_of_lt hj, List.getElem?_drop]

/-- C5, evaluated: with the write cursor one slot ahead in a ring of two slots,
one call moves the read cursor from 0 to 1 and touches nothing else. -/
theorem msg_out_data_pure_pop_witness :
    (0 : Nat) ≠ 1 ∧
      (msg_out_data demo_env { State.init demo_env with msg_out_end := 1 }).1 =
        { State.init demo_env with msg_out_end := 1, msg_out_start := 1 } :=
  ⟨by decide,
   ((msg_out_data_pure_pop demo_env { State.init demo_env with msg_out_end := 1 }).2.2
      (by decide)).1⟩

/-- C9 as amended: for a category other than `'n'`, `msg_write_common` returns
`false` and leaves every variable but `decode_flag` as it was (ring contents,
both cursors, in-slot offset, reassembly state); `decode_flag` keeps its value
when the id is not registered for (category, out) and otherwise receives the
result of the size pass. -/
theorem msg_write_common_other_category (env : Env) (s : State) (type msg_id : Nat)
    (msg_ptr : List Nat) (htype : type ≠ 110) :
    msg_write_common env s type msg_id msg_ptr =
      some ({ s with decode_flag :=
                if MessageFields env type 111 msg_id = 0 then s.decode_flag
                else (env.pb_get_encoded_size (MessageFields env type 111 msg_id)
                        msg_ptr).isSome },
            false) := by
  unfold msg_write_common
  by_cases hf : MessageFields env type 111 msg_id = 0
  · simp [hf]
  · cases hsz : env.pb_get_encoded_size (MessageFields env type 111 msg_id) msg_ptr <;>
      simp [hf, hsz, htype]

/-- C9 as amended, evaluated: writing message 3 under the debug category. -/
theorem msg_write_common_other_category_witness :
    (100 : Nat) ≠ 110 ∧
      msg_write_common demo_env (State.init demo_env) 100 3 [1] =
        some ({ State.init demo_env with decode_flag := true }, false) :=
  ⟨by decide,
   (msg_write_common_other_category demo_env (State.init demo_env) 100 3 [1]
      (by decide)).trans (by decide)⟩

/-- C9 refuted as stated: message 3 is registered for (debug, out); writing it
fails, yet the module variable `decode_flag`, `false` before the call, is `true`
after it. -/
theorem msg_write_common_debug_sets_decode_flag :
    (State.init demo_env).decode_flag = false ∧
      (msg_write_common demo_env (State.init demo_env) 100 3 [1]).map
          (fun r => (r.1.decode_flag, r.2)) = some (true, false) ∧
      msg_write_common demo_env (State.init demo_env) 100 3 [1] ≠
        some (State.init demo_env, false) := by
  refine ⟨by decide, by decide, ?_⟩
  intro h
  have h2 := congrArg (Option.map fun r => r.1.decode_flag) h
  revert h2
  decide

/-- C10: in Idle, a 64-byte packet whose first three bytes are not
`'?','#','#'` is dropped: no call is made and no variable changes (state,
reassembly buffer and collected count included). -/
theorem msg_read_common_idle_drop (env : Env) (s : State) (type : Nat) (buf : List Nat)
    (hidle : s.read_state = READSTATE_IDLE) (hlen : buf.length = 64)
    (hshape : buf.take 3 ≠ [63, 35, 35]) :
    msg_read_common env s type buf 64 = some (s, []) := by
  match buf, hlen, hshape with
  | a :: b :: c :: rest, _, hshape =>
    have hne : a ≠ 63 ∨ b ≠ 35 ∨ c ≠ 35 := by
      by_contra hcon
      push_neg at hcon
      apply hshape
      simp [hcon.1, hcon.2.1, hcon.2.2]
    simp [msg_read_common, hidle, hne]

/-- C10, evaluated: a continuation-shaped packet at program start. -/
theorem msg_read_common_idle_drop_witness :
    (State.init demo_env).read_state = READSTATE_IDLE ∧
      (63 :: List.replicate 63 0).length = 64 ∧
      (63 :: List.replicate 63 0).take 3 ≠ [63, 35, 35] ∧
      msg_read_common demo_env (State.init demo_env) 110 (63 :: List.replicate 63 0) 64 =
        some (State.init demo_env, []) :=
  ⟨by decide, by decide, by decide,
   msg_read_common_idle_drop demo_env (State.init demo_env) 110 (63 :: List.replicate 63 0)
     (by decide) (by decide) (by decide)⟩

/-! ## Claims on reassembly -/

/-- C2: from Idle, for a registered inbound id and a declared length `L` with
`55 < L ≤ MSG_IN_SIZE`, a start packet `'?','#','#'`, id and length big-endian,
55 payload bytes, followed by `k = ceil((L - 55) / 63)` 64-byte packets that
begin with `'?'`: the packets before the last cause no `msg_process` call, the
last causes exactly one, with the id and length of the header and with the first
`L` bytes of the concatenated payloads, and the state is then Idle with
`msg_pos = 0`. -/
theorem msg_read_packets_multi_packet (env : Env) (type : Nat) (s : State) (id L : Nat)
    (rest : List Nat) (conts : List (List Nat))
    (hidle : s.read_state = READSTATE_IDLE) (hin : s.msg_in.length = env.MSG_IN_SIZE)
    (h32 : env.MSG_IN_SIZE < 4294967296) (hid : id < 65536)
    (hreg : MessageFields env type 105 id ≠ 0) (hL : 55 < L) (hcap : L ≤ env.MSG_IN_SIZE)
    (hrest : rest.length = 55) (hall : ∀ p ∈ conts, p.length = 64 ∧ p.head? = some 63)
    (hlen : conts.length = (L - 55 + 62) / 63) :
    ∃ s1 evs,
      msg_read_packets env type s
          (([63, 35, 35, id / 256, id % 256, L / 16777216, L / 65536 % 256, L / 256 % 256,
              L % 256] ++ rest) :: conts) = some (s1, evs) ∧
        evs.map msg_process_calls = List.replicate conts.length [] ++
          [[Event.msg_process type id (MessageFields env type 105 id)
              ((rest ++ (conts.map (List.drop 1)).flatten).take L) L]] ∧
        s1.read_state = READSTATE_IDLE ∧ s1.msg_pos = 0 := by
  have hpk : [63, 35, 35, id / 256, id % 256, L / 16777216, L / 65536 % 256, L / 256 % 256,
      L % 256] ++ rest = 63 :: (msg_write_header id L ++ rest) := by
    have h1 : id / 256 % 256 = id / 256 := by omega
    have h2 : L / 16777216 % 256 = L / 16777216 := by omega
    simp [msg_write_header, h1, h2]
  rw [hpk]
  exact msg_read_packets_message env type s id L rest conts hidle hin (by omega) h32 hid hreg
    hcap hrest hall hlen

/-- C2, evaluated: a message of 60 bytes in a start packet and one continuation
packet, at program start in `demo_env`. -/
theorem msg_read_packets_multi_packet_witness :
    (State.init demo_env).read_state = READSTATE_IDLE ∧
      (State.init demo_env).msg_in.length = demo_env.MSG_IN_SIZE ∧
      MessageFields demo_env 110 105 1 ≠ 0 ∧
      ∃ s1 evs,
        msg_read_packets demo_env 110 (State.init demo_env)
            (([63, 35, 35, 1 / 256, 1 % 256, 60 / 16777216, 60 / 65536 % 256, 60 / 256 % 256,
                60 % 256] ++ List.replicate 55 7) :: [63 :: List.replicate 63 9]) =
            some (s1, evs) ∧
          evs.map msg_process_calls = List.replicate [63 :: List.replicate 63 9].length [] ++
            [[Event.msg_process 110 1 (MessageFields demo_env 110 105 1)
                ((List.replicate 55 7 ++
                  ([63 :: List.replicate 63 9].map (List.drop 1)).flatten).take 60) 60]] ∧
          s1.read_state = READSTATE_IDLE ∧ s1.msg_pos = 0 :=
  ⟨by decide, by decide, by decide,
   msg_read_packets_multi_packet demo_env 110 (State.init demo_env) 1 60 (List.replicate 55 7)
     [63 :: List.replicate 63 9] (by decide) (by decide) (by decide) (by decide) (by decide)
     (by decide) (by decide) (by decide) (by decide) (by decide)⟩

/-- C3: from Idle, with `MSG_IN_SIZE ≥ 55`, for a registered inbound id and a
declared length `L ≤ 55`, one 64-byte start packet causes exactly one
`msg_process` call, with that id, length `L` and the `L` bytes that follow the
9-byte header (none when `L = 0`), and the state is then Idle with
`msg_pos = 0`. -/
theorem msg_read_common_first_packet_completes (env : Env) (type : Nat) (s : State)
    (id L : Nat) (rest : List Nat)
    (hidle : s.read_state = READSTATE_IDLE) (hin : s.msg_in.length = env.MSG_IN_SIZE)
    (h55 : 55 ≤ env.MSG_IN_SIZE) (hid : id < 65536)
    (hreg : MessageFields env type 105 id ≠ 0) (hL : L ≤ 55) (hrest : rest.length = 55) :
    ∃ s1 evs,
      msg_read_common env s type ([63, 35, 35, id / 256, id % 256, 0, 0, 0, L] ++ rest) 64 =
          some (s1, evs) ∧
        msg_process_calls evs =
          [Event.msg_process type id (MessageFields env type 105 id) (rest.take L) L] ∧
        s1.read_state = READSTATE_IDLE ∧ s1.msg_pos = 0 := by
  have hpk : [63, 35, 35, id / 256, id % 256, 0, 0, 0, L] ++ rest =
      63 :: (msg_write_header id L ++ rest) := by
    have h1 : id / 256 % 256 = id / 256 := by omega
    have h2 : L / 16777216 % 256 = 0 := by omega
    have h3 : L / 65536 % 256 = 0 := by omega
    have h4 : L / 256 % 256 = 0 := by omega
    have h5 : L % 256 = L := by omega
    simp [msg_write_header, h1, h2, h3, h4, h5]
  obtain ⟨s2, ⟨h2in, h2pos, h2sz, h2id, h2f⟩, hstep⟩ :
      ∃ s2 : State,
        (s2.msg_in = rest ++ s.msg_in.drop 55 ∧ s2.msg_pos = 55 ∧ s2.msg_size = L ∧
          s2.msg_id = id ∧ s2.fields = MessageFields env type 105 id) ∧
        msg_read_common env s type (63 :: (msg_write_header id L ++ rest)) 64 =
          some (msg_read_finish env s2 type) :=
    ⟨{ s with msg_id := id, msg_size := L, fields := MessageFields env type 105 id,
              read_state := READSTATE_READING, msg_in := rest ++ s.msg_in.drop 55,
              msg_pos := 55 },
      ⟨rfl, rfl, rfl, rfl, rfl⟩,
      msg_read_common_start env s type id L rest hidle hin h55 hid (by omega) hreg
        (by omega) hrest⟩
  obtain ⟨hc, hi, hz, _⟩ := msg_read_finish_complete env s2 type (by omega)
  refine ⟨(msg_read_finish env s2 type).1, (msg_read_finish env s2 type).2, ?_, ?_, hi, hz⟩
  · rw [hpk, hstep]
  · rw [hc, h2in, h2sz, h2id, h2f, List.take_append_of_le_length (by omega)]

/-- C3, evaluated: a message of 2 bytes in one packet, at program start in
`demo_env`. -/
theorem msg_read_common_first_packet_completes_witness :
    (State.init demo_env).read_state = READSTATE_IDLE ∧
      (State.init demo_env).msg_in.length = demo_env.MSG_IN_SIZE ∧
      55 ≤ demo_env.MSG_IN_SIZE ∧ MessageFields demo_env 110 105 1 ≠ 0 ∧
      ∃ s1 evs,
        msg_read_common demo_env (State.init demo_env) 110
            ([63, 35, 35, 1 / 256, 1 % 256, 0, 0, 0, 2] ++ List.replicate 55 7) 64 =
            some (s1, evs) ∧
          msg_process_calls evs =
            [Event.msg_process 110 1 (MessageFields demo_env 110 105 1)
              ((List.replicate 55 7).take 2) 2] ∧
          s1.read_state = READSTATE_IDLE ∧ s1.msg_pos = 0 :=
  ⟨by decide, by decide, by decide, by decide,
   msg_read_common_first_packet_completes demo_env 110 (State.init demo_env) 1 2
     (List.replicate 55 7) (by decide) (by decide) (by decide) (by decide) (by decide)
     (by decide) (by decide)⟩

/-! ## Claims on the outbound ring -/

/-- C4: with in-slot offset 0 and write slot `e`, a successful
`msg_write_common('n', id, msg)` whose size pass announces `L` and whose encoder
emits the `L` bytes `b`, with `N = ceil((8 + L) / 63)` at most the slot count,
leaves in slot `(e + i) mod S`, for each `i < N`, the byte `'?'` followed by the
`i`-th 63-byte chunk of `'#','#'`, id and length big-endian, `b`, zero-filled to
64 bytes; the write cursor ends at slot `(e + N) mod S` with offset 0; no byte
outside these `N` slots changes. -/
theorem msg_write_common_packet_format (env : Env) (s : State) (id L : Nat)
    (msg b : List Nat)
    (hlen : s.msg_out.length = env.MSG_OUT_SIZE)
    (hend : s.msg_out_end < env.MSG_OUT_SIZE / 64) (hcur : s.msg_out_cur = 0)
    (hreg : MessageFields env 110 111 id ≠ 0)
    (hsz : env.pb_get_encoded_size (MessageFields env 110 111 id) msg = some L)
    (henc : (env.pb_encode (MessageFields env 110 111 id) msg).1.flatten = b)
    (hst : (env.pb_encode (MessageFields env 110 111 id) msg).2 = true)
    (hbL : b.length = L) (hbyte : ∀ x ∈ b, x < 256)
    (hN : (8 + L + 62) / 63 ≤ env.MSG_OUT_SIZE / 64) :
    ∃ s1, msg_write_common env s 110 id msg = some (s1, true) ∧
      (∀ i, i < (8 + L + 62) / 63 →
        slot s1.msg_out ((s.msg_out_end + i) % (env.MSG_OUT_SIZE / 64)) =
          packet_of ([35, 35, id / 256 % 256, id % 256, L / 16777216 % 256, L / 65536 % 256,
            L / 256 % 256, L % 256] ++ b) i) ∧
      s1.msg_out_end = (s.msg_out_end + (8 + L + 62) / 63) % (env.MSG_OUT_SIZE / 64) ∧
      s1.msg_out_cur = 0 ∧
      (∀ a, (∀ i, i < (8 + L + 62) / 63 →
          ¬ ((s.msg_out_end + i) % (env.MSG_OUT_SIZE / 64) * 64 ≤ a ∧
             a < (s.msg_out_end + i) % (env.MSG_OUT_SIZE / 64) * 64 + 64)) →
        s1.msg_out[a]? = s.msg_out[a]?) := by
  obtain ⟨s1, hw, _, he, hc, _, hslots, hframe⟩ :=
    msg_write_common_frame env s id L msg hlen hend hcur hreg hsz
      (by rw [henc, hbL]; omega)
  rw [henc, hbL] at he hslots hframe
  rw [hst] at hw
  refine ⟨s1, hw, ?_, he, hc, hframe⟩
  intro i hi
  rw [hslots i hi, map_mod_256_eq b hbyte]
  rfl

/-- C4, evaluated: message 1 with the three bytes `1, 2, 3`, written at program
start in `demo_env`. -/
theorem msg_write_common_packet_format_witness :
    (State.init demo_env).msg_out.length = demo_env.MSG_OUT_SIZE ∧
      (State.init demo_env).msg_out_end < demo_env.MSG_OUT_SIZE / 64 ∧
      (State.init demo_env).msg_out_cur = 0 ∧
      ∃ s1, msg_write_common demo_env (State.init demo_env) 110 1 [1, 2, 3] = some (s1, true) ∧
        (∀ i, i < (8 + 3 + 62) / 63 →
          slot s1.msg_out (((State.init demo_env).msg_out_end + i) %
              (demo_env.MSG_OUT_SIZE / 64)) =
            packet_of ([35, 35, 1 / 256 % 256, 1 % 256, 3 / 16777216 % 256, 3 / 65536 % 256,
              3 / 256 % 256, 3 % 256] ++ [1, 2, 3]) i) ∧
        s1.msg_out_end =
          ((State.init demo_env).msg_out_end + (8 + 3 + 62) / 63) %
            (demo_env.MSG_OUT_SIZE / 64) ∧
        s1.msg_out_cur = 0 ∧
        (∀ a, (∀ i, i < (8 + 3 + 62) / 63 →
            ¬ (((State.init demo_env).msg_out_end + i) % (demo_env.MSG_OUT_SIZE / 64) * 64 ≤ a ∧
               a < ((State.init demo_env).msg_out_end + i) % (demo_env.MSG_OUT_SIZE / 64) * 64
                 + 64)) →
          s1.msg_out[a]? = (State.init demo_env).msg_out[a]?) :=
  ⟨List.length_replicate _ _, by decide, by decide,
   msg_write_common_packet_format demo_env (State.init demo_env) 1 3 [1, 2, 3] [1, 2, 3]
     (List.length_replicate _ _) (by decide) (by decide) (by decide) (by decide) (by decide) (by decide)
     (by decide) (by decide) (by decide)⟩

/-! ## Claims on whole messages -/

/-- C6 as amended: `msg_out_data` returns `NULL` when nothing has been written,
and for a message of `N` packets written successfully into an empty ring, with
`N` smaller than the slot count, the first `N` calls of `msg_out_data` return the
packets of the message in write order and call `N + 1` returns `NULL`. -/
theorem msg_out_data_message_packets (env : Env) (s : State) (id L : Nat) (msg b : List Nat)
    (hlen : s.msg_out.length = env.MSG_OUT_SIZE)
    (hend : s.msg_out_end < env.MSG_OUT_SIZE / 64) (hcur : s.msg_out_cur = 0)
    (hempty : s.msg_out_start = s.msg_out_end)
    (hreg : MessageFields env 110 111 id ≠ 0)
    (hsz : env.pb_get_encoded_size (MessageFields env 110 111 id) msg = some L)
    (henc : (env.pb_encode (MessageFields env 110 111 id) msg).1.flatten = b)
    (hst : (env.pb_encode (MessageFields env 110 111 id) msg).2 = true)
    (hbL : b.length = L) (hbyte : ∀ x ∈ b, x < 256)
    (hN : (8 + L + 62) / 63 < env.MSG_OUT_SIZE / 64) :
    msg_out_data env (State.init env) = (State.init env, none) ∧
      ∃ s1, msg_write_common env s 110 id msg = some (s1, true) ∧
        (msg_out_data_n env ((8 + L + 62) / 63 + 1) s1).2 =
          ((List.range ((8 + L + 62) / 63)).map fun i =>
            some (packet_of ([35, 35, id / 256 % 256, id % 256, L / 16777216 % 256,
              L / 65536 % 256, L / 256 % 256, L % 256] ++ b) i)) ++ [none] := by
  refine ⟨msg_out_data_empty env _ rfl, ?_⟩
  obtain ⟨s1, s2, hw, hout, hnone, _, _⟩ :=
    msg_write_then_out env s id L msg b hlen hend hcur hempty hreg hsz henc hbL hbyte hN
  rw [hst] at hw
  refine ⟨s1, hw, ?_⟩
  rw [msg_out_data_n_add, hout]
  simp only [msg_out_data_n, hnone]
  rfl

/-- C6 as amended, evaluated: message 1 with the bytes `1, 2, 3` makes one
packet; the ring of `demo_env` has two slots. -/
theorem msg_out_data_message_packets_witness :
    (State.init demo_env).msg_out.length = demo_env.MSG_OUT_SIZE ∧
      (State.init demo_env).msg_out_start = (State.init demo_env).msg_out_end ∧
      (8 + 3 + 62) / 63 < demo_env.MSG_OUT_SIZE / 64 ∧
      msg_out_data demo_env (State.init demo_env) = (State.init demo_env, none) ∧
      ∃ s1, msg_write_common demo_env (State.init demo_env) 110 1 [1, 2, 3] = some (s1, true) ∧
        (msg_out_data_n demo_env ((8 + 3 + 62) / 63 + 1) s1).2 =
          ((List.range ((8 + 3 + 62) / 63)).map fun i =>
            some (packet_of ([35, 35, 1 / 256 % 256, 1 % 256, 3 / 16777216 % 256,
              3 / 65536 % 256, 3 / 256 % 256, 3 % 256] ++ [1, 2, 3]) i)) ++ [none] :=
  ⟨List.length_replicate _ _, by decide, by decide,
   msg_out_data_message_packets demo_env (State.init demo_env) 1 3 [1, 2, 3] [1, 2, 3]
     (List.length_replicate _ _) (by decide) (by decide) (by decide) (by decide) (by decide)
     (by decide) (by decide) (by decide) (by decide) (by decide)⟩

set_option maxRecDepth 100000 in
/-- C6 refuted as stated: in `demo_env` the ring has two slots; a message of 60
bytes occupies two packets and is written successfully into the empty ring, after
which the write cursor is back on the read cursor and the first call of
`msg_out_data` returns `NULL`. -/
theorem msg_out_data_full_ring_reads_empty :
    (State.init demo_env).msg_out_start = (State.init demo_env).msg_out_end ∧
      (8 + 60 + 62) / 63 = 2 ∧ demo_env.MSG_OUT_SIZE / 64 = 2 ∧
      (msg_write_common demo_env (State.init demo_env) 110 1 (List.replicate 60 7)).map
        (fun r => (r.2, (msg_out_data demo_env r.1).2)) = some (true, none) := by
  decide

/-- C1 as amended: with the ring empty at in-slot offset 0, the reassembly Idle,
the id registered for (normal, out) and (normal, in), an encoder that emits the
`L` bytes `b` announced by the size pass and succeeds, `L ≤ MSG_IN_SIZE`,
`MSG_IN_SIZE ≥ 55` and `N = ceil((8 + L) / 63)` below the slot count:
`msg_write_common` succeeds, `msg_out_data` yields exactly `N` packets and then
`NULL`, and feeding the `N` packets in order to `msg_read_common` under category
`'n'` causes no `msg_process` call before the last packet and exactly one on it,
with the same id, length `L` and payload `b`. -/
theorem msg_round_trip (env : Env) (s : State) (id L : Nat) (msg b : List Nat)
    (hlen : s.msg_out.length = env.MSG_OUT_SIZE)
    (hend : s.msg_out_end < env.MSG_OUT_SIZE / 64) (hcur : s.msg_out_cur = 0)
    (hempty : s.msg_out_start = s.msg_out_end)
    (hidle : s.read_state = READSTATE_IDLE) (hin : s.msg_in.length = env.MSG_IN_SIZE)
    (hid : id < 65536)
    (hrego : MessageFields env 110 111 id ≠ 0) (hregi : MessageFields env 110 105 id ≠ 0)
    (hsz : env.pb_get_encoded_size (MessageFields env 110 111 id) msg = some L)
    (henc : (env.pb_encode (MessageFields env 110 111 id) msg).1.flatten = b)
    (hst : (env.pb_encode (MessageFields env 110 111 id) msg).2 = true)
    (hbL : b.length = L) (hbyte : ∀ x ∈ b, x < 256)
    (hcap : L ≤ env.MSG_IN_SIZE) (h55 : 55 ≤ env.MSG_IN_SIZE)
    (h32 : env.MSG_IN_SIZE < 4294967296)
    (hN : (8 + L + 62) / 63 < env.MSG_OUT_SIZE / 64) :
    ∃ s1 s2 pkts s3 evs,
      msg_write_common env s 110 id msg = some (s1, true) ∧
        msg_out_data_n env ((8 + L + 62) / 63) s1 = (s2, pkts.map some) ∧
        pkts.length = (8 + L + 62) / 63 ∧ (msg_out_data env s2).2 = none ∧
        msg_read_packets env 110 s2 pkts = some (s3, evs) ∧
        evs.map msg_process_calls = List.replicate ((8 + L + 62) / 63 - 1) [] ++
          [[Event.msg_process 110 id (MessageFields env 110 105 id) b L]] := by
  obtain ⟨s1, s2, hw, hout, hnone, hrs, hmi⟩ :=
    msg_write_then_out env s id L msg b hlen hend hcur hempty hrego hsz henc hbL hbyte hN
  rw [hst] at hw
  obtain ⟨n, hn⟩ : ∃ n, n + 1 = (8 + L + 62) / 63 := ⟨(8 + L + 62) / 63 - 1, by omega⟩
  have hpk : (List.range ((8 + L + 62) / 63)).map (packet_of (msg_write_header id L ++ b)) =
      (63 :: (msg_write_header id L ++ (packet_of (msg_write_header id L ++ b) 0).drop 9)) ::
        (List.range n).map fun t => packet_of (msg_write_header id L ++ b) (t + 1) := by
    rw [← hn, List.range_succ_eq_map, List.map_cons, List.map_map, ← packet_zero_shape]
    rfl
  obtain ⟨s3, evs, hrd, hev, _, _⟩ :=
    msg_read_packets_message env 110 s2 id L
      ((packet_of (msg_write_header id L ++ b) 0).drop 9)
      ((List.range n).map fun t => packet_of (msg_write_header id L ++ b) (t + 1))
      (hrs.trans hidle) (hmi ▸ hin) h55 h32 hid hregi hcap
      (by rw [List.length_drop, packet_of_length])
      (by
        intro p hp
        obtain ⟨t, _, rfl⟩ := List.mem_map.mp hp
        exact ⟨packet_of_length _ _, packet_of_head _ _⟩)
      (by rw [List.length_map, List.length_range]; omega)
  rw [payload_recovered id L b hbL n hn, List.length_map, List.length_range] at hev
  refine ⟨s1, s2, (List.range ((8 + L + 62) / 63)).map (packet_of (msg_write_header id L ++ b)),
    s3, evs, hw, ?_, ?_, ?_, ?_, ?_⟩
  · rw [hout, List.map_map]
    rfl
  · rw [List.length_map, List.length_range]
  · rw [hnone]
  · rw [hpk]; exact hrd
  · rw [hev, ← hn, Nat.add_sub_cancel]

/-- C1 as amended, evaluated: message 1 with the bytes `1, 2, 3` at program
start in `demo_env`. -/
theorem msg_round_trip_witness :
    (State.init demo_env).msg_out.length = demo_env.MSG_OUT_SIZE ∧
      (State.init demo_env).msg_in.length = demo_env.MSG_IN_SIZE ∧
      55 ≤ demo_env.MSG_IN_SIZE ∧ (8 + 3 + 62) / 63 < demo_env.MSG_OUT_SIZE / 64 ∧
      ∃ s1 s2 pkts s3 evs,
        msg_write_common demo_env (State.init demo_env) 110 1 [1, 2, 3] = some (s1, true) ∧
          msg_out_data_n demo_env ((8 + 3 + 62) / 63) s1 = (s2, pkts.map some) ∧
          pkts.length = (8 + 3 + 62) / 63 ∧ (msg_out_data demo_env s2).2 = none ∧
          msg_read_packets demo_env 110 s2 pkts = some (s3, evs) ∧
          evs.map msg_process_calls = List.replicate ((8 + 3 + 62) / 63 - 1) [] ++
            [[Event.msg_process 110 1 (MessageFields demo_env 110 105 1) [1, 2, 3] 3]] :=
  ⟨List.length_replicate _ _, List.length_replicate _ _, by decide, by decide,
   msg_round_trip demo_env (State.init demo_env) 1 3 [1, 2, 3] [1, 2, 3]
     (List.length_replicate _ _) (by decide) (by decide) (by decide) (by decide)
     (List.length_replicate _ _) (by decide) (by decide) (by decide) (by decide) (by decide)
     (by decide) (by decide) (by decide) (by decide) (by decide) (by decide) (by decide)⟩

set_option maxRecDepth 100000 in
/-- C1 refuted as stated: in `small_in_env` (`MSG_IN_SIZE = 10`) every
assumption of the claim holds for message 1 with the bytes `1, 2, 3`; the write
succeeds and `msg_out_data` hands out its one packet, but `msg_read_common` then
copies the 55 payload bytes of that packet into the 10-byte buffer: the copy
leaves the buffer and no `msg_process` call is defined. -/
theorem msg_round_trip_small_buffer :
    (State.init small_in_env).msg_out_start = (State.init small_in_env).msg_out_end ∧
      (State.init small_in_env).msg_out_cur = 0 ∧
      (State.init small_in_env).read_state = READSTATE_IDLE ∧
      MessageFields small_in_env 110 111 1 ≠ 0 ∧ MessageFields small_in_env 110 105 1 ≠ 0 ∧
      small_in_env.pb_get_encoded_size (MessageFields small_in_env 110 111 1) [1, 2, 3] =
        some 3 ∧
      small_in_env.pb_encode (MessageFields small_in_env 110 111 1) [1, 2, 3] =
        ([[1, 2, 3]], true) ∧
      3 ≤ small_in_env.MSG_IN_SIZE ∧ (8 + 3 + 62) / 63 < small_in_env.MSG_OUT_SIZE / 64 ∧
      (msg_write_common small_in_env (State.init small_in_env) 110 1 [1, 2, 3]).map
        (fun r => (r.2, (msg_out_data small_in_env r.1).2.map fun p =>
          msg_read_common small_in_env (msg_out_data small_in_env r.1).1 110 p 64)) =
        some (true, some none) := by
  decide

/-! ## Claims on drops and aborts -/

/-- C11: from Idle, a start packet whose declared length exceeds `MSG_IN_SIZE`
(its id registered for inbound or not) causes no call and leaves the state Idle
with the collected count and the reassembly buffer untouched, and every packet
with the start markers fed next has the very outcome (new state, calls, id,
length and payload) it would have had from the state before the oversize
packet. -/
theorem msg_read_common_oversize_drop (env : Env) (s : State) (type id L : Nat)
    (rest : List Nat)
    (hidle : s.read_state = READSTATE_IDLE) (hid : id < 65536) (hL : L < 4294967296)
    (hbig : env.MSG_IN_SIZE < L) :
    ∃ s1,
      msg_read_common env s type
          ([63, 35, 35, id / 256, id % 256, L / 16777216, L / 65536 % 256, L / 256 % 256,
            L % 256] ++ rest) 64 = some (s1, []) ∧
        s1.read_state = READSTATE_IDLE ∧ s1.msg_pos = s.msg_pos ∧ s1.msg_in = s.msg_in ∧
        ∀ (type2 : Nat) (p : List Nat), p.take 3 = [63, 35, 35] →
          msg_read_common env s1 type2 p 64 = msg_read_common env s type2 p 64 := by
  have hpk : [63, 35, 35, id / 256, id % 256, L / 16777216, L / 65536 % 256, L / 256 % 256,
      L % 256] ++ rest = 63 :: (msg_write_header id L ++ rest) := by
    have h1 : id / 256 % 256 = id / 256 := by omega
    have h2 : L / 16777216 % 256 = L / 16777216 := by omega
    simp [msg_write_header, h1, h2]
  refine ⟨{ s with msg_id := id, msg_size := L, fields := MessageFields env type 105 id },
    ?_, hidle, rfl, rfl, ?_⟩
  · rw [hpk, msg_read_common_oversize env s type id L rest hidle hid hL hbig]
  · intro type2 p hp
    exact msg_read_common_idle_start_indep env s type2 p _ _ _ hidle hp

/-- C11, evaluated: a start packet that declares 100 bytes in `demo_env`, where
`MSG_IN_SIZE = 64`. -/
theorem msg_read_common_oversize_drop_witness :
    (State.init demo_env).read_state = READSTATE_IDLE ∧
      MessageFields demo_env 110 105 1 ≠ 0 ∧ demo_env.MSG_IN_SIZE < 100 ∧
      ∃ s1,
        msg_read_common demo_env (State.init demo_env) 110
            ([63, 35, 35, 1 / 256, 1 % 256, 100 / 16777216, 100 / 65536 % 256,
              100 / 256 % 256, 100 % 256] ++ List.replicate 55 7) 64 = some (s1, []) ∧
          s1.read_state = READSTATE_IDLE ∧ s1.msg_pos = (State.init demo_env).msg_pos ∧
          s1.msg_in = (State.init demo_env).msg_in ∧
          ∀ (type2 : Nat) (p : List Nat), p.take 3 = [63, 35, 35] →
            msg_read_common demo_env s1 type2 p 64 =
              msg_read_common demo_env (State.init demo_env) type2 p 64 :=
  ⟨by decide, by decide, by decide,
   msg_read_common_oversize_drop demo_env (State.init demo_env) 110 1 100
     (List.replicate 55 7) (by decide) (by decide) (by decide) (by decide)⟩

/-- C12: in Reading, a 64-byte packet whose first byte is not `'?'` makes the
state Idle, causes no call and changes nothing else (the reassembly buffer
included); from the state it leaves, a packet without the start markers is
dropped and a valid start packet begins a new message as the Idle branch
prescribes. -/
theorem msg_read_common_malformed_continuation (env : Env) (s : State) (type : Nat)
    (p : List Nat)
    (hrd : s.read_state = READSTATE_READING) (hp : p.length = 64)
    (hbad : p.head? ≠ some 63) :
    msg_read_common env s type p 64 =
        some ({ s with read_state := READSTATE_IDLE }, []) ∧
      (∀ (type2 : Nat) (q : List Nat), q.length = 64 → q.take 3 ≠ [63, 35, 35] →
        msg_read_common env { s with read_state := READSTATE_IDLE } type2 q 64 =
          some ({ s with read_state := READSTATE_IDLE }, [])) ∧
      (∀ (type2 id L : Nat) (rest : List Nat), s.msg_in.length = env.MSG_IN_SIZE →
        55 ≤ env.MSG_IN_SIZE → id < 65536 → L < 4294967296 →
        MessageFields env type2 105 id ≠ 0 → L ≤ env.MSG_IN_SIZE → rest.length = 55 →
        msg_read_common env { s with read_state := READSTATE_IDLE } type2
            ([63, 35, 35, id / 256, id % 256, L / 16777216, L / 65536 % 256, L / 256 % 256,
              L % 256] ++ rest) 64 =
          some (msg_read_finish env
            { s with msg_id := id, msg_size := L, fields := MessageFields env type2 105 id,
                     read_state := READSTATE_READING, msg_in := rest ++ s.msg_in.drop 55,
                     msg_pos := 55 } type2)) := by
  refine ⟨?_, ?_, ?_⟩
  · match p, hp, hbad with
    | a :: t, _, hbad =>
      have ha : a ≠ 63 := by simpa using hbad
      have hne : ¬ (READSTATE_READING = READSTATE_IDLE) := by decide
      simp [msg_read_common, hrd, hne, ha]
  · intro type2 q hq hshape
    exact msg_read_common_idle_no_start env _ type2 q rfl hq hshape
  · intro type2 id L rest hin h55 hid hL hreg hcap hrest
    have hpk : [63, 35, 35, id / 256, id % 256, L / 16777216, L / 65536 % 256, L / 256 % 256,
        L % 256] ++ rest = 63 :: (msg_write_header id L ++ rest) := by
      have h1 : id / 256 % 256 = id / 256 := by omega
      have h2 : L / 16777216 % 256 = L / 16777216 := by omega
      simp [msg_write_header, h1, h2]
    rw [hpk, msg_read_common_start env { s with read_state := READSTATE_IDLE } type2 id L rest
      rfl hin h55 hid hL hreg hcap hrest]

/-- C12, evaluated: a Reading state of `demo_env` with 55 bytes collected and a
packet of zeros. -/
theorem msg_read_common_malformed_continuation_witness :
    ({ State.init demo_env with read_state := READSTATE_READING, msg_size := 60,
                                msg_pos := 55 } : State).read_state = READSTATE_READING ∧
      (List.replicate 64 0).length = 64 ∧ (List.replicate 64 0).head? ≠ some 63 ∧
      msg_read_common demo_env
          { State.init demo_env with read_state := READSTATE_READING, msg_size := 60,
                                     msg_pos := 55 } 110 (List.replicate 64 0) 64 =
        some ({ State.init demo_env with read_state := READSTATE_IDLE, msg_size := 60,
                                         msg_pos := 55 }, []) :=
  ⟨by decide, by decide, by decide,
   (msg_read_common_malformed_continuation demo_env
      { State.init demo_env with read_state := READSTATE_READING, msg_size := 60,
                                 msg_pos := 55 } 110 (List.replicate 64 0)
      (by decide) (by decide) (by decide)).1⟩

/-- C19: in a Reading state within the buffer bounds, a 64-byte packet that
begins with `'?'`, a well-formed start packet included, is taken as continuation
data: `min(63, MSG_IN_SIZE - msg_pos)` of its bytes 1..63 are copied to offset
`msg_pos`, the id, declared length and descriptor stay as they were, and the state
stays Reading with the count advanced unless the count has reached the declared
length, in which case the pinned message is completed. -/
theorem msg_read_common_reading_consumes (env : Env) (s : State) (type : Nat) (p : List Nat)
    (hrd : s.read_state = READSTATE_READING) (hin : s.msg_in.length = env.MSG_IN_SIZE)
    (hpos : s.msg_pos ≤ env.MSG_IN_SIZE) (h32 : env.MSG_IN_SIZE < 4294967296)
    (hp : p.length = 64) (hmark : p.head? = some 63) :
    ∃ s1 evs, msg_read_common env s type p 64 = some (s1, evs) ∧
      s1.msg_in = s.msg_in.take s.msg_pos ++
        ((p.drop 1).take (min 63 (env.MSG_IN_SIZE - s.msg_pos)) ++
          s.msg_in.drop (s.msg_pos + min 63 (env.MSG_IN_SIZE - s.msg_pos))) ∧
      s1.msg_id = s.msg_id ∧ s1.msg_size = s.msg_size ∧ s1.fields = s.fields ∧
      (s.msg_pos + min 63 (env.MSG_IN_SIZE - s.msg_pos) < s.msg_size →
        s1.read_state = READSTATE_READING ∧
        s1.msg_pos = s.msg_pos + min 63 (env.MSG_IN_SIZE - s.msg_pos) ∧ evs = []) ∧
      (s.msg_size ≤ s.msg_pos + min 63 (env.MSG_IN_SIZE - s.msg_pos) →
        s1.read_state = READSTATE_IDLE ∧ s1.msg_pos = 0 ∧
        msg_process_calls evs =
          [Event.msg_process type s.msg_id s.fields (s1.msg_in.take s.msg_size)
            s.msg_size]) := by
  obtain ⟨s2, ⟨h2rd, h2in, h2pos, h2sz, h2id, h2f⟩, hstep⟩ :
      ∃ s2 : State,
        (s2.read_state = s.read_state ∧
          s2.msg_in = s.msg_in.take s.msg_pos ++
            ((p.drop 1).take (min 63 (env.MSG_IN_SIZE - s.msg_pos)) ++
              s.msg_in.drop (s.msg_pos + min 63 (env.MSG_IN_SIZE - s.msg_pos))) ∧
          s2.msg_pos = s.msg_pos + min 63 (env.MSG_IN_SIZE - s.msg_pos) ∧
          s2.msg_size = s.msg_size ∧ s2.msg_id = s.msg_id ∧ s2.fields = s.fields) ∧
        msg_read_common env s type p 64 = some (msg_read_finish env s2 type) :=
    ⟨{ s with
          msg_in := s.msg_in.take s.msg_pos ++
            ((p.drop 1).take (min 63 (env.MSG_IN_SIZE - s.msg_pos)) ++
              s.msg_in.drop (s.msg_pos + min 63 (env.MSG_IN_SIZE - s.msg_pos))),
          msg_pos := s.msg_pos + min 63 (env.MSG_IN_SIZE - s.msg_pos) },
      ⟨rfl, rfl, rfl, rfl, rfl, rfl⟩,
      msg_read_common_cont env s type p hrd hin hpos h32 hp hmark⟩
  by_cases hfin : s2.msg_size ≤ s2.msg_pos
  · obtain ⟨hc, hi, hz, hm⟩ := msg_read_finish_complete env s2 type hfin
    have hst := msg_process_state env s2 type s2.msg_id s2.fields s2.msg_in s2.msg_size
    have hfs : (msg_read_finish env s2 type).1 =
        { (msg_process env s2 type s2.msg_id s2.fields s2.msg_in s2.msg_size).1 with
            msg_pos := 0, read_state := READSTATE_IDLE } := by
      simp [msg_read_finish, hfin]
    refine ⟨(msg_read_finish env s2 type).1, (msg_read_finish env s2 type).2, hstep, ?_, ?_,
      ?_, ?_, ?_, ?_⟩
    · rw [hm, h2in]
    · rw [hfs, hst]; exact h2id
    · rw [hfs, hst]; exact h2sz
    · rw [hfs, hst]; exact h2f
    · intro hlt; omega
    · intro _
      refine ⟨hi, hz, ?_⟩
      rw [hc, hm, h2id, h2f, h2sz]
  · rw [msg_read_finish_pending env s2 type (by omega)] at hstep
    refine ⟨s2, [], hstep, h2in, h2id, h2sz, h2f, ?_, ?_⟩
    · intro _
      exact ⟨h2rd.trans hrd, h2pos, rfl⟩
    · intro hge; omega

/-- C19, evaluated: a Reading state of `demo_env` with 55 of 64 bytes collected
receives a well-formed start packet; the nine bytes that fit are copied, the
marker and header bytes among them, and the pinned message completes. -/
theorem msg_read_common_reading_consumes_witness :
    demo_reading.read_state = READSTATE_READING ∧
      demo_reading.msg_pos ≤ demo_env.MSG_IN_SIZE ∧
      ∃ s1 evs,
        msg_read_common demo_env demo_reading 110
            ([63, 35, 35, 0, 1, 0, 0, 0, 2] ++ List.replicate 55 7) 64 = some (s1, evs) ∧
          s1.msg_in = demo_reading.msg_in.take demo_reading.msg_pos ++
            ((([63, 35, 35, 0, 1, 0, 0, 0, 2] ++ List.replicate 55 7).drop 1).take
                (min 63 (demo_env.MSG_IN_SIZE - demo_reading.msg_pos)) ++
              demo_reading.msg_in.drop
                (demo_reading.msg_pos + min 63 (demo_env.MSG_IN_SIZE - demo_reading.msg_pos))) ∧
          s1.msg_id = demo_reading.msg_id ∧ s1.msg_size = demo_reading.msg_size ∧
          s1.fields = demo_reading.fields :=
  ⟨by decide, by decide,
   let ⟨s1, evs, h, hin, hid, hsz, hf, _⟩ :=
     msg_read_common_reading_consumes demo_env demo_reading 110
       ([63, 35, 35, 0, 1, 0, 0, 0, 2] ++ List.replicate 55 7)
       (by decide) (List.length_replicate _ _) (by decide) (by decide) (by decide) (by decide)
   ⟨s1, evs, h, hin, hid, hsz, hf⟩⟩

/-! ## Claims on encoder failure -/

/-- C13 as amended: for an id registered for (normal, out), a size pass that
succeeds with `L` and an encoder that streams the bytes `p` and then reports
failure, written into a ring that holds `u` unread packets and where the
`N = ceil((8 + |p|) / 63)` slots of the frame do not bring the write cursor
round to the read cursor (`u + N` below the slot count): `msg_write_common`
returns `false`, the `N` slots from the write slot on hold `'?'`-prefixed chunks
of the header followed by `p`, zero-padded to the slot boundary, the write cursor
stands `N` slots further at offset 0, and `msg_out_data` hands out the `u`
packets that were waiting, then exactly the `N` packets of the truncated frame,
then `NULL`. -/
theorem msg_write_common_no_rollback (env : Env) (s : State) (id L u : Nat)
    (msg p : List Nat)
    (hinv : ring_inv env s)
    (hu : s.msg_out_end = (s.msg_out_start + u) % (env.MSG_OUT_SIZE / 64))
    (hreg : MessageFields env 110 111 id ≠ 0)
    (hsz : env.pb_get_encoded_size (MessageFields env 110 111 id) msg = some L)
    (henc : (env.pb_encode (MessageFields env 110 111 id) msg).1.flatten = p)
    (hst : (env.pb_encode (MessageFields env 110 111 id) msg).2 = false)
    (hbyte : ∀ x ∈ p, x < 256)
    (hfree : u + (8 + p.length + 62) / 63 < env.MSG_OUT_SIZE / 64) :
    ∃ s1, msg_write_common env s 110 id msg = some (s1, false) ∧
      (∀ i, i < (8 + p.length + 62) / 63 →
        slot s1.msg_out ((s.msg_out_end + i) % (env.MSG_OUT_SIZE / 64)) =
          packet_of ([35, 35, id / 256 % 256, id % 256, L / 16777216 % 256, L / 65536 % 256,
            L / 256 % 256, L % 256] ++ p) i) ∧
      s1.msg_out_end =
        (s.msg_out_end + (8 + p.length + 62) / 63) % (env.MSG_OUT_SIZE / 64) ∧
      s1.msg_out_cur = 0 ∧
      (msg_out_data_n env (u + (8 + p.length + 62) / 63) s1).2 =
        ((List.range u).map fun t =>
          some (slot s.msg_out ((s.msg_out_start + t) % (env.MSG_OUT_SIZE / 64)))) ++
        ((List.range ((8 + p.length + 62) / 63)).map fun i =>
          some (packet_of ([35, 35, id / 256 % 256, id % 256, L / 16777216 % 256,
            L / 65536 % 256, L / 256 % 256, L % 256] ++ p) i)) ∧
      (msg_out_data env (msg_out_data_n env (u + (8 + p.length + 62) / 63) s1).1).2 =
        none := by
  obtain ⟨hlen, hend, hstart, hcur⟩ := hinv
  obtain ⟨s1, hw, _, he, hc, hsame, hslots, hframe⟩ :=
    msg_write_common_frame env s id L msg hlen hend hcur hreg hsz
      (by rw [henc]; omega)
  rw [henc] at he hslots hframe
  rw [map_mod_256_eq p hbyte] at hslots
  rw [hst] at hw
  obtain ⟨hstart1, _⟩ := same_outside_ring_fields _ _ hsame
  have he1 : s1.msg_out_end =
      (s.msg_out_start + (u + (8 + p.length + 62) / 63)) % (env.MSG_OUT_SIZE / 64) := by
    rw [he, hu, Nat.mod_add_mod, Nat.add_assoc]
  have hrun := msg_out_data_n_run env s.msg_out_start (u + (8 + p.length + 62) / 63) hfree
    (u + (8 + p.length + 62) / 63) 0 s1 (by omega)
    (by rw [hstart1, Nat.add_zero, Nat.mod_eq_of_lt hstart]) he1
  refine ⟨s1, hw, fun i hi => (hslots i hi).trans rfl, he, hc, ?_, ?_⟩
  · rw [hrun, List.range_add, List.map_append, List.map_map]
    show _ ++ _ = _ ++ _
    congr 1
    · apply List.map_congr_left
      intro t ht
      have htu : t < u := List.mem_range.mp ht
      rw [Nat.zero_add]
      congr 1
      apply slot_eq_of_frame
      intro a ha1 ha2
      apply hframe
      intro i hi hcon
      have hidx : (s.msg_out_end + i) % (env.MSG_OUT_SIZE / 64) =
          (s.msg_out_start + t) % (env.MSG_OUT_SIZE / 64) := by omega
      rw [hu, Nat.mod_add_mod, Nat.add_assoc] at hidx
      have := slot_index_inj _ _ _ _ (by omega) (by omega) hidx
      omega
    · apply List.map_congr_left
      intro i hi
      have hiN : i < (8 + p.length + 62) / 63 := List.mem_range.mp hi
      simp only [Function.comp_def, Nat.zero_add]
      rw [← Nat.add_assoc, ← Nat.mod_add_mod, ← hu, hslots i hiN]
      rfl
  · rw [hrun]
    exact congrArg Prod.snd (msg_out_data_empty env _ (by
      show (s.msg_out_start + (u + (8 + p.length + 62) / 63)) % (env.MSG_OUT_SIZE / 64) =
        s1.msg_out_end
      exact he1.symm))

set_option maxRecDepth 100000 in
/-- C13 as amended, evaluated: in `failing_env4` the ring has four slots and the
state `demo_pending` holds one unread packet; the encoder streams 60 bytes and
fails, which makes a truncated frame of two packets. -/
theorem msg_write_common_no_rollback_witness :
    ring_inv failing_env4 demo_pending ∧
      (failing_env4.pb_encode (MessageFields failing_env4 110 111 1) (List.replicate 60 7)).2 =
        false ∧
      1 + (8 + (List.replicate 60 7).length + 62) / 63 < failing_env4.MSG_OUT_SIZE / 64 ∧
      ∃ s1, msg_write_common failing_env4 demo_pending 110 1 (List.replicate 60 7) =
          some (s1, false) ∧
        (∀ i, i < (8 + (List.replicate 60 7).length + 62) / 63 →
          slot s1.msg_out ((demo_pending.msg_out_end + i) % (failing_env4.MSG_OUT_SIZE / 64)) =
            packet_of ([35, 35, 1 / 256 % 256, 1 % 256, 60 / 16777216 % 256,
              60 / 65536 % 256, 60 / 256 % 256, 60 % 256] ++ List.replicate 60 7) i) ∧
        s1.msg_out_end =
          (demo_pending.msg_out_end + (8 + (List.replicate 60 7).length + 62) / 63) %
            (failing_env4.MSG_OUT_SIZE / 64) ∧
        s1.msg_out_cur = 0 ∧
        (msg_out_data_n failing_env4 (1 + (8 + (List.replicate 60 7).length + 62) / 63) s1).2 =
          ((List.range 1).map fun t =>
            some (slot demo_pending.msg_out
              ((demo_pending.msg_out_start + t) % (failing_env4.MSG_OUT_SIZE / 64)))) ++
          ((List.range ((8 + (List.replicate 60 7).length + 62) / 63)).map fun i =>
            some (packet_of ([35, 35, 1 / 256 % 256, 1 % 256, 60 / 16777216 % 256,
              60 / 65536 % 256, 60 / 256 % 256, 60 % 256] ++ List.replicate 60 7) i)) ∧
        (msg_out_data failing_env4
          (msg_out_data_n failing_env4
            (1 + (8 + (List.replicate 60 7).length + 62) / 63) s1).1).2 = none :=
  ⟨by unfold ring_inv; decide, by decide, by decide,
   msg_write_common_no_rollback failing_env4 demo_pending 1 60 1 (List.replicate 60 7)
     (List.replicate 60 7) (by unfold ring_inv; decide) (by decide) (by decide) (by decide) (by decide)
     (by decide) (by decide) (by decide)⟩

set_option maxRecDepth 100000 in
/-- C13 refuted as stated: in `failing_env` the ring has two slots; the encoder
streams 60 bytes and fails, the truncated frame fills both slots, the write
cursor comes back onto the read cursor and `msg_out_data` returns `NULL`: nothing
is handed to the reader. -/
theorem msg_write_common_failed_frame_not_handed :
    (State.init failing_env).msg_out_start = (State.init failing_env).msg_out_end ∧
      (8 + 60 + 62) / 63 = 2 ∧ failing_env.MSG_OUT_SIZE / 64 = 2 ∧
      (msg_write_common failing_env (State.init failing_env) 110 1 (List.replicate 60 7)).map
        (fun r => (r.2, r.1.msg_out_end, (msg_out_data failing_env r.1).2)) =
        some (false, 0, none) := by
  decide

/-! ## Claims on categories -/

/-- C20: a start packet fed under category `A`, with the id registered for
(`A`, in), then continuation packets under any categories, the one that completes
the message coming under category `B`: `msg_process` is entered with category `B`
and the descriptor resolved for (`A`, in, id) when the message was opened; the
payload is decoded with that descriptor and, when decoding succeeds, the handler
is the one `MessageProcessFunc` finds under (`B`, in, id). -/
theorem msg_read_calls_cross_category (env : Env) (A B : Nat) (s : State) (id L : Nat)
    (rest : List Nat) (mids : List (Nat × List Nat)) (pk : List Nat)
    (hidle : s.read_state = READSTATE_IDLE) (hin : s.msg_in.length = env.MSG_IN_SIZE)
    (h32 : env.MSG_IN_SIZE < 4294967296) (hid : id < 65536)
    (hreg : MessageFields env A 105 id ≠ 0) (hcap : L ≤ env.MSG_IN_SIZE)
    (hrest : rest.length = 55)
    (hall : ∀ c ∈ mids, c.2.length = 64 ∧ c.2.head? = some 63)
    (hpk : pk.length = 64) (hpm : pk.head? = some 63)
    (hlt : 55 + 63 * mids.length < L) (hge : L ≤ 55 + 63 * (mids.length + 1)) :
    ∃ s1,
      msg_read_calls env s
          ((A, [63, 35, 35, id / 256, id % 256, L / 16777216, L / 65536 % 256, L / 256 % 256,
              L % 256] ++ rest, 64) ::
            (mids.map (fun c => (c.1, c.2, 64)) ++ [(B, pk, 64)])) =
        some (s1, List.replicate (mids.length + 1) [] ++
          [Event.msg_process B id (MessageFields env A 105 id)
              ((rest ++ ((mids.map fun c => c.2.drop 1).flatten ++ pk.drop 1)).take L) L ::
            (if (env.pb_decode (MessageFields env A 105 id)
                  ((rest ++ ((mids.map fun c => c.2.drop 1).flatten ++ pk.drop 1)).take L)
                  (List.replicate env.MSG_IN_SIZE 0)).1 = true then
               MessageProcessFunc env B 105 id
                 (env.pb_decode (MessageFields env A 105 id)
                   ((rest ++ ((mids.map fun c => c.2.drop 1).flatten ++ pk.drop 1)).take L)
                   (List.replicate env.MSG_IN_SIZE 0)).2
             else [])]) ∧
        s1.read_state = READSTATE_IDLE ∧ s1.msg_pos = 0 := by
  have hpkt : [63, 35, 35, id / 256, id % 256, L / 16777216, L / 65536 % 256, L / 256 % 256,
      L % 256] ++ rest = 63 :: (msg_write_header id L ++ rest) := by
    have h1 : id / 256 % 256 = id / 256 := by omega
    have h2 : L / 16777216 % 256 = L / 16777216 := by omega
    simp [msg_write_header, h1, h2]
  obtain ⟨s2, ⟨h2rd, h2in, h2pos, h2sz, h2id, h2f⟩, hstep⟩ :
      ∃ s2 : State,
        (s2.read_state = READSTATE_READING ∧ s2.msg_in = rest ++ s.msg_in.drop 55 ∧
          s2.msg_pos = 55 ∧ s2.msg_size = L ∧ s2.msg_id = id ∧
          s2.fields = MessageFields env A 105 id) ∧
        msg_read_common env s A (63 :: (msg_write_header id L ++ rest)) 64 =
          some (msg_read_finish env s2 A) :=
    ⟨{ s with msg_id := id, msg_size := L, fields := MessageFields env A 105 id,
              read_state := READSTATE_READING, msg_in := rest ++ s.msg_in.drop 55,
              msg_pos := 55 },
      ⟨rfl, rfl, rfl, rfl, rfl, rfl⟩,
      msg_read_common_start env s A id L rest hidle hin (by omega) hid (by omega) hreg hcap
        hrest⟩
  rw [msg_read_finish_pending env s2 A (by omega)] at hstep
  obtain ⟨s1, hrun, hi, hz⟩ :=
    msg_read_calls_reassemble env B pk h32 hpk hpm mids s2 rest h2rd
      (by rw [h2in]; simp only [List.length_append, List.length_drop]; omega)
      (by omega) (by omega)
      (by rw [h2in, h2pos, ← hrest, List.take_left])
      hall (by omega) (by omega)
  rw [h2sz, h2id, h2f] at hrun
  refine ⟨s1, ?_, hi, hz⟩
  rw [hpkt, msg_read_calls]
  simp only [hstep, hrun, List.replicate_succ, List.cons_append]

/-- C20, evaluated: in `demo_env` message 1, registered inbound under the
normal category only, is opened under `'n'` and completed under `'d'`: it is
decoded with the descriptor of (`'n'`, in, 1), and since nothing is registered
under (`'d'`, in, 1) no handler is called. -/
theorem msg_read_calls_cross_category_witness :
    MessageFields demo_env 110 105 1 = 7 ∧ MessageFields demo_env 100 105 1 = 0 ∧
      ∃ s1,
        msg_read_calls demo_env (State.init demo_env)
            ((110, [63, 35, 35, 1 / 256, 1 % 256, 60 / 16777216, 60 / 65536 % 256,
                60 / 256 % 256, 60 % 256] ++ List.replicate 55 7, 64) ::
              (([] : List (Nat × List Nat)).map (fun (c : Nat × List Nat) => (c.1, c.2, 64)) ++
                [(100, 63 :: List.replicate 63 9, 64)])) =
          some (s1, List.replicate (([] : List (Nat × List Nat)).length + 1) [] ++
            [Event.msg_process 100 1 (MessageFields demo_env 110 105 1)
                ((List.replicate 55 7 ++
                  ((([] : List (Nat × List Nat)).map fun (c : Nat × List Nat) => c.2.drop 1).flatten ++
                    (63 :: List.replicate 63 9).drop 1)).take 60) 60 ::
              (if (demo_env.pb_decode (MessageFields demo_env 110 105 1)
                    ((List.replicate 55 7 ++
                      ((([] : List (Nat × List Nat)).map fun (c : Nat × List Nat) => c.2.drop 1).flatten ++
                        (63 :: List.replicate 63 9).drop 1)).take 60)
                    (List.replicate demo_env.MSG_IN_SIZE 0)).1 = true then
                 MessageProcessFunc demo_env 100 105 1
                   (demo_env.pb_decode (MessageFields demo_env 110 105 1)
                     ((List.replicate 55 7 ++
                       ((([] : List (Nat × List Nat)).map fun (c : Nat × List Nat) => c.2.drop 1).flatten ++
                         (63 :: List.replicate 63 9).drop 1)).take 60)
                     (List.replicate demo_env.MSG_IN_SIZE 0)).2
               else [])]) ∧
          s1.read_state = READSTATE_IDLE ∧ s1.msg_pos = 0 :=
  ⟨by decide, by decide,
   msg_read_calls_cross_category demo_env 110 100 (State.init demo_env) 1 60
     (List.replicate 55 7) [] (63 :: List.replicate 63 9)
     (by decide) (List.length_replicate _ _) (by decide) (by decide) (by decide) (by decide)
     (by decide) (by decide) (by decide) (by decide) (by decide) (by decide)⟩

/-! ## Claims on reachable reassembly states -/

/-- C14: with `MSG_IN_SIZE ≥ 55`, after every prefix of every sequence of
`msg_read_common` calls from the initial state, with arbitrary categories, bytes
and lengths (each buffer holding the `len` bytes announced): no copy has left
`msg_in`, the collected count is at most `MSG_IN_SIZE`, and in Reading the count
is below the declared length, which is at most `MSG_IN_SIZE`. -/
theorem msg_read_calls_bounds (env : Env) (calls : List (Nat × List Nat × Nat)) (n : Nat)
    (h55 : 55 ≤ env.MSG_IN_SIZE) (hwf : ∀ c ∈ calls, c.2.2 ≤ c.2.1.length) :
    ∃ s1 evs, msg_read_calls env (State.init env) (calls.take n) = some (s1, evs) ∧
      s1.msg_in.length = env.MSG_IN_SIZE ∧ s1.msg_pos ≤ env.MSG_IN_SIZE ∧
      (s1.read_state = READSTATE_IDLE ∨ s1.read_state = READSTATE_READING) ∧
      (s1.read_state = READSTATE_READING →
        s1.msg_pos < s1.msg_size ∧ s1.msg_size ≤ env.MSG_IN_SIZE) := by
  obtain ⟨s1, evs, hrun, hl, hp, hrs⟩ :=
    msg_read_calls_inv env h55 (calls.take n) (State.init env) (read_inv_init env)
      (fun c hc => hwf c (List.mem_of_mem_take hc))
  refine ⟨s1, evs, hrun, hl, hp, ?_, ?_⟩
  · rcases hrs with h | h
    · exact Or.inl h
    · exact Or.inr h.1
  · intro hr
    rcases hrs with h | h
    · rw [hr] at h
      exact absurd h (by decide)
    · exact h.2

/-- C14, evaluated: in `demo_env`, a start packet that declares 64 bytes and then
a packet of 64 bytes `'?'`. -/
theorem msg_read_calls_bounds_witness :
    55 ≤ demo_env.MSG_IN_SIZE ∧
      ∃ s1 evs,
        msg_read_calls demo_env (State.init demo_env)
            ([(110, [63, 35, 35, 0, 1, 0, 0, 0, 64] ++ List.replicate 55 7, 64),
              (100, List.replicate 64 63, 64)].take 1) = some (s1, evs) ∧
          s1.msg_in.length = demo_env.MSG_IN_SIZE ∧ s1.msg_pos ≤ demo_env.MSG_IN_SIZE ∧
          (s1.read_state = READSTATE_IDLE ∨ s1.read_state = READSTATE_READING) ∧
          (s1.read_state = READSTATE_READING →
            s1.msg_pos < s1.msg_size ∧ s1.msg_size ≤ demo_env.MSG_IN_SIZE) :=
  ⟨by decide,
   msg_read_calls_bounds demo_env
     [(110, [63, 35, 35, 0, 1, 0, 0, 0, 64] ++ List.replicate 55 7, 64),
      (100, List.replicate 64 63, 64)] 1 (by decide) (by decide)⟩

/-- C16: with at least one slot, the predicate "write slot index below `S`,
read cursor below `S`, in-slot offset 0" (on a ring of the declared size) holds
initially, and from any state where it holds every call of `msg_write_common`,
whatever the category, the id, the message and the behaviour of the encoder,
returns without a store outside `msg_out` and leaves it true, as does every call
of `msg_out_data`. -/
theorem ring_cursor_invariant (env : Env) (hS : 1 ≤ env.MSG_OUT_SIZE / 64) :
    ring_inv env (State.init env) ∧
      ∀ s, ring_inv env s →
        (∀ (type msg_id : Nat) (msg_ptr : List Nat),
          ∃ s1 r, msg_write_common env s type msg_id msg_ptr = some (s1, r) ∧
            ring_inv env s1) ∧
        ring_inv env (msg_out_data env s).1 := by
  refine ⟨ring_inv_init env hS, fun s hinv => ⟨?_, msg_out_data_inv env s hinv⟩⟩
  intro type msg_id msg_ptr
  obtain ⟨s1, r, _, hw, hinv1, _⟩ := msg_write_common_any env s type msg_id msg_ptr hinv
  exact ⟨s1, r, hw, hinv1⟩

/-- C16, evaluated: `demo_env` has two slots; the invariant holds at program
start and after writing message 1. -/
theorem ring_cursor_invariant_witness :
    1 ≤ demo_env.MSG_OUT_SIZE / 64 ∧ ring_inv demo_env (State.init demo_env) ∧
      ∃ s1 r, msg_write_common demo_env (State.init demo_env) 110 1 [1, 2, 3] = some (s1, r) ∧
        ring_inv demo_env s1 :=
  ⟨by decide, (ring_cursor_invariant demo_env (by decide)).1,
   ((ring_cursor_invariant demo_env (by decide)).2 (State.init demo_env)
      (ring_cursor_invariant demo_env (by decide)).1).1 110 1 [1, 2, 3]⟩

/-- C18: with at least one slot, every sequence of `msg_write_common` and
`msg_out_data` calls from the initial state runs without a store outside
`msg_out`; every packet `msg_out_data` returns in it is one of the packets of the
frames that the `msg_write_common` calls of the sequence wrote, hence a whole
slot of 64 bytes whose byte 0 is `'?'`, followed by frame bytes and then only
zero padding; and the in-slot offset is 0 whenever a call returns, so no slot is
handed out while it is being filled. -/
theorem ring_calls_packets_whole (env : Env) (calls : List RingCall)
    (hS : 1 ≤ env.MSG_OUT_SIZE / 64) :
    ∃ s1 pkts, ring_calls env (State.init env) calls = some (s1, pkts) ∧
      (∀ p ∈ pkts, p ∈ calls_packets env calls ∧ p.length = 64 ∧ p.head? = some 63) ∧
      s1.msg_out_cur = 0 := by
  obtain ⟨s1, pkts, hrun, hinv, hp⟩ :=
    ring_calls_slots_inv env (fun p => p ∈ calls_packets env calls) calls (State.init env)
      (slots_inv_init env _ hS) (fun p hp => hp)
  exact ⟨s1, pkts, hrun, fun p hpm => ⟨hp p hpm, calls_packets_shape env calls p (hp p hpm)⟩,
    hinv.1.2.2.2⟩

/-- C18, evaluated: in `demo_env`, one write and two reads. -/
theorem ring_calls_packets_whole_witness :
    1 ≤ demo_env.MSG_OUT_SIZE / 64 ∧
      ∃ s1 pkts,
        ring_calls demo_env (State.init demo_env)
            [RingCall.write 110 1 [1, 2, 3], RingCall.data, RingCall.data] =
          some (s1, pkts) ∧
          (∀ p ∈ pkts,
            p ∈ calls_packets demo_env
                [RingCall.write 110 1 [1, 2, 3], RingCall.data, RingCall.data] ∧
              p.length = 64 ∧ p.head? = some 63) ∧
          s1.msg_out_cur = 0 :=
  ⟨by decide,
   ring_calls_packets_whole demo_env
     [RingCall.write 110 1 [1, 2, 3], RingCall.data, RingCall.data] (by decide)⟩

/-! ## Claims on overflow -/

/-- C17: messages written one after the other, with no read in between, into a
ring with both cursors at slot 0, occupy `k` slots in total (`k > S` included):
the write cursor ends at `k mod S`, for each of the last `S` sequence numbers `q`
slot `q mod S` holds the `q`-th slot written, so that every slot holds the most
recently written slot of its residue and older contents are gone, and the reader
then obtains exactly `k mod S` packets, the last `k mod S` slots written in
write order, followed by `NULL`. -/
theorem msg_write_all_overflow (env : Env) (s : State) (msgs : List (Nat × List Nat))
    (hinv : ring_inv env s) (hstart : s.msg_out_start = 0) (hend : s.msg_out_end = 0) :
    ∃ s1, msg_write_all env s msgs = some s1 ∧
      s1.msg_out_end = (written_slots env msgs).length % (env.MSG_OUT_SIZE / 64) ∧
      (∀ q, q < (written_slots env msgs).length →
        (written_slots env msgs).length ≤ q + env.MSG_OUT_SIZE / 64 →
        (written_slots env msgs)[q]? =
          some (slot s1.msg_out (q % (env.MSG_OUT_SIZE / 64)))) ∧
      (msg_out_data_n env ((written_slots env msgs).length % (env.MSG_OUT_SIZE / 64) + 1) s1).2 =
        ((List.range ((written_slots env msgs).length % (env.MSG_OUT_SIZE / 64))).map fun t =>
          (written_slots env msgs)[(written_slots env msgs).length -
            (written_slots env msgs).length % (env.MSG_OUT_SIZE / 64) + t]?) ++ [none] := by
  obtain ⟨s1, hrun, hinv1, hst1, he1, hslots, _⟩ := msg_write_all_slots env msgs s hinv
  rw [hend, Nat.zero_add] at he1
  simp only [hend, Nat.zero_add] at hslots
  have hSpos : 0 < env.MSG_OUT_SIZE / 64 := by
    have := hinv.2.1
    omega
  have hr : (written_slots env msgs).length % (env.MSG_OUT_SIZE / 64) < env.MSG_OUT_SIZE / 64 :=
    Nat.mod_lt _ hSpos
  have hout := msg_out_data_n_run env 0 _ hr
    ((written_slots env msgs).length % (env.MSG_OUT_SIZE / 64)) 0 s1 (by omega)
    (by rw [hst1, hstart, Nat.add_zero, Nat.zero_mod])
    (by rw [he1, Nat.zero_add, Nat.mod_mod])
  refine ⟨s1, hrun, he1, hslots, ?_⟩
  rw [msg_out_data_n_add, hout]
  simp only [msg_out_data_n]
  rw [msg_out_data_empty env _ (by
    show (0 + (written_slots env msgs).length % (env.MSG_OUT_SIZE / 64)) %
      (env.MSG_OUT_SIZE / 64) = s1.msg_out_end
    rw [he1, Nat.zero_add, Nat.mod_mod])]
  congr 1
  apply List.map_congr_left
  intro t ht
  have htr := List.mem_range.mp ht
  have hdm := Nat.div_add_mod (written_slots env msgs).length (env.MSG_OUT_SIZE / 64)
  have hq : (written_slots env msgs).length -
      (written_slots env msgs).length % (env.MSG_OUT_SIZE / 64) + t =
      env.MSG_OUT_SIZE / 64 * ((written_slots env msgs).length / (env.MSG_OUT_SIZE / 64)) + t := by
    omega
  rw [hslots _ (by omega) (by omega), hq, Nat.mul_add_mod, Nat.zero_add, Nat.zero_add,
    Nat.mod_eq_of_lt (by omega)]

/-- C17, evaluated: three messages of one packet each into the two slots of
`demo_env`. -/
theorem msg_write_all_overflow_witness :
    (State.init demo_env).msg_out_start = 0 ∧ (State.init demo_env).msg_out_end = 0 ∧
      ∃ s1,
        msg_write_all demo_env (State.init demo_env) [(1, [1, 2, 3]), (1, [4]), (1, [5, 6])] =
            some s1 ∧
          s1.msg_out_end =
            (written_slots demo_env [(1, [1, 2, 3]), (1, [4]), (1, [5, 6])]).length %
              (demo_env.MSG_OUT_SIZE / 64) ∧
          (∀ q, q < (written_slots demo_env [(1, [1, 2, 3]), (1, [4]), (1, [5, 6])]).length →
            (written_slots demo_env [(1, [1, 2, 3]), (1, [4]), (1, [5, 6])]).length ≤
              q + demo_env.MSG_OUT_SIZE / 64 →
            (written_slots demo_env [(1, [1, 2, 3]), (1, [4]), (1, [5, 6])])[q]? =
              some (slot s1.msg_out (q % (demo_env.MSG_OUT_SIZE / 64)))) ∧
          (msg_out_data_n demo_env
              ((written_slots demo_env [(1, [1, 2, 3]), (1, [4]), (1, [5, 6])]).length %
                (demo_env.MSG_OUT_SIZE / 64) + 1) s1).2 =
            ((List.range
                ((written_slots demo_env [(1, [1, 2, 3]), (1, [4]), (1, [5, 6])]).length %
                  (demo_env.MSG_OUT_SIZE / 64))).map fun t =>
              (written_slots demo_env [(1, [1, 2, 3]), (1, [4]), (1, [5, 6])])[
                (written_slots demo_env [(1, [1, 2, 3]), (1, [4]), (1, [5, 6])]).length -
                  (written_slots demo_env [(1, [1, 2, 3]), (1, [4]), (1, [5, 6])]).length %
                    (demo_env.MSG_OUT_SIZE / 64) + t]?) ++ [none] :=
  ⟨rfl, rfl,
   msg_write_all_overflow demo_env (State.init demo_env) [(1, [1, 2, 3]), (1, [4]), (1, [5, 6])]
     (ring_inv_init demo_env (by decide)) rfl rfl⟩

end Messages
